import Mathlib

/-!
# Minotaur outer-approximation core: embedding and verified properties

A shallow embedding of the single-tree OA handler (`STOAHandler.cpp`), of the
root linearization generator (`Linearizations.cpp`), of the presolver
(`Presolver.cpp`), of the objective sense kept by `Bnb.cpp` and of the directory
of auxiliary variables (`YEqBivar.cpp`).  A C++ `double` is idealised
as an exact rational; the two infinities that the code writes literally
(`INFINITY`, `-INFINITY`) are kept as separate values of `ExtRat`.  An evaluation
whose error flag is raised is an `Option` that is `none`.
-/

namespace Minotaur

/-! ## Data model -/

/-- Modelled from the spec: a bound or objective value in [-inf, +inf]
(`double` with the literals `INFINITY` and `-INFINITY`). -/
inductive ExtRat where
  | negInf : ExtRat
  | fin : ℚ → ExtRat
  | posInf : ExtRat
deriving DecidableEq

/-- Modelled from the spec: semantic type of a variable (declared in `Types.h`). -/
inductive VariableType where
  | Binary : VariableType
  | Integer : VariableType
  | Continuous : VariableType
deriving DecidableEq

/-- Modelled from the spec: classification of a function (declared in `Types.h`). -/
inductive FunctionType where
  | Constant : FunctionType
  | Linear : FunctionType
  | Quadratic : FunctionType
  | Nonlinear : FunctionType
deriving DecidableEq

/-- Modelled from the spec: the thirteen engine statuses (declared in `Types.h`). -/
inductive EngineStatus where
  | ProvenOptimal : EngineStatus
  | ProvenLocalOptimal : EngineStatus
  | ProvenInfeasible : EngineStatus
  | ProvenLocalInfeasible : EngineStatus
  | ProvenObjectiveCutOff : EngineStatus
  | ProvenUnbounded : EngineStatus
  | EngineIterationLimit : EngineStatus
  | FailedFeas : EngineStatus
  | FailedInfeas : EngineStatus
  | ProvenFailedCQFeas : EngineStatus
  | ProvenFailedCQInfeas : EngineStatus
  | EngineError : EngineStatus
  | EngineUnknownStatus : EngineStatus
deriving DecidableEq

/-- Modelled from the spec: a variable with its index, type and bounds (`Variable.h`). -/
structure Variable where
  id : Nat
  index : Nat
  type : VariableType
  lb : ExtRat
  ub : ExtRat
deriving DecidableEq

/-- Modelled from the spec: a function as an evaluation oracle and a gradient oracle;
`none` stands for a raised error flag (`Function.h`). -/
structure Function where
  eval : List ℚ → Option ℚ
  gradient : List ℚ → Option (List ℚ)

/-- Modelled from the spec: a constraint `f(x) ≤ ub` of the source problem
(`Constraint.h`); `getActivity` is the evaluation of its function.  `nlf` and `qf`
are the nonlinear and the quadratic part of the function, null when absent;
the evaluation of `nlf` can raise the error flag.  `nlfVars` are the indices of
the variables of `nlf` in the order of its variable set, `qfTerms` the pairs of
variable indices of the terms of `qf` in the order of its term map, and
`lfTerms` the terms (variable index, coefficient) of the linear part in the
order of its term map, null when the linear part is absent. -/
structure Constraint where
  f : Function
  fType : FunctionType
  ub : ℚ
  name : String
  nlf : Option (List ℚ → Option ℚ) := none
  qf : Option (List ℚ → ℚ) := none
  nlfVars : List Nat := []
  qfTerms : List (Nat × Nat) := []
  lfTerms : Option (List (Nat × ℚ)) := none

/-- Modelled from the spec: the sense of an objective (declared in `Types.h`). -/
inductive ObjectiveType where
  | Minimize : ObjectiveType
  | Maximize : ObjectiveType
deriving DecidableEq

/-- Modelled from the spec: the status of a solve attempt (declared in `Types.h`). -/
inductive SolveStatus where
  | NotStarted : SolveStatus
  | Started : SolveStatus
  | Finished : SolveStatus
  | SolvedOptimal : SolveStatus
  | SolvedInfeasible : SolveStatus
  | SolvedUnbounded : SolveStatus
  | SolveError : SolveStatus
deriving DecidableEq

/-- Modelled from the spec: the objective of the source problem (`Objective.h`). -/
structure Objective where
  f : Function
  fType : FunctionType
  oType : ObjectiveType

/-- Modelled from the spec: the source problem, a list of variables, a list of
constraints and an objective (`Problem.h`). -/
structure Problem where
  vars : List Variable
  cons : List Constraint
  obj : Option Objective

/-- Modelled from the spec: a solution returned by an engine (`Solution.h`). -/
structure Solution where
  objValue : ℚ
  primal : List ℚ
deriving DecidableEq

/-- Modelled from the spec: the external NLP engine.  `run` is what a solve of
the loaded problem yields, `sol` the solution the engine currently holds. -/
structure Engine where
  run : Problem → EngineStatus × Solution
  sol : Solution

/-- Modelled from the spec: `Engine::solve` on the loaded problem. -/
def Engine.solve (e : Engine) (p : Problem) : Engine × EngineStatus :=
  ({ e with sol := (e.run p).2 }, (e.run p).1)

/-- Modelled from the spec: `Engine::getSolutionValue`. -/
def Engine.getSolutionValue (e : Engine) : ℚ := e.sol.objValue

/-- Modelled from the spec: the solution pool, append-only (`SolutionPool.h`). -/
abbrev SolutionPool := List Solution

/-- Modelled from the spec: `SolutionPool::addSolution` stores the solution. -/
def SolutionPool.addSolution (pool : SolutionPool) (sol : Solution) : SolutionPool :=
  pool ++ [sol]

/-- Modelled from the spec: `Problem::changeBound(var, lb, ub)`; a variable handle
is its position in the list of variables. -/
def Problem.changeBound (p : Problem) (var : Nat) (lb ub : ExtRat) : Problem :=
  match p.vars[var]? with
  | some v => { p with vars := p.vars.set var { v with lb := lb, ub := ub } }
  | none => p

/-- Modelled from the spec: the reversible bound modification `VarBoundMod2`
(`VarBoundMod.h`): the variable it acts on and a pair of bounds. -/
structure VarBoundMod2 where
  var_ : Nat
  lb_ : ExtRat
  ub_ : ExtRat
deriving DecidableEq

/-- Modelled from the spec: `VarBoundMod2::applyToProblem` sets the bounds of the
variable to the stored pair and keeps the bounds it replaced, which makes the
modification reversible. -/
def VarBoundMod2.applyToProblem (m : VarBoundMod2) (p : Problem) : Problem × VarBoundMod2 :=
  match p.vars[m.var_]? with
  | some v => (p.changeBound m.var_ m.lb_ m.ub_, { m with lb_ := v.lb, ub_ := v.ub })
  | none => (p, m)

/-- Modelled from the spec: `VarBoundMod2::undoToProblem` puts the kept bounds back. -/
def VarBoundMod2.undoToProblem (m : VarBoundMod2) (p : Problem) : Problem :=
  (m.applyToProblem p).1

/-- A linear function as its list of terms (variable index, coefficient). -/
structure LinearFunction where
  terms : List (Nat × ℚ)
deriving DecidableEq

/-- Modelled from the spec: a linear constraint of the relaxation. -/
structure LinConstraint where
  lf : LinearFunction
  lb : ExtRat
  ub : ExtRat
  name : String
deriving DecidableEq

/-- Modelled from the spec: the relaxation, with densely indexed variables
`0 .. numVars-1` and a list of linear constraints (`Relaxation.h`); `vars` holds
the variables copied from the source problem, which the generator reads for
their bounds. -/
structure Relaxation where
  numVars : Nat
  cons : List LinConstraint
  obj : Option LinearFunction := none
  vars : List Variable := []
deriving DecidableEq

/-- Modelled from the spec: `Relaxation::newVariable` adds a variable, which gets
the next index. -/
def Relaxation.newVariable (rel : Relaxation) : Relaxation :=
  { rel with numVars := rel.numVars + 1 }

/-- Modelled from the spec: `Relaxation::removeObjective`. -/
def Relaxation.removeObjective (rel : Relaxation) : Relaxation :=
  { rel with obj := none }

/-- Modelled from the spec: `Relaxation::newObjective` with a linear function. -/
def Relaxation.newObjective (rel : Relaxation) (lf : LinearFunction) : Relaxation :=
  { rel with obj := some lf }

/-- Modelled from the spec: the external MILP engine.  `run` is what a solve of
the loaded relaxation yields, `sol` the solution the engine currently holds. -/
structure MILPEngine where
  run : Relaxation → EngineStatus × Solution
  sol : Solution

/-- Modelled from the spec: `Relaxation::newConstraint` appends a constraint. -/
def Relaxation.newConstraint (rel : Relaxation) (lf : LinearFunction) (lb ub : ExtRat)
    (name : String) : Relaxation :=
  { rel with cons := rel.cons ++ [{ lf := lf, lb := lb, ub := ub, name := name }] }

/-- Modelled from the spec: `LinearFunction(a, vbeg, vend, tol)` walks the variables
with the dense array `a` and drops every coefficient below the threshold `tol`. -/
def LinearFunction.ofArray (a : List ℚ) (n : Nat) (tol : ℚ) : LinearFunction :=
  { terms := ((List.range n).filter (fun k => decide (tol ≤ |a.getD k 0|))).map
      (fun k => (k, a.getD k 0)) }

/-- The linear function `lf` is the gradient `g` over the variables `0 .. n-1` with
the entries below `tol` dropped: every term has a coefficient of absolute value at
least `tol` and carries the gradient entry of its variable, and every entry of
absolute value at least `tol` has its term. -/
def LinearFunction.IsDropOf (lf : LinearFunction) (g : List ℚ) (n : Nat) (tol : ℚ) : Prop :=
  (∀ t ∈ lf.terms, tol ≤ |t.2| ∧ t.1 < n ∧ t.2 = g.getD t.1 0) ∧
  (∀ k, k < n → tol ≤ |g.getD k 0| → (k, g.getD k 0) ∈ lf.terms)

/-- Modelled from the spec: `LinearFunction::eval(x)`, the sum of coefficient times
the value of the variable. -/
def LinearFunction.eval (lf : LinearFunction) (x : List ℚ) : ℚ :=
  (lf.terms.map (fun t => t.2 * x.getD t.1 0)).sum

/-- Modelled from the spec: `LinearFunction::addTerm(var, a)` adds the term `a * var`. -/
def LinearFunction.addTerm (lf : LinearFunction) (var : Nat) (a : ℚ) : LinearFunction :=
  { terms := lf.terms ++ [(var, a)] }

/-- The row of a linear constraint without its name: function, lower bound, upper
bound. -/
def LinConstraint.row (c : LinConstraint) : LinearFunction × ExtRat × ExtRat :=
  (c.lf, c.lb, c.ub)

/-- Modelled from the spec: `InnerProduct(x, a, n)`, the sum of `x[i] * a[i]` over
`i < n` (`Operations.h`). -/
def InnerProduct (x a : List ℚ) (n : Nat) : ℚ :=
  ((List.range n).map (fun i => x.getD i 0 * a.getD i 0)).sum

/-- Modelled from the spec: `Function::evalGradient(x, a, error)` writes the dense
gradient vector at `x` into the array `a`, or raises the error flag. -/
def Function.evalGradient (f : Function) (x : List ℚ) (a : List ℚ) : Option (List ℚ) :=
  match f.gradient x with
  | some g => some ((List.range a.length).map (fun k => g.getD k 0))
  | none => none

/-- The root cut of a function `f` with upper bound `ub` at the point `x`, in the
words of the spec: the gradient of `f` at `x` over the `n` variables of the
relaxation, entries below `tol` dropped, with lower bound -infinity and upper bound
`ub - (f(x) - grad f(x) · x)`, the product taken over the `m` variables of the
source problem. -/
def gradCut (f : Function) (x : List ℚ) (n m : Nat) (tol ub : ℚ) :
    LinearFunction × ExtRat × ExtRat :=
  (LinearFunction.ofArray ((List.range n).map (fun k => ((f.gradient x).getD []).getD k 0))
      n tol,
   ExtRat.negInf,
   ExtRat.fin (ub - ((f.eval x).getD 0 - InnerProduct x ((f.gradient x).getD []) m)))

/-! ## Rounding to `double` -/

/-- The power `2^e` for an integer exponent `e`. -/
def pow2 (e : ℤ) : ℚ :=
  if 0 ≤ e then ((2 ^ e.toNat : ℕ) : ℚ) else 1 / ((2 ^ (-e).toNat : ℕ) : ℚ)

/-- The integer nearest to `q`, the even one of the two when `q` lies halfway between
two integers. -/
def roundHalfEven (q : ℚ) : ℤ :=
  if q - ⌊q⌋ < 1 / 2 then ⌊q⌋
  else if q - ⌊q⌋ > 1 / 2 then ⌊q⌋ + 1
  else if ⌊q⌋ % 2 = 0 then ⌊q⌋ else ⌊q⌋ + 1

/-- The number of halvings that bring `n` below 2, which is the position of the leading
binary digit of `n`; the first argument bounds the number of steps. -/
def log2Loop : Nat → Nat → Nat
  | 0, _ => 0
  | fuel + 1, n => if n < 2 then 0 else log2Loop fuel (n / 2) + 1

/-- The exponent of the leading binary digit of a positive rational `a`: the integer
`k` with `2^k ≤ a < 2^(k+1)`. -/
def binExponent (a : ℚ) : ℤ :=
  let k0 : ℤ := (log2Loop a.num.natAbs a.num.natAbs : ℤ) - (log2Loop a.den a.den : ℤ)
  if pow2 k0 ≤ a then k0 else k0 - 1

/-- The value a `double` operation returns when its exact result is `q`: `q` rounded to
the nearest IEEE-754 binary64 number, ties to the even significand (53
significant bits, least exponent -1074).  The upper end of the exponent range is
left out: the operation embedded with it, the sum of a `double` and 0.5, does not
overflow. -/
def roundToDouble (q : ℚ) : ℚ :=
  if q = 0 then 0
  else
    let e : ℤ := max (binExponent |q| - 52) (-1074)
    let m : ℤ := roundHalfEven (|q| / pow2 e)
    (if q < 0 then -1 else 1) * (m : ℚ) * pow2 e

/-! ## The single-tree OA handler (`STOAHandler.cpp`) -/

/-- Counters of the handler (`STOAStats`). -/
structure STOAStats where
  milpS : Nat
  nlpS : Nat
  nlpF : Nat
  nlpI : Nat
  nlpIL : Nat
  milpIL : Nat
  cuts : Nat
deriving DecidableEq

/-- State of a `STOAHandler`: the members the embedded operations read or write. -/
structure STOAHandler where
  minlp_ : Problem
  nlCons_ : List Constraint
  nlpe_ : Engine
  nlpStatus_ : EngineStatus
  objVar_ : Nat
  oNl_ : Bool
  rel_ : Relaxation
  solPool_ : SolutionPool
  relobj_ : ℚ
  numCalls_ : Nat
  stats_ : STOAStats
  newUb_ : ExtRat
  nlpMods_ : List VarBoundMod2
  solAbsTol_ : ℚ
  solRelTol_ : ℚ
  conCoeff_tol : ℚ
  milpe_ : MILPEngine :=
    { run := fun _ => (EngineStatus.EngineUnknownStatus, { objValue := 0, primal := [] }),
      sol := { objValue := 0, primal := [] } }

namespace STOAHandler

/-- Loop of `STOAHandler::fixInts_` over the variables from position `i` on: each
Binary or Integer variable gets a `VarBoundMod2` fixing it to `floor(x + 0.5)`,
the modification is applied and pushed on `nlpMods_`.  The sum `xval + 0.5` is a
`double` addition, so it is the exact sum rounded to the nearest `double`; `floor`
of a `double` is exact. -/
def fixIntsLoop (x : List ℚ) : List Variable → Nat → Problem → List VarBoundMod2 →
    Problem × List VarBoundMod2
  | [], _, p, mods => (p, mods)
  | v :: vs, i, p, mods =>
    if v.type = VariableType.Binary ∨ v.type = VariableType.Integer then
      let xval : ℚ := x.getD v.index 0
      let xval : ℚ := ((⌊roundToDouble (xval + 1 / 2)⌋ : ℤ) : ℚ)
      let m : VarBoundMod2 := { var_ := i, lb_ := ExtRat.fin xval, ub_ := ExtRat.fin xval }
      let r := m.applyToProblem p
      fixIntsLoop x vs (i + 1) r.1 (r.2 :: mods)
    else
      fixIntsLoop x vs (i + 1) p mods

/-- Embedding of `STOAHandler::fixInts_`. -/
def fixInts_ (s : STOAHandler) (x : List ℚ) : STOAHandler :=
  let r := fixIntsLoop x s.minlp_.vars 0 s.minlp_ s.nlpMods_
  { s with minlp_ := r.1, nlpMods_ := r.2 }

/-- Loop of `STOAHandler::unfixInts_`: pop the top modification and undo it, until
the stack is empty. -/
def unfixIntsLoop : List VarBoundMod2 → Problem → Problem
  | [], p => p
  | m :: mods, p => unfixIntsLoop mods (m.undoToProblem p)

/-- Embedding of `STOAHandler::unfixInts_`. -/
def unfixInts_ (s : STOAHandler) : STOAHandler :=
  { s with minlp_ := unfixIntsLoop s.nlpMods_ s.minlp_, nlpMods_ := [] }

/-- The variable as `fixInts_` leaves it: an Integer or Binary variable is fixed to
`floor(lpx[index] + 0.5)`, the sum taken in `double`, any other variable is untouched. -/
def fixedVar (lpx : List ℚ) (v : Variable) : Variable :=
  if v.type = VariableType.Binary ∨ v.type = VariableType.Integer then
    { v with lb := ExtRat.fin ((⌊roundToDouble (lpx.getD v.index 0 + 1 / 2)⌋ : ℤ) : ℚ),
             ub := ExtRat.fin ((⌊roundToDouble (lpx.getD v.index 0 + 1 / 2)⌋ : ℤ) : ℚ) }
  else v

/-- Embedding of `STOAHandler::solveNLP_`. -/
def solveNLP_ (s : STOAHandler) : STOAHandler :=
  let r := s.nlpe_.solve s.minlp_
  { s with nlpe_ := r.1, nlpStatus_ := r.2, stats_ := { s.stats_ with nlpS := s.stats_.nlpS + 1 } }

/-- Embedding of `STOAHandler::fixedNLP(const double *lpx, const double *)`. -/
def fixedNLP2 (s : STOAHandler) (lpx : List ℚ) (_x : List ℚ) : STOAHandler × Bool :=
  let s := { s with numCalls_ := s.numCalls_ + 1, newUb_ := ExtRat.posInf }
  let s := s.fixInts_ lpx
  let s := s.solveNLP_
  let s := s.unfixInts_
  match s.nlpStatus_ with
  | EngineStatus.ProvenOptimal | EngineStatus.ProvenLocalOptimal =>
    ({ s with stats_ := { s.stats_ with nlpF := s.stats_.nlpF + 1 },
              newUb_ := ExtRat.fin s.nlpe_.getSolutionValue,
              solPool_ := s.solPool_.addSolution s.nlpe_.sol }, true)
  | EngineStatus.ProvenInfeasible | EngineStatus.ProvenLocalInfeasible
  | EngineStatus.ProvenObjectiveCutOff =>
    ({ s with stats_ := { s.stats_ with nlpI := s.stats_.nlpI + 1 } }, false)
  | EngineStatus.EngineIterationLimit =>
    ({ s with stats_ := { s.stats_ with nlpIL := s.stats_.nlpIL + 1 } }, false)
  | _ => (s, false)

/-- Embedding of `STOAHandler::fixedNLP(const double *lpx)`: after the `switch` every case that
ends in `break` reaches the final `return true`. -/
def fixedNLP (s : STOAHandler) (lpx : List ℚ) : STOAHandler × Bool :=
  let s := { s with numCalls_ := s.numCalls_ + 1, newUb_ := ExtRat.posInf }
  let s := s.fixInts_ lpx
  let s := s.solveNLP_
  let s := s.unfixInts_
  match s.nlpStatus_ with
  | EngineStatus.ProvenOptimal | EngineStatus.ProvenLocalOptimal =>
    ({ s with stats_ := { s.stats_ with nlpF := s.stats_.nlpF + 1 },
              newUb_ := ExtRat.fin s.nlpe_.getSolutionValue,
              solPool_ := s.solPool_.addSolution s.nlpe_.sol }, true)
  | EngineStatus.ProvenInfeasible | EngineStatus.ProvenLocalInfeasible
  | EngineStatus.ProvenObjectiveCutOff =>
    ({ s with stats_ := { s.stats_ with nlpI := s.stats_.nlpI + 1 } }, true)
  | EngineStatus.EngineIterationLimit =>
    ({ s with stats_ := { s.stats_ with nlpIL := s.stats_.nlpIL + 1 } }, true)
  | _ => (s, false)

/-- Embedding of `STOAHandler::linearAt_`: `a` is a zero-filled array over the variables of the
relaxation that receives the gradient; on success the linear function is built
from `a` with the threshold `conCoeff_tol`, and `c = fval - InnerProduct(x, a, n)`
with `n` the number of variables of the source problem.  `none` is a raised
error flag, in which case neither `lf` nor `c` is written. -/
def linearAt_ (s : STOAHandler) (f : Function) (fval : ℚ) (x : List ℚ) :
    Option (LinearFunction × ℚ) :=
  let n := s.rel_.numVars
  let a : List ℚ := List.replicate n 0
  let linCoeffTol := s.conCoeff_tol
  match f.evalGradient x a with
  | some a =>
    some (LinearFunction.ofArray a n linCoeffTol, fval - InnerProduct x a s.minlp_.vars.length)
  | none => none

/-- The out-parameters `rhs`, `varIdx`, `varCoeff` of the cut callbacks. -/
structure CutOut where
  rhs : ℚ
  varIdx : List Nat
  varCoeff : List ℚ
deriving DecidableEq

/-- The test `lpvio > solAbsTol_ || (b != 0 && lpvio > fabs(b) * solRelTol_)`. -/
def vioTest (s : STOAHandler) (vio b : ℚ) : Bool :=
  decide (vio > s.solAbsTol_) || (decide (b ≠ 0) && decide (vio > |b| * s.solRelTol_))

/-- The test `act > cUb + solAbsTol_ || (cUb != 0 && act > cUb + fabs(cUb) * solRelTol_)`. -/
def actTest (s : STOAHandler) (act cUb : ℚ) : Bool :=
  decide (act > cUb + s.solAbsTol_) ||
    (decide (cUb ≠ 0) && decide (act > cUb + |cUb| * s.solRelTol_))

/-- Embedding of `STOAHandler::addCut_`. -/
def addCut_ (s : STOAHandler) (nlpx lpx : List ℚ) (con : Constraint) (out : CutOut) :
    STOAHandler × CutOut :=
  match con.f.eval nlpx with
  | some act =>
    match s.linearAt_ con.f act nlpx with
    | some (lf, c) =>
      let cUb := con.ub
      let lpvio := max (lf.eval lpx - cUb + c) 0
      if s.vioTest lpvio (cUb - c) then
        ({ s with stats_ := { s.stats_ with cuts := s.stats_.cuts + 1 } },
         { rhs := cUb - c,
           varIdx := out.varIdx ++ lf.terms.map (fun t => t.1),
           varCoeff := out.varCoeff ++ lf.terms.map (fun t => t.2) })
      else (s, out)
    | none => (s, out)
  | none => (s, out)

/-- Embedding of `STOAHandler::cutToCons_`. -/
def cutToCons_ (s : STOAHandler) (con : Constraint) (nlpx lpx : List ℚ) (out : CutOut) :
    STOAHandler × CutOut :=
  match con.f.eval lpx with
  | some nlpact =>
    let cUb := con.ub
    if s.actTest nlpact cUb then s.addCut_ nlpx lpx con out else (s, out)
  | none => (s, out)

/-- Embedding of `STOAHandler::consCutAtLpSol_`; the loop over the terms pushes
`it->first->getIndex()` on `varIdx` and on `varCoeff`. -/
def consCutAtLpSol_ (s : STOAHandler) (con : Constraint) (lpx : List ℚ) (out : CutOut) :
    STOAHandler × CutOut :=
  match con.f.eval lpx with
  | some nlpact =>
    let cUb := con.ub
    if s.actTest nlpact cUb then
      match s.linearAt_ con.f nlpact lpx with
      | some (lf, c) =>
        let lpvio := max (lf.eval lpx - cUb + c) 0
        if s.vioTest lpvio (cUb - c) then
          ({ s with stats_ := { s.stats_ with cuts := s.stats_.cuts + 1 } },
           { rhs := cUb - c,
             varIdx := out.varIdx ++ lf.terms.map (fun t => t.1),
             varCoeff := out.varCoeff ++ lf.terms.map (fun t => (t.1 : ℚ)) })
        else (s, out)
      | none => (s, out)
    else (s, out)
  | none => (s, out)

/-- Embedding of `STOAHandler::objCutAtLpSol_`; the loop over the terms pushes
`it->first->getIndex()` on `varIdx` and on `varCoeff`. -/
def objCutAtLpSol_ (s : STOAHandler) (lpx : List ℚ) (out : CutOut) : STOAHandler × CutOut :=
  if s.oNl_ then
    match s.minlp_.obj with
    | some o =>
      match o.f.eval lpx with
      | some act =>
        let vio := max (act - s.relobj_) 0
        if s.vioTest vio s.relobj_ then
          match s.linearAt_ o.f act lpx with
          | some (lf, c) =>
            ({ s with stats_ := { s.stats_ with cuts := s.stats_.cuts + 1 } },
             { rhs := -1 * c,
               varIdx := out.varIdx ++ lf.terms.map (fun t => t.1) ++ [s.objVar_],
               varCoeff := out.varCoeff ++ lf.terms.map (fun t => (t.1 : ℚ)) ++ [-1] })
          | none => (s, out)
        else (s, out)
      | none => (s, out)
    | none => (s, out)
  else (s, out)

/-- Embedding of `STOAHandler::cutToObj_`. -/
def cutToObj_ (s : STOAHandler) (nlpx lpx : List ℚ) (out : CutOut) : STOAHandler × CutOut :=
  if s.oNl_ then
    match s.minlp_.obj with
    | some o =>
      match o.f.eval lpx with
      | some act =>
        let vio := max (act - s.relobj_) 0
        if s.vioTest vio s.relobj_ then
          match o.f.eval nlpx with
          | some act =>
            match s.linearAt_ o.f act nlpx with
            | some (lf, c) =>
              let vio := max (c + lf.eval lpx - s.relobj_) 0
              if s.vioTest vio (s.relobj_ - c) then
                let cuts := s.stats_.cuts + 1
                ({ s with stats_ := { s.stats_ with cuts := cuts },
                          rel_ := s.rel_.newConstraint (lf.addTerm s.objVar_ (-1)) ExtRat.negInf
                            (ExtRat.fin (-1 * c)) ("_OAObjcut_" ++ toString cuts) },
                 { rhs := -1 * c,
                   varIdx := out.varIdx ++ lf.terms.map (fun t => t.1) ++ [s.objVar_],
                   varCoeff := out.varCoeff ++ lf.terms.map (fun t => t.2) ++ [-1] })
              else (s, out)
            | none => (s, out)
          | none => (s, out)
        else (s, out)
      | none => (s, out)
    | none => (s, out)
  else (s, out)

/-- Embedding of `STOAHandler::OACutToObj`. -/
def OACutToObj (s : STOAHandler) (lpx : List ℚ) (out : CutOut) (ub : ℚ) :
    STOAHandler × CutOut :=
  let s := { s with relobj_ := ub }
  match s.nlpStatus_ with
  | EngineStatus.ProvenOptimal | EngineStatus.ProvenLocalOptimal =>
    s.cutToObj_ s.nlpe_.sol.primal lpx out
  | EngineStatus.EngineIterationLimit => s.objCutAtLpSol_ lpx out
  | _ => (s, out)

/-- Embedding of `STOAHandler::OACutToCons`. -/
def OACutToCons (s : STOAHandler) (lpx : List ℚ) (con : Constraint) (out : CutOut) :
    STOAHandler × CutOut :=
  match s.nlpStatus_ with
  | EngineStatus.ProvenOptimal | EngineStatus.ProvenLocalOptimal
  | EngineStatus.ProvenInfeasible | EngineStatus.ProvenLocalInfeasible
  | EngineStatus.ProvenObjectiveCutOff =>
    s.cutToCons_ con s.nlpe_.sol.primal lpx out
  | EngineStatus.EngineIterationLimit => s.consCutAtLpSol_ con lpx out
  | _ => (s, out)

/-- Body of the loop of `STOAHandler::addInitLinearX_` for one constraint. -/
def addInitLinearXCon (s : STOAHandler) (x : List ℚ) (con : Constraint) : STOAHandler :=
  match con.f.eval x with
  | some act =>
    match s.linearAt_ con.f act x with
    | some (lf, c) =>
      let cUb := con.ub
      let cuts := s.stats_.cuts + 1
      { s with stats_ := { s.stats_ with cuts := cuts },
               rel_ := s.rel_.newConstraint lf ExtRat.negInf (ExtRat.fin (cUb - c))
                 ("_STOAcut_" ++ toString cuts ++ "_AtRoot") }
    | none => s
  | none => s

/-- The part of `STOAHandler::addInitLinearX_` on the objective (`if (oNl_)`). -/
def addInitLinearXObj (s : STOAHandler) (x : List ℚ) : STOAHandler :=
  if s.oNl_ then
    match s.minlp_.obj with
    | some o =>
      match o.f.eval x with
      | some act =>
        let cuts := s.stats_.cuts + 1
        let s := { s with stats_ := { s.stats_ with cuts := cuts } }
        match s.linearAt_ o.f act x with
        | some (lf, c) =>
          { s with rel_ := s.rel_.newConstraint (lf.addTerm s.objVar_ (-1)) ExtRat.negInf
                     (ExtRat.fin (-1 * c)) ("_STOAObjcut_" ++ toString cuts ++ "_AtRoot") }
        | none => s
      | none => s
    | none => s
  else s

/-- Embedding of `STOAHandler::addInitLinearX_`. -/
def addInitLinearX_ (s : STOAHandler) (x : List ℚ) : STOAHandler :=
  addInitLinearXObj (s.nlCons_.foldl (fun st con => addInitLinearXCon st x con) s) x

/-- Result of the root operations: the new state, the out-parameter `isInf`, and
`assertFailed`, true when an `assert` of the source fails on the way (the state
and `isInf` are then those a build without assertions goes on with). -/
structure RelaxOut where
  s : STOAHandler
  isInf : Bool
  assertFailed : Bool

/-- Embedding of `STOAHandler::linearizeObj_`; the boolean is true when an `assert`
of the source fails (no objective, or a nonlinear objective that is not of type
Minimize). -/
def linearizeObj_ (s : STOAHandler) : STOAHandler × Bool :=
  match s.minlp_.obj with
  | none => (s, true)
  | some o =>
    let fType := o.fType
    if fType ≠ FunctionType.Linear ∧ fType ≠ FunctionType.Constant then
      let objType := o.oType
      let lf : LinearFunction := { terms := [] }
      let vPtr := s.rel_.numVars
      let rel := s.rel_.newVariable
      let rel := rel.removeObjective
      let lf := lf.addTerm vPtr 1
      let rel := rel.newObjective lf
      ({ s with oNl_ := true, rel_ := rel, objVar_ := vPtr },
       decide (objType ≠ ObjectiveType.Minimize))
    else (s, false)

/-- Embedding of `STOAHandler::initLinear_`. -/
def initLinear_ (s : STOAHandler) : RelaxOut :=
  let s := s.solveNLP_
  match s.nlpStatus_ with
  | EngineStatus.ProvenOptimal | EngineStatus.ProvenLocalOptimal =>
    let s := { s with stats_ := { s.stats_ with nlpF := s.stats_.nlpF + 1 } }
    { s := s.addInitLinearX_ s.nlpe_.sol.primal, isInf := false, assertFailed := false }
  | EngineStatus.EngineIterationLimit =>
    let s := { s with stats_ := { s.stats_ with nlpIL := s.stats_.nlpIL + 1 } }
    { s := s.addInitLinearX_ s.nlpe_.sol.primal, isInf := false, assertFailed := false }
  | EngineStatus.ProvenInfeasible | EngineStatus.ProvenLocalInfeasible
  | EngineStatus.ProvenObjectiveCutOff =>
    { s := { s with stats_ := { s.stats_ with nlpI := s.stats_.nlpI + 1 } },
      isInf := true, assertFailed := false }
  | _ => { s := s, isInf := false, assertFailed := true }

/-- Embedding of `STOAHandler::relax_`. -/
def relax_ (s : STOAHandler) : RelaxOut :=
  let s := { s with nlCons_ := s.nlCons_ ++ s.minlp_.cons.filter (fun (c : Constraint) =>
    decide (c.fType ≠ FunctionType.Constant ∧ c.fType ≠ FunctionType.Linear)) }
  let r := s.linearizeObj_
  let out := r.1.initLinear_
  { out with assertFailed := r.2 || out.assertFailed }

/-- Embedding of `STOAHandler::relaxInitInc`. -/
def relaxInitInc (s : STOAHandler) (rel : Relaxation) : RelaxOut :=
  relax_ { s with rel_ := rel }

/-- Result of `solveMILP`: the new state, the out-parameters `objfLb` and `sol`, and
`assertFailed`, true when the call ends in one of its `assert` statements. -/
structure MILPOut where
  s : STOAHandler
  objfLb : ℚ
  sol : Option Solution
  assertFailed : Bool

/-- Embedding of `STOAHandler::solveMILP`; `objfLb` and `sol` are the values the
out-parameters hold at entry. -/
def solveMILP (s : STOAHandler) (objfLb : ℚ) (sol : Option Solution) : MILPOut :=
  let r := s.milpe_.run s.rel_
  let lpStatus := r.1
  let s := { s with milpe_ := { s.milpe_ with sol := r.2 },
                    stats_ := { s.stats_ with milpS := s.stats_.milpS + 1 } }
  match lpStatus with
  | EngineStatus.ProvenOptimal | EngineStatus.ProvenLocalOptimal =>
    { s := s, objfLb := s.milpe_.sol.objValue, sol := some s.milpe_.sol,
      assertFailed := false }
  | EngineStatus.EngineIterationLimit =>
    { s := { s with stats_ := { s.stats_ with milpIL := s.stats_.milpIL + 1 } },
      objfLb := s.milpe_.sol.objValue, sol := some s.milpe_.sol, assertFailed := false }
  | _ => { s := s, objfLb := objfLb, sol := sol, assertFailed := true }

end STOAHandler

/-! ## The root linearization generator (`Linearizations.cpp`) -/

/-- Counters of the generator (`LinStats`). -/
structure LinStats where
  rs1Cuts : Nat
  rs2Cuts : Nat
  rs3Cuts : Nat
  rgs1Cuts : Nat
  rgs2Cuts : Nat
deriving DecidableEq

/-- State of a `Linearizations` object: the members the embedded operations read or
write.  `solAbsTol_` and `solRelTol_` hold the options `feasAbs_tol` and
`feasRel_tol`. -/
structure Linearizations where
  rel_ : Relaxation
  minlp_ : Problem
  nlCons_ : List Constraint
  solC_ : Option (List ℚ)
  nlpx_ : List ℚ
  rs1_ : ℚ
  rs2Per_ : ℚ
  rs2NbhSize_ : ℚ
  rs3_ : Nat
  rgs1_ : Bool
  rgs2_ : Bool
  solAbsTol_ : ℚ
  solRelTol_ : ℚ
  conCoeff_tol : ℚ
  stats_ : LinStats
  varPtrs_ : List Nat := []

namespace Linearizations

/-- Embedding of `Linearizations::linearAt_`, the same body as `STOAHandler::linearAt_`. -/
def linearAt_ (s : Linearizations) (f : Function) (fval : ℚ) (x : List ℚ) :
    Option (LinearFunction × ℚ) :=
  let n := s.rel_.numVars
  let a : List ℚ := List.replicate n 0
  let linCoeffTol := s.conCoeff_tol
  match f.evalGradient x a with
  | some a =>
    some (LinearFunction.ofArray a n linCoeffTol, fval - InnerProduct x a s.minlp_.vars.length)
  | none => none

/-- Embedding of `Linearizations::addCutAtRoot_`; the result is the new state, the returned
boolean and `newConId`, the index the new constraint gets in the relaxation. -/
def addCutAtRoot_ (s : Linearizations) (x : List ℚ) (con : Constraint) (newConId : Nat) :
    Linearizations × Bool × Nat :=
  match con.f.eval x with
  | some act =>
    match s.linearAt_ con.f act x with
    | some (lf, c) =>
      let cUb := con.ub
      let rs1Cuts := s.stats_.rs1Cuts + 1
      ({ s with stats_ := { s.stats_ with rs1Cuts := rs1Cuts },
                rel_ := s.rel_.newConstraint lf ExtRat.negInf (ExtRat.fin (cUb - c))
                  ("_OAcut_" ++ toString rs1Cuts ++ "_AtRoot") },
       true, s.rel_.cons.length)
    | none => (s, false, newConId)
  | none => (s, false, newConId)

/-- The `while (true)` loop of `Linearizations::lineSearchPt_` with a bound on the
number of bisection steps; `none` means the bound was reached.  The result is
`ptFound`, the point `x` and `nlpact` (0 when the evaluation failed, a value the
caller does not read). -/
def lineSearchLoop (s : Linearizations) (con : Constraint) :
    Nat → List ℚ → List ℚ → Option (Bool × List ℚ × ℚ)
  | 0, _, _ => none
  | fuel + 1, xl, xu =>
    let cUb := con.ub
    let x := (List.range s.minlp_.vars.length).map
      (fun i => 1 / 2 * (xl.getD i 0 + xu.getD i 0))
    match con.f.eval x with
    | some nlpact =>
      if nlpact > cUb + s.solAbsTol_ ∧ (cUb = 0 ∨ nlpact > cUb + |cUb| * s.solRelTol_) then
        lineSearchLoop s con fuel xl x
      else if |cUb - nlpact| ≤ s.solAbsTol_ ∨
          (cUb ≠ 0 ∧ |cUb - nlpact| ≤ |cUb| * s.solRelTol_) then
        some (true, x, nlpact)
      else
        lineSearchLoop s con fuel x xu
    | none => some (false, x, 0)

/-- Embedding of `Linearizations::lineSearchPt_`: bisection between `solC_` and `u`. -/
def lineSearchPt_ (s : Linearizations) (fuel : Nat) (u : List ℚ) (con : Constraint) :
    Option (Bool × List ℚ × ℚ) :=
  let numVars := s.minlp_.vars.length
  let xu := (List.range numVars).map (fun i => u.getD i 0)
  let xl := (List.range numVars).map (fun i => (s.solC_.getD []).getD i 0)
  lineSearchLoop s con fuel xl xu

/-- Embedding of `Linearizations::cutAtLineSearchPt_`.  The local `error` is 0 when it is
tested, so the constraint is built whatever `linearAt_` reports: when `linearAt_`
fails, `lf` is still the null function and `c` still uninitialised (`cUninit`). -/
def cutAtLineSearchPt_ (s : Linearizations) (fuel : Nat) (xout : List ℚ) (con : Constraint)
    (cUninit : ℚ) : Option (Linearizations × Bool × List ℚ) :=
  match s.lineSearchPt_ fuel xout con with
  | none => none
  | some (lsPtFound, xnew, nlpact) =>
    if lsPtFound then
      let cUb := con.ub
      let r : LinearFunction × ℚ :=
        match s.linearAt_ con.f nlpact xnew with
        | some r => r
        | none => ({ terms := [] }, cUninit)
      let rs3Cuts := s.stats_.rs3Cuts + 1
      some ({ s with stats_ := { s.stats_ with rs3Cuts := rs3Cuts },
                     rel_ := s.rel_.newConstraint r.1 ExtRat.negInf (ExtRat.fin (cUb - r.2))
                       ("_OAcut_" ++ toString rs3Cuts) },
            true, xnew)
    else some (s, false, xnew)

/-- Embedding of `Linearizations::rScheme2Cut_`; the result is the new state together with
`delta`, `lastSlope` and the array `grad`.  The activity at `npt` is read without
looking at its error flag (taken as 0 when the evaluation fails). -/
def rScheme2Cut_ (s : Linearizations) (con : Constraint) (delta lVarCoeff lastSlope : ℚ)
    (nVarIdx : Nat) (npt grad : List ℚ) : Linearizations × ℚ × ℚ × List ℚ :=
  match con.f.evalGradient npt grad with
  | none => (s, delta, lastSlope, grad)
  | some grad =>
    let newSlope := -1 * (grad.getD nVarIdx 0 / lVarCoeff)
    if (lastSlope = 0 ∧ newSlope = 0) ∨
        (lastSlope ≠ 0 ∧ |(newSlope - lastSlope) / lastSlope| * 100 < s.rs2Per_) then
      (s, 2 * delta, lastSlope, grad)
    else
      let lastSlope := newSlope
      let linCoeffTol := s.conCoeff_tol
      let cUb := con.ub
      let act := (con.f.eval npt).getD 0
      let lf := LinearFunction.ofArray grad s.rel_.numVars linCoeffTol
      let c := act - InnerProduct npt grad s.minlp_.vars.length
      let rs2Cuts := s.stats_.rs2Cuts + 1
      ({ s with stats_ := { s.stats_ with rs2Cuts := rs2Cuts },
                rel_ := s.rel_.newConstraint lf ExtRat.negInf (ExtRat.fin (cUb - c))
                  ("_OAcut_" ++ toString rs2Cuts ++ "_AtRoot") },
       delta, lastSlope, grad)

end Linearizations

/-! ## The presolver (`Presolver.cpp`) -/

/-- Modelled from the spec: the comparison `a <= b` of two bounds in [-inf, +inf]. -/
def ExtRat.ble : ExtRat → ExtRat → Bool
  | ExtRat.negInf, _ => true
  | _, ExtRat.posInf => true
  | ExtRat.fin a, ExtRat.fin b => decide (a ≤ b)
  | _, _ => false

/-- Modelled from the spec: the comparison `a < b` of two bounds in [-inf, +inf]. -/
def ExtRat.blt (a b : ExtRat) : Bool := !(b.ble a)

/-- Modelled from the spec: the negation of a bound in [-inf, +inf]. -/
def ExtRat.neg : ExtRat → ExtRat
  | ExtRat.negInf => ExtRat.posInf
  | ExtRat.fin a => ExtRat.fin (-a)
  | ExtRat.posInf => ExtRat.negInf

/-- Modelled from the spec: the function multiplied by -1 (value and gradient). -/
def Function.neg (f : Function) : Function :=
  { eval := fun x => (f.eval x).map (fun v => -v),
    gradient := fun x => (f.gradient x).map (fun g => g.map (fun v => -v)) }

/-- Modelled from the spec: a constraint as the triple (function, lb, ub) with
bounds in [-inf, +inf] (`Constraint.h`), as the presolver reads it. -/
structure RangeConstraint where
  f : Function
  lb : ExtRat
  ub : ExtRat
  name : String

/-- Modelled from the spec: the problem the presolver works on: variables,
constraints with two-sided bounds, and an objective (`Problem.h`). -/
structure RangeProblem where
  vars : List Variable
  cons : List RangeConstraint
  obj : Option Objective

/-- Modelled from the spec: `Problem::reverseSense` on one constraint: the function
is negated and the bounds (lb, ub) become (-ub, -lb). -/
def RangeConstraint.reverseSense (c : RangeConstraint) : RangeConstraint :=
  { c with f := c.f.neg, lb := c.ub.neg, ub := c.lb.neg }

/-- Modelled from the spec: `Problem::negateObj`: a maximization becomes the
minimization of the negated objective. -/
def RangeProblem.negateObj (p : RangeProblem) : RangeProblem :=
  match p.obj with
  | some o => { p with obj := some { o with f := o.f.neg, oType := ObjectiveType.Minimize } }
  | none => p

/-- Modelled from the spec: a record of a presolve transformation, which maps a
solution of the presolved problem back (`PreMod.h`). -/
structure PreMod where
  postsolveGetX : List ℚ → List ℚ

/-- What a call `presolve(&mods_, &changed, &sol_)` of a handler leaves: the memory
of the handlers, the problem, the modifications, the flag `changed`, the solution
and the returned status. -/
structure HandlerOut (σ : Type) where
  hmem : σ
  problem : RangeProblem
  mods : List PreMod
  changed : Bool
  sol : Option Solution
  status : SolveStatus

/-- Modelled from the spec: a presolve handler (`Handler.h`); its behaviour is any
function of the memory of the handlers, the problem, the modifications and the
solution found so far.  It is called with `changed = false`. -/
structure Handler (σ : Type) where
  presolve : σ → RangeProblem → List PreMod → Option Solution → HandlerOut σ

/-- State of a `Presolver`; `hmem` is the memory of its handlers. -/
structure Presolver (σ : Type) where
  eTol_ : ℚ
  handlers_ : List (Handler σ)
  intTol_ : ℚ
  problem_ : RangeProblem
  mods_ : List PreMod
  sol_ : Option Solution
  status_ : SolveStatus
  hmem : σ

namespace Presolver

/-- What one handler call reported: the flag `changed`, the returned status, and
whether `sol_` is non-null after the call. -/
structure CallRecord where
  changed : Bool
  status : SolveStatus
  solPresent : Bool
deriving DecidableEq

/-- The local variables of `Presolver::solve` together with the presolver, and
`log`, the record of the handler calls made so far, the most recent first (kept to
state properties, not read by the code). -/
structure SolveState (σ : Type) where
  p : Presolver σ
  changed : Bool
  stop : Bool
  iters : Nat
  subiters : Int
  last_ch_subiter : Int
  log : List CallRecord

/-- The handler call returned one of the three statuses that end the presolve. -/
def CallRecord.solved (r : CallRecord) : Prop :=
  r.status = SolveStatus.SolvedOptimal ∨ r.status = SolveStatus.SolvedInfeasible ∨
    r.status = SolveStatus.SolvedUnbounded

/-- The status that `solve` takes from a handler call that ends the presolve:
`SolveError` for `SolvedOptimal` without a solution, the returned status
otherwise. -/
def CallRecord.endStatus (r : CallRecord) : SolveStatus :=
  if r.status = SolveStatus.SolvedOptimal ∧ r.solPresent = false then SolveStatus.SolveError
  else r.status

/-- Invariant of the loops of `solve` on the status: while `stop` is false no call
has returned a `Solved` status and `status_` is `Started`; once `stop` is true, only
the most recent call can have returned one, and `status_` is its end status. -/
def SolveState.StatusInv {σ : Type} (st : SolveState σ) : Prop :=
  (st.stop = false → (∀ r ∈ st.log, ¬ r.solved) ∧ st.p.status_ = SolveStatus.Started) ∧
  (st.stop = true → (∀ r ∈ st.log.tail, ¬ r.solved) ∧
    ∀ r, st.log.head? = some r →
      (r.solved → st.p.status_ = r.endStatus) ∧
      (¬ r.solved → st.p.status_ = SolveStatus.Started))

/-- Invariant of the loops of `solve` on the changes, `n` the number of handlers:
while `stop` is false, `subiters` counts the calls made and no call after the one
numbered `last_ch_subiter` reported a change; once `stop` is true with `status_`
still `Started`, none of the `n - 1` most recent calls reported a change. -/
def SolveState.ChangeInv {σ : Type} (n : Int) (st : SolveState σ) : Prop :=
  (st.stop = false →
    (st.last_ch_subiter = -10000 ∨ 0 ≤ st.last_ch_subiter) ∧
    st.last_ch_subiter < st.subiters ∧ st.subiters = st.log.length ∧
    ∀ r ∈ st.log.take (st.log.length - (st.last_ch_subiter + 1).toNat), r.changed = false) ∧
  (st.stop = true → st.p.status_ = SolveStatus.Started →
    (n - 1).toNat ≤ st.log.length ∧ ∀ r ∈ st.log.take (n - 1).toNat, r.changed = false)

/-- The body of the `for` loop of `Presolver::solve` for the handler `h`: the state
it leaves, and whether it ends in `break`. -/
def forBody {σ : Type} (n_hand : Int) (h : Handler σ) (st : SolveState σ) :
    SolveState σ × Bool :=
  let out := h.presolve st.p.hmem st.p.problem_ st.p.mods_ st.p.sol_
  let st := { st with
    p := { st.p with hmem := out.hmem, problem_ := out.problem, mods_ := out.mods,
                     sol_ := out.sol },
    changed := out.changed,
    log := { changed := out.changed, status := out.status,
             solPresent := out.sol.isSome } :: st.log }
  let h_status := out.status
  if h_status = SolveStatus.SolvedOptimal then
    let st := { st with p := { st.p with status_ := SolveStatus.SolvedOptimal },
                        stop := true }
    if st.p.sol_.isNone = true then
      ({ st with p := { st.p with status_ := SolveStatus.SolveError } }, true)
    else (st, true)
  else if h_status = SolveStatus.SolvedInfeasible ∨
      h_status = SolveStatus.SolvedUnbounded then
    ({ st with p := { st.p with status_ := h_status }, stop := true }, true)
  else
    let st := if st.changed = true then { st with last_ch_subiter := st.subiters } else st
    if st.subiters > n_hand - 2 ∧ st.subiters - st.last_ch_subiter > n_hand - 2 then
      ({ st with stop := true }, true)
    else
      ({ st with subiters := st.subiters + 1 }, false)

/-- The `for` loop over the handlers in `Presolver::solve`, from the handler at the
head of the list on; `n_hand` is the number of handlers. -/
def forLoop {σ : Type} (n_hand : Int) : List (Handler σ) → SolveState σ → SolveState σ
  | [], st => st
  | h :: hs, st =>
    let r := forBody n_hand h st
    if r.2 = true then r.1 else forLoop n_hand hs r.1

/-- The `while (true==changed && false==stop && iters<5)` loop of
`Presolver::solve` with a bound on the number of major iterations; `none` means
that the bound was reached with the condition of the loop still true. -/
def whileLoop {σ : Type} (n_hand : Int) (handlers : List (Handler σ)) :
    Nat → SolveState σ → Option (SolveState σ)
  | 0, st => if st.changed = true ∧ st.stop = false ∧ st.iters < 5 then none else some st
  | fuel + 1, st =>
    if st.changed = true ∧ st.stop = false ∧ st.iters < 5 then
      let st := forLoop n_hand handlers st
      whileLoop n_hand handlers fuel { st with iters := st.iters + 1 }
    else some st

/-- The state of `Presolver::solve` when its `while` loop ends. -/
def solveRun {σ : Type} (fuel : Nat) (p : Presolver σ) : Option (SolveState σ) :=
  let n_hand : Int := p.handlers_.length
  whileLoop n_hand p.handlers_ fuel
    { p := { p with status_ := SolveStatus.Started },
      changed := true, stop := false, iters := 0, subiters := 0,
      last_ch_subiter := -10000, log := [] }

/-- Embedding of `Presolver::solve`: the presolver it leaves and the status it
returns.  The statistics, size and display calls after the loop do not change
either. -/
def solve {σ : Type} (fuel : Nat) (p : Presolver σ) : Option (Presolver σ × SolveStatus) :=
  match solveRun fuel p with
  | none => none
  | some st =>
    let p := if SolveStatus.Started = st.p.status_ then
      { st.p with status_ := SolveStatus.Finished } else st.p
    some (p, p.status_)

/-- Embedding of `Presolver::minimizify_`. -/
def minimizify_ {σ : Type} (p : Presolver σ) : Presolver σ :=
  match p.problem_.obj with
  | some oPtr =>
    if oPtr.oType = ObjectiveType.Maximize then
      { p with problem_ := p.problem_.negateObj }
    else p
  | none => p

/-- Embedding of `Presolver::ifIntsAreBins_`. -/
def ifIntsAreBins_ {σ : Type} (p : Presolver σ) : Presolver σ :=
  { p with problem_ := { p.problem_ with vars := p.problem_.vars.map (fun v_ptr =>
      if v_ptr.type = VariableType.Integer then
        let lb := v_ptr.lb
        let ub := v_ptr.ub
        if ub.ble (ExtRat.fin (1 + p.intTol_)) = true ∧
            (ExtRat.fin (-p.intTol_)).ble lb = true then
          { v_ptr with type := VariableType.Binary }
        else v_ptr
      else v_ptr) } }

/-- Embedding of `Presolver::standardizeConstraints_`. -/
def standardizeConstraints_ {σ : Type} (p : Presolver σ) : Presolver σ :=
  { p with problem_ := { p.problem_ with cons := p.problem_.cons.map (fun c_ptr =>
      if ExtRat.negInf.blt c_ptr.lb = true ∧ ExtRat.posInf.ble c_ptr.ub = true then
        c_ptr.reverseSense
      else c_ptr) } }

/-- Embedding of `Presolver::standardize`. -/
def standardize {σ : Type} (p : Presolver σ) : Presolver σ :=
  standardizeConstraints_ (ifIntsAreBins_ (minimizify_ p))

/-- The loop of `Presolver::getX` over the modifications: `xx` is the current
vector, `newx` the content of the output vector. -/
def getXLoop : List PreMod → List ℚ → List ℚ → List ℚ
  | [], _, newx => newx
  | m :: ms, xx, _ =>
    let newx := m.postsolveGetX xx
    getXLoop ms newx newx

/-- Embedding of `Presolver::getX`; `newx` is the content of the output vector at
entry. -/
def getX {σ : Type} (p : Presolver σ) (x newx : List ℚ) : List ℚ :=
  if p.mods_.length > 0 then
    let xx := (List.range p.problem_.vars.length).map (fun i => x.getD i 0)
    getXLoop p.mods_ xx newx
  else
    (List.range p.problem_.vars.length).map (fun i => x.getD i 0)

end Presolver

/-! ## The branch-and-bound driver (`Bnb.cpp`) -/

/-- State of `Bnb`: the members the embedded part reads or writes. -/
structure Bnb where
  objSense_ : ℚ
  oinst_ : RangeProblem

namespace Bnb

/-- Embedding of `Bnb::presolve_` up to and including `pres->standardize()`: the
presolver is constructed on `oinst_` with the handlers and standardized.  The
call `pres->solve()` that follows when the option `presolve` is set is not part
of this embedding. -/
def presolve_ {σ : Type} (b : Bnb) (handlers : List (Handler σ)) (hmem : σ) : Presolver σ :=
  let pres : Presolver σ :=
    { eTol_ := 1 / 100000000,
      handlers_ := handlers,
      intTol_ := 1 / 1000000,
      problem_ := b.oinst_,
      mods_ := [],
      sol_ := none,
      status_ := SolveStatus.NotStarted,
      hmem := hmem }
  Presolver.standardize pres

/-- Embedding of `Bnb::solve` from the assignment of `oinst_` to the return of
`presolve_`: the objective sense is recorded, then the problem is presolved.
The presolver works on the object `oinst_` points to, so `oinst_` is the
standardized problem afterwards. -/
def solve {σ : Type} (b : Bnb) (p : RangeProblem) (handlers : List (Handler σ)) (hmem : σ) :
    Bnb × Presolver σ :=
  let b := { b with oinst_ := p }
  let b :=
    match b.oinst_.obj with
    | some o =>
      if o.oType = ObjectiveType.Maximize then { b with objSense_ := -1 }
      else { b with objSense_ := 1 }
    | none => { b with objSense_ := 1 }
  let pres := b.presolve_ handlers hmem
  ({ b with oinst_ := pres.problem_ }, pres)

end Bnb

/-! ## The directory of auxiliary variables (`YEqBivar.cpp`) -/

/-- State of a `YEqBivar`: five parallel vectors.  A variable handle is a value of
the type `V`; two handles are equal when they point to the same variable. -/
structure YEqBivar (V : Type) where
  y_ : List V
  v1_ : List V
  v2_ : List V
  hash1_ : List Nat
  hash2_ : List Nat

namespace YEqBivar

/-- Embedding of the constructor `YEqBivar::YEqBivar()`: all vectors are empty. -/
def new (V : Type) : YEqBivar V :=
  { y_ := [], v1_ := [], v2_ := [], hash1_ := [], hash2_ := [] }

/-- The `for` loop of `YEqBivar::findY` from the index `i` on, with `n` iterations
left; `none` is the null handle. -/
def findYLoop {V : Type} [DecidableEq V] (t : YEqBivar V) (key1 key2 : Nat) (v1 v2 : V) :
    Nat → Nat → Option V
  | 0, _ => none
  | n + 1, i =>
    if t.hash1_[i]? = some key1 ∧ t.hash2_[i]? = some key2 ∧
        some v1 = t.v1_[i]? ∧ some v2 = t.v2_[i]? then
      t.y_[i]?
    else findYLoop t key1 key2 v1 v2 n (i + 1)

/-- Embedding of `YEqBivar::findY`; `getId` is `Variable::getId`. -/
def findY {V : Type} [DecidableEq V] (getId : V → Nat) (t : YEqBivar V) (v1 v2 : V) :
    Option V :=
  let key1 := getId v1
  let key2 := getId v2
  findYLoop t key1 key2 v1 v2 t.v1_.length 0

/-- Embedding of `YEqBivar::insert`. -/
def insert {V : Type} (getId : V → Nat) (t : YEqBivar V) (auxvar v1 v2 : V) : YEqBivar V :=
  { v1_ := t.v1_ ++ [v1],
    v2_ := t.v2_ ++ [v2],
    hash1_ := t.hash1_ ++ [getId v1],
    hash2_ := t.hash2_ ++ [getId v2],
    y_ := t.y_ ++ [auxvar] }

/-- The table after a sequence of `insert` calls on a new table; a call is the
triple (auxvar, v1, v2). -/
def afterInserts {V : Type} (getId : V → Nat) (calls : List (V × V × V)) : YEqBivar V :=
  calls.foldl (fun t c => insert getId t c.1 c.2.1 c.2.2) (new V)

end YEqBivar


/-! ## Violation tests and the center problem -/

/-- The loop of `Linearizations::maxVio` over the constraints from position `i` on; the
pair is `max` and the out-parameter `index`. -/
def Linearizations.maxVioLoop (s : Linearizations) (x : List ℚ) :
    List Constraint → Int → ExtRat × Int → ExtRat × Int
  | [], _, r => r
  | c :: cs, i, (max, index) =>
    match c.f.eval x with
    | some act =>
      let cUb := c.ub
      if act > cUb + s.solAbsTol_ ∧ (cUb = 0 ∨ act > cUb + |cUb| * s.solRelTol_) then
        let vio := if |cUb| > s.solAbsTol_ then 100 * (act - cUb) / |cUb| else act - cUb
        if max.blt (ExtRat.fin vio) = true then
          Linearizations.maxVioLoop s x cs (i + 1) (ExtRat.fin vio, i)
        else Linearizations.maxVioLoop s x cs (i + 1) (max, index)
      else Linearizations.maxVioLoop s x cs (i + 1) (max, index)
    | none => Linearizations.maxVioLoop s x cs (i + 1) (max, index)

/-- Embedding of `Linearizations::maxVio`; the result is the returned `max` and the
out-parameter `index`. -/
def Linearizations.maxVio (s : Linearizations) (x : List ℚ) (index : Int) : ExtRat × Int :=
  Linearizations.maxVioLoop s x s.nlCons_ 0 (ExtRat.negInf, index)

/-- The point `x` of `n` coordinates lies on the segment between `c` and `u`:
`x = (1 - t) * c + t * u` for some `t` in [0, 1]. -/
def OnSegment (c u : List ℚ) (n : Nat) (x : List ℚ) : Prop :=
  ∃ t : ℚ, 0 ≤ t ∧ t ≤ 1 ∧ x.length = n ∧
    ∀ i, i < n → x.getD i 0 = (1 - t) * c.getD i 0 + t * u.getD i 0

/-- Modelled from the spec: `Problem::getObjValue(x, error)`, the value of the
objective at `x`, and 0 when there is no objective. -/
def Problem.getObjValue (p : Problem) (x : List ℚ) : Option ℚ :=
  match p.obj with
  | some o => o.f.eval x
  | none => some 0

/-- The loop of `STOAHandler::isFeas` over the nonlinear constraints; `false` is the
early `return false`. -/
def STOAHandler.isFeasLoop (s : STOAHandler) (x : List ℚ) : List Constraint → Bool
  | [] => true
  | c :: cs =>
    match c.f.eval x with
    | some act =>
      let cUb := c.ub
      if act > cUb + s.solAbsTol_ ∨ (cUb ≠ 0 ∧ act > cUb + |cUb| * s.solRelTol_) then false
      else STOAHandler.isFeasLoop s x cs
    | none => false

/-- Embedding of `STOAHandler::isFeas`; the new state carries `relobj_`, which is
written when the objective is nonlinear and no constraint failed. -/
def STOAHandler.isFeas (s : STOAHandler) (x : List ℚ) : STOAHandler × Bool :=
  if s.isFeasLoop x s.nlCons_ = false then (s, false)
  else if s.oNl_ = true then
    let relobj_ := x.getD s.objVar_ 0
    let s := { s with relobj_ := relobj_ }
    match s.minlp_.getObjValue x with
    | some act =>
      if act > relobj_ + s.solAbsTol_ ∨
          (relobj_ ≠ 0 ∧ act > relobj_ + |relobj_| * s.solRelTol_) then (s, false)
      else (s, true)
    | none => (s, false)
  else (s, true)

/-- Modelled from the spec: a constraint as `findCenter` reads it: the linear part of
its function (null when there is none), the rest of the function (quadratic and
nonlinear parts), the function type and the bounds in [-inf, +inf]. -/
structure SplitConstraint where
  lf : Option LinearFunction
  nlf : Option Function
  fType : FunctionType
  lb : ExtRat
  ub : ExtRat
  name : String

/-- The row of a constraint without its name and function type: linear part, rest
of the function, lower bound, upper bound. -/
def SplitConstraint.row (c : SplitConstraint) :
    Option LinearFunction × Option Function × ExtRat × ExtRat :=
  (c.lf, c.nlf, c.lb, c.ub)

/-- Modelled from the spec: an objective with its function split like that of a
`SplitConstraint`. -/
structure SplitObjective where
  lf : Option LinearFunction
  nlf : Option Function
  oType : ObjectiveType

/-- Modelled from the spec: a problem whose constraints are read as
`SplitConstraint` (`Problem.h`). -/
structure SplitProblem where
  vars : List Variable
  cons : List SplitConstraint
  obj : Option SplitObjective

namespace Linearizations

/-- The body of the first loop of `findCenter` on one constraint; `eta` is the index
of the new variable.  The result is the constraint after `changeConstraint` (or
untouched), whether it was marked for deletion, and whether it was pushed on
`cp`.  A Linear constraint is taken to have a linear function. -/
def findCenterCon (eta : Nat) (con : SplitConstraint) : SplitConstraint × Bool × Bool :=
  let lb := con.lb
  let ub := con.ub
  let fType := con.fType
  if fType = FunctionType.Constant then (con, false, false)
  else if fType = FunctionType.Linear then
    if lb ≠ ExtRat.negInf ∧ ub ≠ ExtRat.posInf then
      if lb = ub then (con, false, false)
      else (con, true, true)
    else if lb ≠ ExtRat.negInf then
      let ub := ExtRat.posInf
      let lfc := (con.lf.getD { terms := [] }).addTerm eta 1
      ({ con with lf := some lfc, lb := lb, ub := ub }, false, false)
    else if ub ≠ ExtRat.posInf then
      let lb := ExtRat.negInf
      let lfc := (con.lf.getD { terms := [] }).addTerm eta (-1)
      ({ con with lf := some lfc, lb := lb, ub := ub }, false, false)
    else (con, true, false)
  else
    let lfc :=
      match con.lf with
      | some lf => lf.addTerm eta (-1)
      | none => ({ terms := [] } : LinearFunction).addTerm eta (-1)
    ({ con with lf := some lfc, lb := lb, ub := ub }, false, false)

/-- The body of the second loop of `findCenter` on one constraint of `cp`: the two
new constraints, with lower bound `lb` and with upper bound `ub`. -/
def findCenterPair (eta : Nat) (con : SplitConstraint) : List SplitConstraint :=
  let lb := con.lb
  let ub := con.ub
  [{ lf := some ((con.lf.getD { terms := [] }).addTerm eta 1), nlf := none,
     fType := FunctionType.Linear, lb := lb, ub := ExtRat.posInf, name := "" },
   { lf := some ((con.lf.getD { terms := [] }).addTerm eta (-1)), nlf := none,
     fType := FunctionType.Linear, lb := ExtRat.negInf, ub := ub, name := "" }]

/-- The body of the third loop of `findCenter` on one variable: nothing for a fixed
variable, else `eta + v ≥ lb` when `lb` is not -infinity and `-eta + v ≤ ub` when
`ub` is not +infinity. -/
def findCenterVar (eta : Nat) (v : Variable) : List SplitConstraint :=
  let lb := v.lb
  let ub := v.ub
  if lb = ub then []
  else
    (if lb ≠ ExtRat.negInf then
      [{ lf := some ((({ terms := [] } : LinearFunction).addTerm eta 1).addTerm v.index 1),
         nlf := none, fType := FunctionType.Linear, lb := lb, ub := ExtRat.posInf,
         name := "" }]
     else []) ++
    (if ub ≠ ExtRat.posInf then
      [{ lf := some ((({ terms := [] } : LinearFunction).addTerm eta (-1)).addTerm v.index 1),
         nlf := none, fType := FunctionType.Linear, lb := ExtRat.negInf, ub := ub,
         name := "" }]
     else [])

/-- The problem `inst_C` that `findCenter` loads into the NLP engine, built from the
clone `inst` of `minlp_`: the variable `eta` in (-inf, 0] is appended, the
objective becomes `minimize eta`, the first loop changes or marks the
constraints, the second appends the pairs of the constraints on `cp`, the marked
constraints are deleted, and the third loop appends the constraints of the
variable bounds. -/
def findCenterProblem (inst : SplitProblem) : SplitProblem :=
  let eta := inst.vars.length
  let vPtr : Variable :=
    { id := eta, index := eta, type := VariableType.Continuous,
      lb := ExtRat.negInf, ub := ExtRat.fin 0 }
  let loop1 := inst.cons.map (findCenterCon eta)
  let cp := (loop1.filter (fun r => r.2.2)).map (fun r => r.1)
  let added := cp.foldl (fun l con => l ++ findCenterPair eta con) []
  let kept := (loop1.filter (fun r => !r.2.1)).map (fun r => r.1)
  let bounds := inst.vars.foldl (fun l v => l ++ findCenterVar eta v) []
  { vars := inst.vars ++ [vPtr],
    cons := kept ++ added ++ bounds,
    obj := some { lf := some (({ terms := [] } : LinearFunction).addTerm eta 1), nlf := none,
                  oType := ObjectiveType.Minimize } }

/-- Embedding of `Linearizations::findCenter`; `inst` is the clone of `minlp_` and `nlpe`
what a solve of the loaded problem yields. -/
def findCenter (s : Linearizations) (inst : SplitProblem)
    (nlpe : SplitProblem → EngineStatus × Solution) : Linearizations :=
  let inst_C := findCenterProblem inst
  let r := nlpe inst_C
  let nlpStatus := r.1
  if nlpStatus = EngineStatus.ProvenOptimal ∨ nlpStatus = EngineStatus.ProvenLocalOptimal then
    let s := { s with solC_ := none }
    if r.2.objValue < 0 then
      let dtemp := r.2.primal
      { s with solC_ := some ((List.range s.minlp_.vars.length).map (fun i => dtemp.getD i 0)) }
    else s
  else s

/-- The claim's description of the constraints of the center problem, one source
constraint at a time, as rows (linear part, rest of the function, lower bound,
upper bound): a Linear constraint with `lb ≠ ub` gives `lf + eta ≥ lb` when `lb` is
finite and `lf - eta ≤ ub` when `ub` is finite; a Linear constraint with `lb = ub`
and a Constant one are kept; any other constraint keeps its bounds and gains the
term `-eta` in its linear part. -/
def etaRows (eta : Nat) (con : SplitConstraint) :
    List (Option LinearFunction × Option Function × ExtRat × ExtRat) :=
  if con.fType = FunctionType.Constant then [(con.lf, con.nlf, con.lb, con.ub)]
  else if con.fType = FunctionType.Linear then
    if con.lb = con.ub then [(con.lf, con.nlf, con.lb, con.ub)]
    else
      (match con.lb with
        | ExtRat.fin l =>
          [(some ((con.lf.getD { terms := [] }).addTerm eta 1), none, ExtRat.fin l,
            ExtRat.posInf)]
        | _ => []) ++
      (match con.ub with
        | ExtRat.fin u =>
          [(some ((con.lf.getD { terms := [] }).addTerm eta (-1)), none, ExtRat.negInf,
            ExtRat.fin u)]
        | _ => [])
  else [(some ((con.lf.getD { terms := [] }).addTerm eta (-1)), con.nlf, con.lb, con.ub)]

end Linearizations


/-! ## Root linearization scheme 1 (`rootLinScheme1_`) -/

/-- The value of a finite bound as a `double`; where it is used the bound is the
upper bound of a cut, which is finite (0 stands for an infinite bound). -/
def ExtRat.toRat : ExtRat → ℚ
  | ExtRat.fin q => q
  | _ => 0

/-- Modelled from the spec: `LinearFunction::getWeight(v)`, the coefficient of the
variable in the function, 0 when it has no term. -/
def LinearFunction.getWeight (lf : LinearFunction) (v : Nat) : ℚ :=
  ((lf.terms.filter (fun t => decide (t.1 = v))).map (fun t => t.2)).sum

/-- Modelled from the spec: `Relaxation::getConstraint(i)`, the constraint with
index `i`. -/
def Relaxation.getConstraint (rel : Relaxation) (i : Nat) : LinConstraint :=
  rel.cons.getD i { lf := { terms := [] }, lb := ExtRat.negInf, ub := ExtRat.posInf, name := "" }

/-- Modelled from the spec: `Relaxation::getVariable(i)`, the variable with index `i`. -/
def Relaxation.getVariable (rel : Relaxation) (i : Nat) : Variable :=
  rel.vars.getD i
    { id := i, index := i, type := VariableType.Continuous,
      lb := ExtRat.negInf, ub := ExtRat.posInf }

/-- The index of the first maximal element of a vector
(`std::max_element(v.begin(), v.end()) - v.begin()`); the pair is the index and
the value of the best element so far, `k` the index of the head of the list. -/
def maxElementLoop : List ℚ → Nat → Nat × ℚ → Nat × ℚ
  | [], _, r => r
  | a :: l, k, (i, m) => if m < a then maxElementLoop l (k + 1) (k, a)
                         else maxElementLoop l (k + 1) (i, m)

/-- Index and value of the first maximal element of a non-empty vector. -/
def maxElement (v : List ℚ) : Nat × ℚ :=
  match v with
  | [] => (0, 0)
  | a :: l => maxElementLoop l 1 (0, a)

/-- The vector after `v.insert(v.begin() + j, a)`. -/
def vecInsert (v : List ℚ) (j : Nat) (a : ℚ) : List ℚ :=
  v.take j ++ a :: v.drop j

namespace Linearizations

/-- Embedding of `Linearizations::linPart_`; the result is the returned boolean and the
array `b1`.  The coefficient `lVarCoeff` is taken to be non-zero. -/
def linPart_ (b1 : List ℚ) (lVarIdx : Nat) (con : Constraint) (lVarCoeff act : ℚ) :
    Bool × List ℚ :=
  let r : Option ℚ :=
    match con.nlf with
    | some nlf => nlf b1
    | none => some 0
  match r with
  | some nlTerm =>
    let nlTerm :=
      match con.qf with
      | some qf => nlTerm + qf b1
      | none => nlTerm
    (true, b1.set lVarIdx ((con.ub - nlTerm - act) / lVarCoeff))
  | none => (false, b1)

/-- Embedding of `Linearizations::addNewCut_`. -/
def addNewCut_ (s : Linearizations) (b1 : List ℚ) (con : Constraint) (newConId : Nat) :
    Linearizations × Bool × Nat :=
  let r := s.addCutAtRoot_ b1 con newConId
  let found := r.2.1
  if found then (r.1, true, r.2.2) else (r.1, false, r.2.2)

/-- Embedding of `Linearizations::findIntersectPt_`; `iP` is the pair `(iP[0], iP[1])`, left
as it was when the determinant is zero. -/
def findIntersectPt_ (s : Linearizations) (newConsId : List Nat) (vl vnl : Nat) (iP : ℚ × ℚ) :
    Bool × (ℚ × ℚ) :=
  let con := s.rel_.getConstraint (newConsId.getD 0 0)
  let lf := con.lf
  let a := lf.getWeight vl
  let b := lf.getWeight vnl
  let e := con.ub.toRat
  let con := s.rel_.getConstraint (newConsId.getD 1 0)
  let lf := con.lf
  let c := lf.getWeight vl
  let d := lf.getWeight vnl
  let f := con.ub.toRat
  let determinant := a * d - b * c
  if determinant ≠ 0 then
    (true, ((a * f - e * c) / determinant, (e * d - b * f) / determinant))
  else (false, iP)

/-- Embedding of `Linearizations::insertNewPt_`; the result is `xc`, `yc` and
`shouldCont`. -/
def insertNewPt_ (j i : Nat) (xc yc : List ℚ) (newcon : LinConstraint) (vl vnl : Nat)
    (shouldCont : Bool) : List ℚ × List ℚ × Bool :=
  let f := newcon.ub.toRat
  let lf := newcon.lf
  let d := lf.getWeight vl
  let c := lf.getWeight vnl
  let x1 := xc.getD j 0
  let y1 := yc.getD j 0
  let x2 := xc.getD i 0
  let y2 := yc.getD i 0
  let a := y1 - y2
  let b := x2 - x1
  let e := y1 * (x2 - x1) - x1 * (y2 - y1)
  let determinant := a * d - b * c
  if determinant ≠ 0 then
    let x := (e * d - b * f) / determinant
    let y := (a * f - e * c) / determinant
    (vecInsert xc j x, vecInsert yc j y, shouldCont)
  else (xc, yc, false)

/-- The locals of the `while` loop of `rootLinScheme1_` that its two inner loops read
and write. -/
structure RS1State where
  b1 : List ℚ
  xc : List ℚ
  yc : List ℚ
  linVioVal : List ℚ
  cUb : ℚ
  shouldCont : Bool
deriving DecidableEq

/-- The test `(act < cUb + solAbsTol_) || (cUb =! 0 && act < cUb + fabs(cUb)*solRelTol_)` of
`rootLinScheme1_`.  Its second operand is the assignment
`cUb = (!0 && act < cUb + fabs(cUb)*solRelTol_)`, evaluated only when the first
operand is false: `cUb` becomes 1 or 0 and the operand is true exactly when it
becomes 1.  The result is the value of the test and the new `cUb`. -/
def rs1Test (s : Linearizations) (act cUb : ℚ) : Bool × ℚ :=
  if act < cUb + s.solAbsTol_ then (true, cUb)
  else if act < cUb + |cUb| * s.solRelTol_ then (true, 1)
  else (false, 0)

/-- The loop `for (UInt j = i+1; j < xc.size(); )` of `rootLinScheme1_` ("move right"),
which leaves `j` as it is and ends by `break` or when the vectors have shrunk to
`j` elements; the first argument bounds the number of iterations and is the
size of `xc` at entry.  The activity of the linear constraint `newcon` raises no
error. -/
def rs1RightLoop (s : Linearizations) (con : Constraint) (newcon : LinConstraint)
    (lVarIdx nVarIdx : Nat) (consUb : ℚ) (j : Nat) : Nat → RS1State → RS1State
  | 0, st => st
  | fuel + 1, st =>
    if j < st.xc.length then
      let b1 := (st.b1.set nVarIdx (st.xc.getD j 0)).set lVarIdx (st.yc.getD j 0)
      let act := newcon.lf.eval b1
      let t := s.rs1Test act st.cUb
      if t.1 = true then
        let r := insertNewPt_ j (j - 1) st.xc st.yc newcon lVarIdx nVarIdx st.shouldCont
        let xc := r.1
        let yc := r.2.1
        let b1 := (b1.set nVarIdx (xc.getD j 0)).set lVarIdx (yc.getD j 0)
        match con.f.eval b1 with
        | none =>
          { b1 := b1, xc := xc, yc := yc, linVioVal := st.linVioVal, cUb := t.2,
            shouldCont := false }
        | some act =>
          let act := max (act - consUb) 0
          { b1 := b1, xc := xc, yc := yc, linVioVal := vecInsert st.linVioVal j act,
            cUb := t.2, shouldCont := r.2.2 }
      else
        rs1RightLoop s con newcon lVarIdx nVarIdx consUb j fuel
          { b1 := b1, xc := st.xc.eraseIdx j, yc := st.yc.eraseIdx j,
            linVioVal := st.linVioVal.eraseIdx j, cUb := t.2, shouldCont := st.shouldCont }
    else st

/-- The loop `while (j >= 0)` of `rootLinScheme1_` ("move left"); the first argument is
`j + 1`. -/
def rs1LeftLoop (s : Linearizations) (con : Constraint) (newcon : LinConstraint)
    (lVarIdx nVarIdx : Nat) (consUb : ℚ) : Nat → RS1State → RS1State
  | 0, st => st
  | j + 1, st =>
    let b1 := (st.b1.set nVarIdx (st.xc.getD j 0)).set lVarIdx (st.yc.getD j 0)
    let act := newcon.lf.eval b1
    let t := s.rs1Test act st.cUb
    if t.1 = true then
      let r := insertNewPt_ (j + 1) j st.xc st.yc newcon lVarIdx nVarIdx st.shouldCont
      let xc := r.1
      let yc := r.2.1
      let b1 := (b1.set nVarIdx (xc.getD (j + 1) 0)).set lVarIdx (yc.getD (j + 1) 0)
      match con.f.eval b1 with
      | none =>
        { b1 := b1, xc := xc, yc := yc, linVioVal := st.linVioVal, cUb := t.2,
          shouldCont := false }
      | some act =>
        let act := max (act - consUb) 0
        { b1 := b1, xc := xc.eraseIdx (j + 2), yc := yc.eraseIdx (j + 2),
          linVioVal := (vecInsert st.linVioVal (j + 1) act).eraseIdx (j + 2),
          cUb := t.2, shouldCont := r.2.2 }
    else
      rs1LeftLoop s con newcon lVarIdx nVarIdx consUb j
        { b1 := b1, xc := st.xc.eraseIdx j, yc := st.yc.eraseIdx j,
          linVioVal := st.linVioVal.eraseIdx j, cUb := t.2, shouldCont := st.shouldCont }

/-- The loop `while (maxVio >= stopCond)` of `rootLinScheme1_` with a bound on the number
of iterations; `none` means the bound was reached with the condition still
true.  The result is the state of the generator when the loop is left. -/
def rs1Loop (con : Constraint) (lVarIdx nVarIdx : Nat) (consUb stopCond : ℚ) :
    Nat → Linearizations → RS1State → Nat → ℚ → Nat → Option Linearizations
  | 0, s, _, _, maxVio, _ => if maxVio ≥ stopCond then none else some s
  | fuel + 1, s, st, i, maxVio, newConId =>
    if maxVio ≥ stopCond then
      let b1 := st.b1.set nVarIdx (st.xc.getD i 0)
      let r := s.addNewCut_ b1 con newConId
      let s := r.1
      let shouldCont := r.2.1
      let newConId := r.2.2
      if shouldCont = true then
        let newcon := s.rel_.getConstraint newConId
        let cUb := newcon.ub.toRat
        let st := rs1RightLoop s con newcon lVarIdx nVarIdx consUb (i + 1) st.xc.length
          { st with b1 := b1, cUb := cUb, shouldCont := shouldCont }
        if st.shouldCont = false then some s
        else
          let st := rs1LeftLoop s con newcon lVarIdx nVarIdx consUb i st
          if st.shouldCont = false then some s
          else
            let maxVio := (maxElement st.linVioVal).2
            if maxVio < s.solAbsTol_ ∨ (consUb ≠ 0 ∧ maxVio < |consUb| * s.solRelTol_) then
              some s
            else
              let i := (maxElement st.linVioVal).1
              rs1Loop con lVarIdx nVarIdx consUb stopCond fuel s st i maxVio newConId
      else some s
    else some s

/-- What `rootLinScheme1_` has when it enters its `while` loop: the state of the
generator and the values of its locals. -/
structure RS1Start where
  s : Linearizations
  st : RS1State
  i : Nat
  maxVio : ℚ
  newConId : Nat
  consUb : ℚ
  stopCond : ℚ

/-- The part of `rootLinScheme1_` before its `while` loop: the two cuts at the ends of
the interval of the nonlinear variable, their intersection point and the stopping
threshold.  The result is the state of the generator at an early `return`, or the
values with which the loop is entered. -/
def rs1Init (s : Linearizations) (con : Constraint) (lVarCoeff : ℚ)
    (lVarIdx nVarIdx : Nat) (nVarCoeff : ℚ) : Linearizations ⊕ RS1Start :=
  let n := s.rel_.numVars
  let b1 : List ℚ := List.replicate n 0
  let vnl := s.rel_.getVariable nVarIdx
  let vLb : ℚ :=
    if vnl.lb = ExtRat.negInf then
      if vnl.ub = ExtRat.posInf then -50 else vnl.ub.toRat - 100
    else vnl.lb.toRat
  let vUb : ℚ :=
    if vnl.lb = ExtRat.negInf then
      if vnl.ub = ExtRat.posInf then 50 else vnl.ub.toRat
    else if vnl.ub = ExtRat.posInf then vnl.lb.toRat + 100 else vnl.ub.toRat
  let b1 := b1.set nVarIdx vLb
  let act := nVarCoeff * vLb
  let r := linPart_ b1 lVarIdx con lVarCoeff act
  let b1 := r.2
  if r.1 = false then Sum.inl s
  else
    let r := s.addNewCut_ b1 con 0
    let s := r.1
    if r.2.1 = false then Sum.inl s
    else
      let y1 := b1.getD lVarIdx 0
      let newConsId := [r.2.2]
      let b1 := b1.set nVarIdx vUb
      let act := nVarCoeff * vUb
      let r := linPart_ b1 lVarIdx con lVarCoeff act
      let b1 := r.2
      if r.1 = false then Sum.inl s
      else
        let r := s.addNewCut_ b1 con (newConsId.getD 0 0)
        let s := r.1
        if r.2.1 = false then Sum.inl s
        else
          let y2 := b1.getD lVarIdx 0
          let newConId := r.2.2
          let newConsId := newConsId ++ [newConId]
          let r := s.findIntersectPt_ newConsId lVarIdx nVarIdx (0, 0)
          if r.1 = false then Sum.inl s
          else
            let iP := r.2
            let b1 := (b1.set nVarIdx iP.1).set lVarIdx iP.2
            match con.f.eval b1 with
            | none => Sum.inl s
            | some act =>
              let consUb := con.ub
              let act := max (act - consUb) 0
              let xc := [vLb, iP.1, vUb]
              let yc := [y1, iP.2, y2]
              let linVioVal := [0, act, 0]
              let i := 1
              let maxVio := linVioVal.getD i 0
              let stopCond :=
                if |consUb| > s.solAbsTol_ then consUb * s.rs1_ / 100
                else maxVio * s.rs1_ / 100
              if stopCond < s.solAbsTol_ ∨
                  (consUb ≠ 0 ∧ stopCond < |consUb| * s.solRelTol_) then Sum.inl s
              else
                Sum.inr
                  { s := s,
                    st := { b1 := b1, xc := xc, yc := yc, linVioVal := linVioVal, cUb := 0,
                            shouldCont := true },
                    i := i, maxVio := maxVio, newConId := newConId, consUb := consUb,
                    stopCond := stopCond }

/-- Embedding of `Linearizations::rootLinScheme1_`: the part before the loop, then the loop;
`fuel` bounds the number of iterations of the `while` loop and `none` means the
bound was reached. -/
def rootLinScheme1_ (s : Linearizations) (fuel : Nat) (con : Constraint) (lVarCoeff : ℚ)
    (lVarIdx nVarIdx : Nat) (nVarCoeff : ℚ) : Option Linearizations :=
  match s.rs1Init con lVarCoeff lVarIdx nVarIdx nVarCoeff with
  | Sum.inl s => some s
  | Sum.inr a =>
    rs1Loop con lVarIdx nVarIdx a.consUb a.stopCond fuel a.s a.st a.i a.maxVio a.newConId

end Linearizations


/-! ## Step size of the general schemes -/

/-- The variables of a quadratic function in the order of its variable map
(`QuadraticFunction::varsBegin`): the variables of its terms, each once, by
increasing index. -/
def Constraint.qfVars (con : Constraint) : List Nat :=
  List.insertionSort (fun a b => a ≤ b) (con.qfTerms.flatMap (fun p => [p.1, p.2])).dedup

namespace Linearizations

/-- The step `vit = std::find(varPtrs_.begin(), varPtrs_.end(), v); if (vit == varPtrs_.end())
varPtrs_.push_back(v)` of `varsInNonlinCons_`; a variable is identified with its index. -/
def pushIfNew (varPtrs : List Nat) (v : Nat) : List Nat :=
  if v ∈ varPtrs then varPtrs else varPtrs ++ [v]

/-- The body of the loop of `varsInNonlinCons_` over the constraints of the problem: for a
constraint that is neither linear nor constant, the variables of `nlf` and then,
of each term of `qf`, the variable `it->first.first`. -/
def varsInNonlinConsBody (varPtrs : List Nat) (con : Constraint) : List Nat :=
  if ¬ (con.fType = FunctionType.Linear ∨ con.fType = FunctionType.Constant) then
    let varPtrs := if con.nlf.isSome then con.nlfVars.foldl pushIfNew varPtrs else varPtrs
    let varPtrs := if con.qf.isSome then (con.qfTerms.map (fun p => p.1)).foldl pushIfNew varPtrs
      else varPtrs
    varPtrs
  else varPtrs

/-- Embedding of `Linearizations::varsInNonlinCons_`. -/
def varsInNonlinCons_ (s : Linearizations) : Linearizations :=
  { s with varPtrs_ := s.minlp_.cons.foldl varsInNonlinConsBody s.varPtrs_ }

/-- The out-parameters of `uniVarNlFunc_`. -/
structure UniVarOut where
  lVarCoeff : ℚ
  lVarIdx : Nat
  nVarIdx : Nat
  nVarCoeff : ℚ
deriving DecidableEq

/-- The locals and out-parameters the loop of `uniVarNlFunc_` over the linear terms
writes. -/
structure UniVarLoop where
  foundVar : Bool
  foundNVar : Bool
  lVarCoeff : ℚ
  lVarIdx : Nat
  nVarCoeff : ℚ
deriving DecidableEq

/-- The loop of `uniVarNlFunc_` over the terms of the linear function, with its
`continue` and its `break`. -/
def uniVarLfLoop (linCoeffTol : ℚ) (nVarIdx : Nat) : List (Nat × ℚ) → UniVarLoop → UniVarLoop
  | [], st => st
  | (idx, coeff) :: rest, st =>
    if idx = nVarIdx then
      uniVarLfLoop linCoeffTol nVarIdx rest { st with foundNVar := true, nVarCoeff := coeff }
    else
      let st : UniVarLoop :=
        if |coeff| > linCoeffTol ∧ st.foundVar = false then
          { st with lVarIdx := idx, foundVar := true, lVarCoeff := coeff }
        else st
      if st.foundVar = true ∧ st.foundNVar = true then st
      else uniVarLfLoop linCoeffTol nVarIdx rest st

/-- The part of `uniVarNlFunc_` that reads `nlf` and `qf`: `none` for `return false`,
otherwise the value of `nVarIdx`.  After the first test `nlTerms` is 0 or 1, so
the comparison under `if (nlTerms > 1)` is never made. -/
def uniVarNVar (con : Constraint) (nVarIdx : Nat) : Option Nat :=
  let nlTerms : Nat := if con.nlf.isSome then con.nlfVars.length else 0
  if con.nlf.isSome ∧ nlTerms ≠ 1 then none
  else
    let nVarIdx := if con.nlf.isSome then con.nlfVars.getD 0 0 else nVarIdx
    if con.qf.isSome then
      let qTerms := con.qfVars.length
      if qTerms ≠ 0 then
        if qTerms > 1 then none
        else if nlTerms > 1 then
          if nVarIdx ≠ con.qfVars.getD 0 0 then none else some nVarIdx
        else some (con.qfVars.getD 0 0)
      else some nVarIdx
    else some nVarIdx

/-- Embedding of `Linearizations::uniVarNlFunc_`; `o` holds the values of the
out-parameters at the call, the result is the returned boolean and their
values at the return. -/
def uniVarNlFunc_ (s : Linearizations) (con : Constraint) (o : UniVarOut) : Bool × UniVarOut :=
  match uniVarNVar con o.nVarIdx with
  | none =>
    (false, { o with nVarIdx := if con.nlf.isSome ∧ con.nlfVars.length = 1 then
      con.nlfVars.getD 0 0 else o.nVarIdx })
  | some nVarIdx =>
    let st : UniVarLoop :=
      match con.lfTerms with
      | some terms =>
        uniVarLfLoop s.conCoeff_tol nVarIdx terms
          { foundVar := false, foundNVar := false, lVarCoeff := o.lVarCoeff,
            lVarIdx := o.lVarIdx, nVarCoeff := o.nVarCoeff }
      | none =>
        { foundVar := false, foundNVar := false, lVarCoeff := o.lVarCoeff,
          lVarIdx := o.lVarIdx, nVarCoeff := o.nVarCoeff }
    (st.foundVar, { lVarCoeff := st.lVarCoeff, lVarIdx := st.lVarIdx, nVarIdx := nVarIdx,
                    nVarCoeff := st.nVarCoeff })

end Linearizations


/-! ## Root linearization scheme 3 -/

/-- Modelled from the spec: the square of `getDistance(a, b, n)`, the Euclidean distance
of two points (`Operations.h`); two distances compare as their squares do. -/
def getDistanceSq (a b : List ℚ) (n : Nat) : ℚ :=
  ((List.range n).map (fun i => (a.getD i 0 - b.getD i 0) * (a.getD i 0 - b.getD i 0))).sum

/-- Modelled from the spec: the separation statuses (declared in `Types.h`). -/
inductive SeparationStatus where
  | SepaContinue : SeparationStatus
  | SepaResolve : SeparationStatus
  | SepaPrune : SeparationStatus
  | SepaNone : SeparationStatus
  | SepaError : SeparationStatus
deriving DecidableEq

namespace Linearizations

/-- Embedding of `Linearizations::shouldStop_`; the assertion in the case `ProvenUnbounded`
is not modelled, the value is the one returned when it is compiled out. -/
def shouldStop_ (eStatus : EngineStatus) : Bool :=
  match eStatus with
  | EngineStatus.FailedInfeas => true
  | EngineStatus.ProvenFailedCQInfeas => true
  | EngineStatus.ProvenInfeasible => true
  | EngineStatus.ProvenLocalInfeasible => true
  | EngineStatus.ProvenObjectiveCutOff => true
  | EngineStatus.ProvenUnbounded => false
  | EngineStatus.FailedFeas => false
  | EngineStatus.ProvenFailedCQFeas => false
  | EngineStatus.EngineIterationLimit => false
  | EngineStatus.ProvenLocalOptimal => false
  | EngineStatus.ProvenOptimal => false
  | EngineStatus.EngineError => true
  | _ => false

/-- The locals of `rootLinScheme3` its loops write: the generator, the arrays `x` and
`boundaryPt`, and `minDist`, which is initialised to `INFINITY` and has no
assignment in the function. -/
structure RS3State where
  s : Linearizations
  x : List ℚ
  boundaryPt : List ℚ
  minDist : ExtRat

/-- The loop of `rootLinScheme3` over `nlCons_` in one round, at the LP point `lpx`; `none`
when a line search exceeds `fuel` steps.  The distance of the boundary point to
the center is compared with `minDist` through its square. -/
def rs3ConsLoop (fuel : Nat) (lpx : List ℚ) (oNl : Bool) (cUninit : ℚ) :
    List Constraint → RS3State → Option RS3State
  | [], st => some st
  | con :: rest, st =>
    let cUb := con.ub
    match con.f.eval lpx with
    | some act =>
      if act > cUb + st.s.solAbsTol_ ∧ (cUb = 0 ∨ act > cUb + |cUb| * st.s.solRelTol_) then
        match st.s.cutAtLineSearchPt_ fuel lpx con cUninit with
        | none => none
        | some (s, isFound, x) =>
          let boundaryPt :=
            if oNl = true ∧ isFound = true then
              let act := getDistanceSq (s.solC_.getD []) x s.minlp_.vars.length
              if (ExtRat.fin act).blt st.minDist = true then
                (List.range s.minlp_.vars.length).map (fun i => x.getD i 0)
              else st.boundaryPt
            else st.boundaryPt
          rs3ConsLoop fuel lpx oNl cUninit rest
            { s := s, x := x, boundaryPt := boundaryPt, minDist := st.minDist }
      else rs3ConsLoop fuel lpx oNl cUninit rest st
    | none => rs3ConsLoop fuel lpx oNl cUninit rest st

/-- The block "linearize objective at boundaryPt" of `rootLinScheme3`, for a nonlinear
objective `o`. -/
def rs3ObjCut (s : Linearizations) (o : Objective) (objVar : Nat) (objVal : ℚ)
    (boundaryPt : List ℚ) : Linearizations :=
  match o.f.eval boundaryPt with
  | some act =>
    let lpvio := max (act - objVal) 0
    if lpvio > s.solAbsTol_ ∧ (objVal = 0 ∨ lpvio > |objVal| * s.solRelTol_) then
      match s.linearAt_ o.f act boundaryPt with
      | some (lf, c) =>
        let lpvio := max (c + lf.eval boundaryPt - objVal) 0
        if lpvio > s.solAbsTol_ ∧ (objVal - c = 0 ∨ lpvio > |objVal - c| * s.solRelTol_) then
          let rs3Cuts := s.stats_.rs3Cuts + 1
          let lf := lf.addTerm objVar (-1)
          { s with stats_ := { s.stats_ with rs3Cuts := rs3Cuts },
                   rel_ := s.rel_.newConstraint lf ExtRat.negInf (ExtRat.fin (-1 * c))
                     ("_OAObjCut_" ++ toString rs3Cuts) }
        else s
      | none => s
    else s
  | none => s

/-- The loop `for (UInt i = 1; i <= rs3_; ++i)` of `rootLinScheme3`; the first argument is
the number of rounds left.  The engine `lpe` solves the relaxation of the
generator. -/
def rs3Rounds (fuel : Nat) (oNl : Bool) (objVar : Nat) (objVal cUninit : ℚ) :
    Nat → MILPEngine → RS3State → Option (MILPEngine × RS3State)
  | 0, lpe, st => some (lpe, st)
  | rounds + 1, lpe, st =>
    let numOldCuts := st.s.stats_.rs3Cuts
    let lpx := lpe.sol.primal
    match rs3ConsLoop fuel lpx oNl cUninit st.s.nlCons_ st with
    | none => none
    | some st =>
      if numOldCuts < st.s.stats_.rs3Cuts then
        let s :=
          match st.s.minlp_.obj with
          | some o => if oNl = true then rs3ObjCut st.s o objVar objVal st.boundaryPt else st.s
          | none => st.s
        let r := lpe.run s.rel_
        let lpe : MILPEngine := { lpe with sol := r.2 }
        if shouldStop_ r.1 = true then some (lpe, { st with s := s })
        else rs3Rounds fuel oNl objVar objVal cUninit rounds lpe { st with s := s }
      else some (lpe, st)

/-- Embedding of `Linearizations::rootLinScheme3`.  `x` and `boundaryPt` are the contents of
the two arrays at their allocation, `objValUninit` that of `objVal` when the
problem has no objective; the result is the generator, the engine and
`*status`. -/
def rootLinScheme3 (s : Linearizations) (fuel : Nat) (lpe : MILPEngine) (objVar : Nat)
    (status : SeparationStatus) (x boundaryPt : List ℚ) (objValUninit cUninit : ℚ) :
    Option (Linearizations × MILPEngine × SeparationStatus) :=
  let oNl : Bool :=
    match s.minlp_.obj with
    | some o => decide (o.fType ≠ FunctionType.Linear ∧ o.fType ≠ FunctionType.Constant)
    | none => false
  let objVal : ℚ :=
    match s.minlp_.obj with
    | some _ => lpe.sol.objValue
    | none => objValUninit
  match rs3Rounds fuel oNl objVar objVal cUninit s.rs3_ lpe
      { s := s, x := x, boundaryPt := boundaryPt, minDist := ExtRat.posInf } with
  | none => none
  | some (lpe, st) =>
    some (st.s, lpe, if st.s.stats_.rs3Cuts > 0 then SeparationStatus.SepaResolve else status)

end Linearizations


/-! ## The boundary point of the general schemes -/

namespace Linearizations

/-- The locals of the first loop of `findBoundaryPt_`: the vector `vioCons`, the index `k`
(a `UInt`), the vector `activeConsAct` and the four flags. -/
structure FBState where
  vioCons : List Constraint
  k : Nat
  activeConsAct : List ℚ
  vioNLCons : Bool
  firstVio : Bool
  firstActive : Bool
  activeNLCons : Bool

/-- The first loop of `findBoundaryPt_`, `for (UInt k = 0; k < vioCons.size(); )`, at the
point `x`.  The boolean is true when the loop is left by the `return false` after a
failed evaluation; `none` when the loop has not ended within `fuel` iterations (a
constraint of type `Constant` is met again and again by its `continue`).  After
`erase(begin() + k); --k` the next iteration reads the element in front of the
erased one. -/
def fbLoop (s : Linearizations) (x : List ℚ) : Nat → FBState → Option (Bool × FBState)
  | 0, st =>
    match st.vioCons[st.k]? with
    | none => some (false, st)
    | some _ => none
  | fuel + 1, st =>
    match st.vioCons[st.k]? with
    | none => some (false, st)
    | some con =>
      let cUb := con.ub
      if con.fType = FunctionType.Constant then fbLoop s x fuel st
      else
        match con.f.eval x with
        | none => some (true, st)
        | some act =>
          if act > cUb + s.solAbsTol_ ∧ (cUb = 0 ∨ act > cUb + |cUb| * s.solRelTol_) then
            let st : FBState :=
              if st.firstVio = false then
                if st.k ≠ 0 then
                  { st with firstVio := true, vioCons := st.vioCons.drop st.k, k := 0 }
                else { st with firstVio := true }
              else st
            fbLoop s x fuel
              { st with k := (st.k + 1) % 2 ^ 32,
                        vioNLCons := if con.fType ≠ FunctionType.Linear then true
                          else st.vioNLCons }
          else if |act - cUb| ≤ s.solAbsTol_ ∨
              (cUb ≠ 0 ∧ |act - cUb| ≤ |cUb| * s.solRelTol_) then
            if st.firstVio = true then
              fbLoop s x fuel
                { st with vioCons := st.vioCons.eraseIdx st.k,
                          k := (st.k + 2 ^ 32 - 1) % 2 ^ 32 }
            else
              let st : FBState :=
                if st.firstActive = false then
                  if st.k ≠ 0 then
                    { st with firstActive := true, vioCons := st.vioCons.drop st.k, k := 0 }
                  else { st with firstActive := true }
                else st
              fbLoop s x fuel
                { st with activeConsAct := st.activeConsAct ++ [act],
                          k := (st.k + 1) % 2 ^ 32,
                          activeNLCons := if con.fType ≠ FunctionType.Linear then true
                            else st.activeNLCons }
          else
            if st.firstVio = true ∨ st.firstActive = true then
              fbLoop s x fuel
                { st with vioCons := st.vioCons.eraseIdx st.k,
                          k := (st.k + 2 ^ 32 - 1) % 2 ^ 32 }
            else fbLoop s x fuel { st with k := (st.k + 1) % 2 ^ 32 }

/-- The loop of `findBoundaryPt_` that adds the linearizations of the active nonlinear
constraints, `for (it = vioCons.begin(); it != vioCons.end(); ++it, ++j)`; the
triple is the generator, `isPtFound` and the flag `error`, which stays raised once
an evaluation of a gradient has raised it. -/
def fbCutLoop (x : List ℚ) (activeConsAct : List ℚ) :
    List Constraint → Nat → Linearizations × Bool × Bool → Linearizations × Bool × Bool
  | [], _, r => r
  | con :: rest, j, (s, isPtFound, error) =>
    if con.fType = FunctionType.Linear then
      fbCutLoop x activeConsAct rest (j + 1) (s, isPtFound, error)
    else
      match s.linearAt_ con.f (activeConsAct.getD j 0) x with
      | some (lf, c) =>
        if error = false then
          let cUb := con.ub
          let r : LinStats × String :=
            if s.rgs1_ = true then
              ({ s.stats_ with rgs1Cuts := s.stats_.rgs1Cuts + 1 },
                "_OAcut_" ++ toString (s.stats_.rgs1Cuts + 1) ++ "_AtRoot")
            else if s.rgs2_ = true then
              ({ s.stats_ with rgs2Cuts := s.stats_.rgs2Cuts + 1 },
                "_OAcut_" ++ toString (s.stats_.rgs2Cuts + 1) ++ "_AtRoot")
            else if s.rs3_ ≠ 0 then
              ({ s.stats_ with rs3Cuts := s.stats_.rs3Cuts + 1 },
                "_OAcut_" ++ toString (s.stats_.rs3Cuts + 1) ++ "_AtRoot")
            else (s.stats_, "")
          fbCutLoop x activeConsAct rest (j + 1)
            ({ s with stats_ := r.1,
                      rel_ := s.rel_.newConstraint lf ExtRat.negInf (ExtRat.fin (cUb - c)) r.2 },
              true, false)
        else fbCutLoop x activeConsAct rest (j + 1) (s, true, true)
      | none => fbCutLoop x activeConsAct rest (j + 1) (s, true, true)

/-- What a call of `findBoundaryPt_` leaves: the generator, the returned boolean, and the
reference and array parameters. -/
structure FBResult where
  s : Linearizations
  ret : Bool
  isPtFound : Bool
  xOut : List ℚ
  xIn : List ℚ
  vioCons : List Constraint

/-- Embedding of `Linearizations::findBoundaryPt_`; `none` when its first loop has not ended
within `fuel` iterations. -/
def findBoundaryPt_ (s : Linearizations) (fuel : Nat) (xOut xIn : List ℚ)
    (vioCons : List Constraint) : Option FBResult :=
  let numVars := s.minlp_.vars.length
  let x := (List.range numVars).map (fun i => 1 / 2 * (xIn.getD i 0 + xOut.getD i 0))
  match fbLoop s x fuel
      { vioCons := vioCons, k := 0, activeConsAct := [], vioNLCons := false,
        firstVio := false, firstActive := false, activeNLCons := false } with
  | none => none
  | some (true, st) =>
    some { s := s, ret := false, isPtFound := false, xOut := xOut, xIn := xIn,
           vioCons := st.vioCons }
  | some (false, st) =>
    if st.firstVio = false then
      if st.firstActive = false then
        some { s := s, ret := true, isPtFound := false, xOut := xOut,
               xIn := x ++ xIn.drop numVars, vioCons := st.vioCons }
      else
        let r : Linearizations × Bool × Bool :=
          if st.activeNLCons = true then
            fbCutLoop x st.activeConsAct st.vioCons 0 (s, false, false)
          else (s, false, false)
        some { s := r.1, ret := false, isPtFound := r.2.1, xOut := xOut, xIn := xIn,
               vioCons := st.vioCons }
    else
      if st.vioNLCons = true then
        some { s := s, ret := true, isPtFound := false, xOut := x ++ xOut.drop numVars,
               xIn := xIn, vioCons := st.vioCons }
      else
        some { s := s, ret := false, isPtFound := false, xOut := xOut, xIn := xIn,
               vioCons := st.vioCons }

end Linearizations


/-! ## Root linearization scheme 2 -/

namespace Linearizations

/-- The locals of a sampling loop of `rootLinScheme2_`: the generator, `delta`, `lastSlope`,
the arrays `npt` and `grad`; `samples` records, for every call of `rScheme2Cut_`, the
value of `npt[nVarIdx]` and of `delta` at the call. -/
structure RS2Loop where
  s : Linearizations
  delta : ℚ
  lastSlope : ℚ
  npt : List ℚ
  grad : List ℚ
  samples : List (ℚ × ℚ)

/-- The two sampling loops of `rootLinScheme2_`: `while (npt[nVarIdx] >= nbhSize)` with
`npt[nVarIdx] = npt[nVarIdx] - delta` when `up` is false, and
`while (npt[nVarIdx] <= nbhSize)` with `npt[nVarIdx] = npt[nVarIdx] + delta` when `up` is
true; `none` when the loop has not ended within `fuel` iterations. -/
def rs2SampleLoop (con : Constraint) (lVarCoeff : ℚ) (lVarIdx nVarIdx : Nat) (up : Bool)
    (nbhSize : ℚ) : Nat → RS2Loop → Option RS2Loop
  | 0, st =>
    if (if up = true then st.npt.getD nVarIdx 0 ≤ nbhSize else st.npt.getD nVarIdx 0 ≥ nbhSize)
    then none else some st
  | fuel + 1, st =>
    if (if up = true then st.npt.getD nVarIdx 0 ≤ nbhSize else st.npt.getD nVarIdx 0 ≥ nbhSize)
    then
      let grad := (st.grad.set nVarIdx 0).set lVarIdx 0
      let r := st.s.rScheme2Cut_ con st.delta lVarCoeff st.lastSlope nVarIdx st.npt grad
      let delta := r.2.1
      let npt := st.npt.set nVarIdx
        (if up = true then st.npt.getD nVarIdx 0 + delta else st.npt.getD nVarIdx 0 - delta)
      rs2SampleLoop con lVarCoeff lVarIdx nVarIdx up nbhSize fuel
        { s := r.1, delta := delta, lastSlope := r.2.2.1, npt := npt, grad := r.2.2.2,
          samples := st.samples ++ [(st.npt.getD nVarIdx 0, st.delta)] }
    else some st

/-- The value `std::max(vnl->getLb(), v)` for a finite `v`; `none` when the lower bound is
`+INFINITY`. -/
def rs2Low (lb : ExtRat) (v : ℚ) : Option ℚ :=
  match lb with
  | ExtRat.negInf => some v
  | ExtRat.fin b => some (max b v)
  | ExtRat.posInf => none

/-- The value `std::min(vnl->getUb(), v)` for a finite `v`; `none` when the upper bound is
`-INFINITY`. -/
def rs2High (ub : ExtRat) (v : ℚ) : Option ℚ :=
  match ub with
  | ExtRat.posInf => some v
  | ExtRat.fin b => some (min b v)
  | ExtRat.negInf => none

/-- Embedding of `Linearizations::rootLinScheme2_`.  The result is the state at the end of
the first and of the second sampling loop, the second with the final generator;
`none` when a loop has not ended within `fuel` iterations, and for a variable with
lower bound `+INFINITY` or upper bound `-INFINITY`, which the model leaves out.  The
error flag of the first gradient evaluation is not read; `grad` keeps its zeros
when the evaluation fails. -/
def rootLinScheme2_ (s : Linearizations) (fuel : Nat) (con : Constraint) (lVarCoeff : ℚ)
    (lVarIdx nVarIdx : Nat) : Option (RS2Loop × RS2Loop) :=
  let n := s.minlp_.vars.length
  let vnl := s.rel_.getVariable nVarIdx
  let npt : List ℚ := List.replicate n 0
  let grad : List ℚ := List.replicate n 0
  let grad := (con.f.evalGradient s.nlpx_ grad).getD grad
  let nlpSlope := -1 * (grad.getD nVarIdx 0 / lVarCoeff)
  match rs2Low vnl.lb (s.nlpx_.getD nVarIdx 0 - s.rs2NbhSize_),
      rs2High vnl.ub (s.nlpx_.getD nVarIdx 0 + s.rs2NbhSize_) with
  | some nbhLow, some nbhHigh =>
    let delta : ℚ := if s.nlpx_.getD nVarIdx 0 - nbhLow ≥ 1 then 1 / 2
      else s.nlpx_.getD nVarIdx 0 - nbhLow
    let st0 : RS2Loop :=
      { s := s, delta := delta, lastSlope := nlpSlope,
        npt := npt.set nVarIdx (s.nlpx_.getD nVarIdx 0 - delta), grad := grad, samples := [] }
    match (if delta ≠ 0 then rs2SampleLoop con lVarCoeff lVarIdx nVarIdx false nbhLow fuel st0
        else some st0) with
    | none => none
    | some st1 =>
      let delta : ℚ := if nbhHigh - s.nlpx_.getD nVarIdx 0 ≥ 1 then 1 / 2
        else nbhHigh - s.nlpx_.getD nVarIdx 0
      let st2 : RS2Loop :=
        { s := st1.s, delta := delta, lastSlope := nlpSlope,
          npt := st1.npt.set nVarIdx (s.nlpx_.getD nVarIdx 0 + delta), grad := st1.grad,
          samples := [] }
      match (if delta ≠ 0 then rs2SampleLoop con lVarCoeff lVarIdx nVarIdx true nbhHigh fuel st2
          else some st2) with
      | none => none
      | some st3 => some (st1, st3)
  | _, _ => none

end Linearizations


/-! ## Concrete instances -/

namespace Examples

/-- An integer variable `z` in [0, 5], index 0. -/
def z : Variable :=
  { id := 0, index := 0, type := VariableType.Integer,
    lb := ExtRat.fin 0, ub := ExtRat.fin 5 }

/-- A continuous variable `w` in [-1, +inf), index 1. -/
def w : Variable :=
  { id := 1, index := 1, type := VariableType.Continuous,
    lb := ExtRat.fin (-1), ub := ExtRat.posInf }

/-- The function `x0 * x0` with gradient `[2 * x0]`. -/
def sqFun : Function :=
  { eval := fun x => some (x.getD 0 0 * x.getD 0 0),
    gradient := fun x => some [2 * x.getD 0 0] }

/-- The constraint `x0 * x0 ≤ 1`. -/
def sqCon : Constraint :=
  { f := sqFun, fType := FunctionType.Quadratic, ub := 1, name := "c0" }

/-- The function `x1 * x1` with gradient `[0, 2 * x1]`. -/
def sqFun1 : Function :=
  { eval := fun x => some (x.getD 1 0 * x.getD 1 0),
    gradient := fun x => some [0, 2 * x.getD 1 0] }

/-- The constraint `x1 * x1 ≤ 1`. -/
def sqCon1 : Constraint :=
  { f := sqFun1, fType := FunctionType.Quadratic, ub := 1, name := "c1" }

/-- A free continuous variable with index 0. -/
def v0 : Variable :=
  { id := 0, index := 0, type := VariableType.Continuous,
    lb := ExtRat.negInf, ub := ExtRat.posInf }

/-- A free continuous variable with index 1. -/
def v1 : Variable :=
  { id := 1, index := 1, type := VariableType.Continuous,
    lb := ExtRat.negInf, ub := ExtRat.posInf }

/-- The convex function `x0 * x0 + x1 / 10^7` with its exact gradient
`[2 * x0, 1 / 10^7]`. -/
def tinyFun : Function :=
  { eval := fun x => some (x.getD 0 0 * x.getD 0 0 + x.getD 1 0 / 10000000),
    gradient := fun x => some [2 * x.getD 0 0, 1 / 10000000] }

/-- The constraint `x0 * x0 + x1 / 10^7 ≤ 0`. -/
def tinyCon : Constraint :=
  { f := tinyFun, fType := FunctionType.Quadratic, ub := 0, name := "c2" }

/-- A generator on two free variables, with all tolerances 1e-6. -/
def lin : Linearizations :=
  { rel_ := { numVars := 2, cons := [] },
    minlp_ := { vars := [v0, v1], cons := [tinyCon], obj := none },
    nlCons_ := [tinyCon],
    solC_ := none,
    nlpx_ := [1, 0],
    rs1_ := 5,
    rs2Per_ := 0,
    rs2NbhSize_ := 0,
    rs3_ := 0,
    rgs1_ := false,
    rgs2_ := false,
    solAbsTol_ := 1 / 1000000,
    solRelTol_ := 1 / 1000000,
    conCoeff_tol := 1 / 1000000,
    stats_ := { rs1Cuts := 0, rs2Cuts := 0, rs3Cuts := 0, rgs1Cuts := 0, rgs2Cuts := 0 } }

/-- The function `x0 * x0 + x1 * x1` with gradient `[2 * x0, 2 * x1]`. -/
def circleFun : Function :=
  { eval := fun x => some (x.getD 0 0 * x.getD 0 0 + x.getD 1 0 * x.getD 1 0),
    gradient := fun x => some [2 * x.getD 0 0, 2 * x.getD 1 0] }

/-- The constraint `x0 * x0 + x1 * x1 ≤ 1`. -/
def circleCon : Constraint :=
  { f := circleFun, fType := FunctionType.Quadratic, ub := 1, name := "c3" }

/-- The example generator with the center (0, 0) and the circle constraint. -/
def linC : Linearizations :=
  { lin with
    minlp_ := { vars := [v0, v1], cons := [circleCon], obj := none },
    nlCons_ := [circleCon],
    solC_ := some [0, 0] }

/-- A handler that reports a change and returns `Finished`. -/
def hChange : Handler Unit :=
  { presolve := fun m pr mods sol =>
      { hmem := m, problem := pr, mods := mods, changed := true, sol := sol,
        status := SolveStatus.Finished } }

/-- A handler that reports no change and returns `Finished`. -/
def hNoChange : Handler Unit :=
  { presolve := fun m pr mods sol =>
      { hmem := m, problem := pr, mods := mods, changed := false, sol := sol,
        status := SolveStatus.Finished } }

/-- A handler that returns `SolvedInfeasible`. -/
def hInfeasible : Handler Unit :=
  { presolve := fun m pr mods sol =>
      { hmem := m, problem := pr, mods := mods, changed := false, sol := sol,
        status := SolveStatus.SolvedInfeasible } }

/-- A handler that returns `SolvedOptimal` without a solution. -/
def hOptimalNoSol : Handler Unit :=
  { presolve := fun m pr mods _ =>
      { hmem := m, problem := pr, mods := mods, changed := false, sol := none,
        status := SolveStatus.SolvedOptimal } }

/-- The constraint `5 ≤ 3 * x0 + x1` with upper bound +infinity. -/
def geCon : RangeConstraint :=
  { f := { eval := fun x => some (3 * x.getD 0 0 + x.getD 1 0),
           gradient := fun _ => some [3, 1] },
    lb := ExtRat.fin 5, ub := ExtRat.posInf, name := "r0" }

/-- The constraint `x0 ≤ 4` with lower bound -infinity. -/
def leCon : RangeConstraint :=
  { f := { eval := fun x => some (x.getD 0 0), gradient := fun _ => some [1] },
    lb := ExtRat.negInf, ub := ExtRat.fin 4, name := "r1" }

/-- A presolver on two free variables and the constraints `geCon`, `leCon`, with the
handlers `hChange`, `hNoChange`. -/
def pre2 : Presolver Unit :=
  { eTol_ := 1 / 100000000,
    handlers_ := [hChange, hNoChange],
    intTol_ := 1 / 1000000,
    problem_ := { vars := [v0, v1], cons := [geCon, leCon], obj := none },
    mods_ := [],
    sol_ := none,
    status_ := SolveStatus.NotStarted,
    hmem := () }

/-- The example presolver with the handlers `hNoChange`, `hInfeasible`, `hChange`. -/
def preInf : Presolver Unit :=
  { pre2 with handlers_ := [hNoChange, hInfeasible, hChange] }

/-- The example presolver with the handlers `hChange`, `hOptimalNoSol`, `hChange`. -/
def preErr : Presolver Unit :=
  { pre2 with handlers_ := [hChange, hOptimalNoSol, hChange] }

/-- The example presolver with three handlers that report no change. -/
def preIdle : Presolver Unit :=
  { pre2 with handlers_ := [hNoChange, hNoChange, hNoChange] }

/-- An engine that always reports `ProvenOptimal` with value 7 at the point (2, 0). -/
def optEngine : Engine :=
  { run := fun _ => (EngineStatus.ProvenOptimal, { objValue := 7, primal := [2, 0] }),
    sol := { objValue := 0, primal := [] } }

/-- A handler on the problem with variables `z`, `w` and the constraint `sqCon`. -/
def handler : STOAHandler :=
  { minlp_ := { vars := [z, w], cons := [sqCon], obj := none },
    nlCons_ := [sqCon],
    nlpe_ := optEngine,
    nlpStatus_ := EngineStatus.EngineUnknownStatus,
    objVar_ := 0,
    oNl_ := false,
    rel_ := { numVars := 2, cons := [] },
    solPool_ := [],
    relobj_ := 0,
    numCalls_ := 0,
    stats_ := { milpS := 0, nlpS := 0, nlpF := 0, nlpI := 0, nlpIL := 0, milpIL := 0, cuts := 0 },
    newUb_ := ExtRat.posInf,
    nlpMods_ := [],
    solAbsTol_ := 1 / 1000000,
    solRelTol_ := 1 / 1000000,
    conCoeff_tol := 1 / 1000000 }

/-- The example handler after an NLP solve that ended `ProvenOptimal` at (1, 0). -/
def handlerOpt : STOAHandler :=
  { handler with
    nlpStatus_ := EngineStatus.ProvenOptimal,
    nlpe_ := { optEngine with sol := { objValue := 7, primal := [1, 0] } } }

/-- The example handler after an NLP solve that hit the iteration limit. -/
def handlerIL : STOAHandler :=
  { handler with nlpStatus_ := EngineStatus.EngineIterationLimit }

/-- A function that evaluates to `x0 * x0 + x1 * x1` and whose gradient oracle always
signals an error. -/
def noGradFun : Function :=
  { eval := fun x => some (x.getD 0 0 * x.getD 0 0 + x.getD 1 0 * x.getD 1 0),
    gradient := fun _ => none }

/-- The constraint `noGradFun ≤ 1`. -/
def noGradCon : Constraint :=
  { f := noGradFun, fType := FunctionType.Nonlinear, ub := 1, name := "c4" }

/-- The example generator with the center (0, 0) and the constraint `noGradCon`. -/
def linG : Linearizations :=
  { lin with
    minlp_ := { vars := [v0, v1], cons := [noGradCon], obj := none },
    nlCons_ := [noGradCon],
    solC_ := some [0, 0] }

/-- The linear objective `minimize x1`. -/
def linObj : Objective :=
  { f := { eval := fun x => some (x.getD 1 0), gradient := fun _ => some [0, 1] },
    fType := FunctionType.Linear, oType := ObjectiveType.Minimize }

/-- An engine that always reports `ProvenOptimal` with value 0 at the point (1, 0). -/
def rootEngine : Engine :=
  { run := fun _ => (EngineStatus.ProvenOptimal, { objValue := 0, primal := [1, 0] }),
    sol := { objValue := 0, primal := [] } }

/-- An engine that always reports `ProvenUnbounded`. -/
def unbEngine : Engine :=
  { run := fun _ => (EngineStatus.ProvenUnbounded, { objValue := 0, primal := [] }),
    sol := { objValue := 0, primal := [] } }

/-- A fresh handler on two free variables with the constraint `tinyCon` and a
linear objective. -/
def rootHandler : STOAHandler :=
  { handler with
    minlp_ := { vars := [v0, v1], cons := [tinyCon], obj := some linObj },
    nlCons_ := [],
    nlpe_ := rootEngine }

/-- The fresh handler with an engine that reports `ProvenUnbounded`. -/
def unbHandler : STOAHandler :=
  { rootHandler with nlpe_ := unbEngine }

/-- A relaxation with two variables and no constraint. -/
def rel0 : Relaxation := { numVars := 2, cons := [] }

/-- An integer variable in [0, 1], index 1. -/
def zb : Variable :=
  { id := 1, index := 1, type := VariableType.Integer,
    lb := ExtRat.fin 0, ub := ExtRat.fin 1 }

/-- The objective `maximize 2 * x0 + 3 * x1`. -/
def maxObj : Objective :=
  { f := { eval := fun x => some (2 * x.getD 0 0 + 3 * x.getD 1 0),
           gradient := fun _ => some [2, 3] },
    fType := FunctionType.Linear, oType := ObjectiveType.Maximize }

/-- The problem `maximize 2 * x0 + 3 * x1` over the variables `z` (Integer in [0, 5]),
`zb` (Integer in [0, 1]) and a free continuous variable, without constraints. -/
def maxProblem : RangeProblem :=
  { vars := [z, zb, { v0 with id := 2, index := 2 }], cons := [], obj := some maxObj }

/-- A presolver on `maxProblem` without handlers. -/
def preMax : Presolver Unit :=
  { pre2 with handlers_ := [], problem_ := maxProblem }

/-- A `Bnb` object before `solve`. -/
def bnb0 : Bnb :=
  { objSense_ := 1, oinst_ := { vars := [], cons := [], obj := none } }


/-- The constraint `x0 * x0 ≤ 100`. -/
def sqCon100 : Constraint :=
  { f := sqFun, fType := FunctionType.Quadratic, ub := 100, name := "c5" }

/-- The example handler with the single nonlinear constraint `sqCon100`. -/
def handler100 : STOAHandler :=
  { handler with
    minlp_ := { vars := [z, w], cons := [sqCon100], obj := none },
    nlCons_ := [sqCon100] }

/-- A problem on two free variables with the constraints `1 ≤ x0 + x1 ≤ 3`, `x0 ≤ 4`,
`x0 = 2` and `x0 * x0 + x1 ≤ 1`, whose function is split into the linear part `x1`
and the rest `x0 * x0`. -/
def splitProblem : SplitProblem :=
  { vars := [v0, v1],
    cons :=
      [{ lf := some { terms := [(0, 1), (1, 1)] }, nlf := none, fType := FunctionType.Linear,
         lb := ExtRat.fin 1, ub := ExtRat.fin 3, name := "r0" },
       { lf := some { terms := [(0, 1)] }, nlf := none, fType := FunctionType.Linear,
         lb := ExtRat.negInf, ub := ExtRat.fin 4, name := "r1" },
       { lf := some { terms := [(0, 1)] }, nlf := none, fType := FunctionType.Linear,
         lb := ExtRat.fin 2, ub := ExtRat.fin 2, name := "r2" },
       { lf := some { terms := [(1, 1)] }, nlf := some sqFun, fType := FunctionType.Quadratic,
         lb := ExtRat.negInf, ub := ExtRat.fin 1, name := "r3" }],
    obj := none }


/-- The function `x0 * x0 - x1` with gradient `[2 * x0, -1]`. -/
def paraFun : Function :=
  { eval := fun x => some (x.getD 0 0 * x.getD 0 0 - x.getD 1 0),
    gradient := fun x => some [2 * x.getD 0 0, -1] }

/-- The constraint `x0 * x0 - x1 ≤ 0`, with quadratic part `x0 * x0`. -/
def paraCon : Constraint :=
  { f := paraFun, fType := FunctionType.Quadratic, ub := 0, name := "c6",
    qf := some (fun x => x.getD 0 0 * x.getD 0 0) }

/-- A continuous variable in [-2, 3], index 0. -/
def xBox : Variable :=
  { id := 0, index := 0, type := VariableType.Continuous,
    lb := ExtRat.fin (-2), ub := ExtRat.fin 3 }

/-- The example generator with `rs1 = 5` on the constraint `x0 * x0 - x1 ≤ 0`, `x0` in
[-2, 3] and `x1` free. -/
def linP : Linearizations :=
  { lin with
    rel_ := { numVars := 2, cons := [], vars := [xBox, v1] },
    minlp_ := { vars := [xBox, v1], cons := [paraCon], obj := none },
    nlCons_ := [paraCon] }


/-- An engine that always reports `ProvenInfeasible`. -/
def infEngine : Engine :=
  { run := fun _ => (EngineStatus.ProvenInfeasible, { objValue := 0, primal := [] }),
    sol := { objValue := 0, primal := [] } }

/-- The example handler with an engine that reports `ProvenInfeasible`. -/
def handlerInf : STOAHandler :=
  { handler with nlpe_ := infEngine }


/-- An engine for the center problem that reports `ProvenOptimal` with value -1/2 at
the point (1/4, 1/4, -1/2), the last entry being the value of eta. -/
def centerEngine : SplitProblem → EngineStatus × Solution :=
  fun _ => (EngineStatus.ProvenOptimal, { objValue := -1 / 2, primal := [1 / 4, 1 / 4, -1 / 2] })


/-- The example generator after the two end-point cuts of the parabola, `-4 * x0 - x1 ≤ 4`
and `6 * x0 - x1 ≤ 9`. -/
def linP2 : Linearizations :=
  { linP with
    rel_ := { numVars := 2,
              cons := [{ lf := { terms := [(0, -4), (1, -1)] }, lb := ExtRat.negInf,
                         ub := ExtRat.fin 4, name := "_OAcut_1_AtRoot" },
                       { lf := { terms := [(0, 6), (1, -1)] }, lb := ExtRat.negInf,
                         ub := ExtRat.fin 9, name := "_OAcut_2_AtRoot" }],
              vars := [xBox, v1] } }


/-- The function `x0 * x1` with gradient `[x1, x0]`. -/
def bilinFun : Function :=
  { eval := fun x => some (x.getD 0 0 * x.getD 1 0),
    gradient := fun x => some [x.getD 1 0, x.getD 0 0] }

/-- The constraint `x0 * x1 ≤ 1`, whose quadratic part is the single bilinear term
`x0 * x1`. -/
def bilinCon : Constraint :=
  { f := bilinFun, fType := FunctionType.Quadratic, ub := 1, name := "c7",
    qf := some (fun x => x.getD 0 0 * x.getD 1 0), qfTerms := [(0, 1)] }

/-- The example generator on the problem with the constraint `x0 * x1 ≤ 1` only. -/
def linB : Linearizations :=
  { lin with
    minlp_ := { vars := [v0, v1], cons := [bilinCon], obj := none },
    nlCons_ := [bilinCon] }

/-- The function `x0 * x0 * x0 + x1 + x2` with its gradient. -/
def cubeFun : Function :=
  { eval := fun x => some (x.getD 0 0 * x.getD 0 0 * x.getD 0 0 + x.getD 1 0 + x.getD 2 0),
    gradient := fun x => some [3 * x.getD 0 0 * x.getD 0 0, 1, 1] }

/-- The constraint `x0^3 + x1 + x2 ≤ 1`: the nonlinear part `x0^3` depends on `x0` only and
the linear part `x1 + x2` has two variables. -/
def cubeCon : Constraint :=
  { f := cubeFun, fType := FunctionType.Nonlinear, ub := 1, name := "c8",
    nlf := some (fun x => some (x.getD 0 0 * x.getD 0 0 * x.getD 0 0)), nlfVars := [0],
    lfTerms := some [(1, 1), (2, 1)] }

/-- Initial values of the out-parameters of `uniVarNlFunc_`. -/
def uni0 : Linearizations.UniVarOut :=
  { lVarCoeff := 0, lVarIdx := 0, nVarIdx := 0, nVarCoeff := 0 }


/-- The function `x0 * x0` with gradient `[2 * x0, 0]`. -/
def sq0Fun : Function :=
  { eval := fun x => some (x.getD 0 0 * x.getD 0 0),
    gradient := fun x => some [2 * x.getD 0 0, 0] }

/-- The constraint `x0 * x0 ≤ 1/4`. -/
def quarterCon : Constraint :=
  { f := sq0Fun, fType := FunctionType.Quadratic, ub := 1 / 4, name := "c9" }

/-- The objective `min x0 * x0 + x1 * x1`. -/
def circleObj : Objective :=
  { f := circleFun, fType := FunctionType.Quadratic, oType := ObjectiveType.Minimize }

/-- A generator with one round of scheme 3, center (0, 0), the constraints
`x0 * x0 ≤ 1/4` and `x0 * x0 + x1 * x1 ≤ 1` in this order, the objective
`x0 * x0 + x1 * x1`, and a relaxation with the third variable `eta`. -/
def linR3 : Linearizations :=
  { lin with
    rel_ := { numVars := 3, cons := [] },
    minlp_ := { vars := [v0, v1], cons := [quarterCon, circleCon], obj := some circleObj },
    nlCons_ := [quarterCon, circleCon],
    solC_ := some [0, 0],
    rs3_ := 1 }

/-- An LP engine that holds the solution (2, 0) with `eta = 0` and value 0 and returns it
on every solve. -/
def lpR3 : MILPEngine :=
  { run := fun _ => (EngineStatus.ProvenOptimal, { objValue := 0, primal := [2, 0, 0] }),
    sol := { objValue := 0, primal := [2, 0, 0] } }


/-- The constraint `x0 * x0 ≤ 1`. -/
def unitCon : Constraint :=
  { f := sq0Fun, fType := FunctionType.Quadratic, ub := 1, name := "cA" }

/-- The constraint `x0 * x0 + x1 * x1 ≤ 5`. -/
def circle5Con : Constraint :=
  { f := circleFun, fType := FunctionType.Quadratic, ub := 5, name := "cB" }

/-- The function `2 * x1 * x1` with gradient `[0, 4 * x1]`. -/
def twoSqFun : Function :=
  { eval := fun x => some (2 * x.getD 1 0 * x.getD 1 0),
    gradient := fun x => some [0, 4 * x.getD 1 0] }

/-- The constraint `2 * x1 * x1 ≤ 2`. -/
def twoSqCon : Constraint :=
  { f := twoSqFun, fType := FunctionType.Quadratic, ub := 2, name := "cC" }

/-- The example generator with the first general scheme switched on. -/
def linGS : Linearizations :=
  { lin with
    minlp_ := { vars := [v0, v1], cons := [unitCon, circle5Con, twoSqCon], obj := none },
    nlCons_ := [unitCon, circle5Con, twoSqCon],
    solC_ := some [0, 0],
    rgs1_ := true }


/-- The parabola example with the neighbourhood size 1 and the slope threshold 5% of
scheme 2. -/
def linS2 : Linearizations :=
  { linP with rs2NbhSize_ := 1, rs2Per_ := 5 }


/-- Empty out-parameters of a cut callback. -/
def out0 : STOAHandler.CutOut := { rhs := 0, varIdx := [], varCoeff := [] }

end Examples

/-! ## Verified properties -/

/-! ### Reversible integer fixing -/

theorem VarBoundMod2.undo_apply (m : VarBoundMod2) (p : Problem) :
    (m.applyToProblem p).2.undoToProblem (m.applyToProblem p).1 = p := by
  unfold VarBoundMod2.undoToProblem VarBoundMod2.applyToProblem
  cases hv : p.vars[m.var_]? with
  | none => simp [hv]
  | some v =>
    have hlt : m.var_ < p.vars.length := by
      by_contra hge
      rw [List.getElem?_eq_none (Nat.le_of_not_lt hge)] at hv
      cases hv
    have hget : p.vars[m.var_] = v := by
      have := List.getElem?_eq_getElem hlt
      rw [this] at hv
      exact Option.some.inj hv
    have hself : p.vars.set m.var_ v = p.vars := by
      apply List.ext_getElem?
      intro j
      rw [List.getElem?_set]
      by_cases hj : m.var_ = j
      · subst hj
        simp [hlt, hget]
      · simp [hj]
    simp [Problem.changeBound, hv, hlt, List.set_set, hself]

namespace STOAHandler

theorem unfixIntsLoop_fixIntsLoop (x : List ℚ) (vs : List Variable) :
    ∀ (i : Nat) (p : Problem) (mods : List VarBoundMod2),
      unfixIntsLoop (fixIntsLoop x vs i p mods).2 (fixIntsLoop x vs i p mods).1
        = unfixIntsLoop mods p := by
  induction vs with
  | nil => intro i p mods; rfl
  | cons v vs ih =>
    intro i p mods
    unfold fixIntsLoop
    by_cases hty : v.type = VariableType.Binary ∨ v.type = VariableType.Integer
    · simp only [hty, if_true]
      rw [ih]
      simp only [unfixIntsLoop]
      rw [VarBoundMod2.undo_apply]
    · simp only [hty, if_false]
      exact ih (i + 1) p mods

theorem fixIntsLoop_vars (x : List ℚ) (vs : List Variable) :
    ∀ (i : Nat) (p : Problem) (mods : List VarBoundMod2) (pre : List Variable),
      p.vars = pre ++ vs → pre.length = i →
      (fixIntsLoop x vs i p mods).1.vars = pre ++ vs.map (fixedVar x) := by
  induction vs with
  | nil => intro i p mods pre hp _; simpa [fixIntsLoop] using hp
  | cons v vs ih =>
    intro i p mods pre hp hlen
    unfold fixIntsLoop
    by_cases hty : v.type = VariableType.Binary ∨ v.type = VariableType.Integer
    · simp only [hty, if_true]
      have hv : p.vars[i]? = some v := by
        rw [hp, List.getElem?_append_right (Nat.le_of_eq hlen)]
        simp [hlen]
      have hstep : (VarBoundMod2.applyToProblem
          { var_ := i, lb_ := ExtRat.fin ((⌊roundToDouble (x.getD v.index 0 + 1 / 2)⌋ : ℤ) : ℚ),
            ub_ := ExtRat.fin ((⌊roundToDouble (x.getD v.index 0 + 1 / 2)⌋ : ℤ) : ℚ) }
          p).1.vars
          = (pre ++ [fixedVar x v]) ++ vs := by
        simp only [VarBoundMod2.applyToProblem, Problem.changeBound, hv]
        rw [hp, List.set_append_right _ _ (Nat.le_of_eq hlen)]
        simp [hlen, fixedVar, hty]
      rw [ih (i + 1) _ _ (pre ++ [fixedVar x v]) hstep (by simp [hlen])]
      simp
    · simp only [hty, if_false]
      rw [ih (i + 1) p mods (pre ++ [v]) (by simp [hp]) (by simp [hlen])]
      simp [fixedVar, hty]

theorem fixedNLP_nlpStatus (s : STOAHandler) (lpx : List ℚ) :
    (s.fixedNLP lpx).1.nlpStatus_ = (s.nlpe_.run (s.fixInts_ lpx).minlp_).1 := by
  unfold fixedNLP
  simp only [fixInts_, solveNLP_, unfixInts_, Engine.solve]
  split <;> rfl

/-- C1: after either overload of `fixedNLP`, entered with an empty modification
stack, the source problem (hence every variable bound) is what it was before the
call and `nlpMods_` is empty again, whatever the LP point and whatever the NLP
engine answers. -/
theorem fixedNLP_restores_bounds (s : STOAHandler) (lpx x : List ℚ)
    (hempty : s.nlpMods_ = []) :
    (s.fixedNLP lpx).1.minlp_.vars = s.minlp_.vars ∧ (s.fixedNLP lpx).1.nlpMods_ = [] ∧
    (s.fixedNLP2 lpx x).1.minlp_.vars = s.minlp_.vars ∧
    (s.fixedNLP2 lpx x).1.nlpMods_ = [] := by
  have key : unfixIntsLoop (fixIntsLoop lpx s.minlp_.vars 0 s.minlp_ s.nlpMods_).2
      (fixIntsLoop lpx s.minlp_.vars 0 s.minlp_ s.nlpMods_).1 = s.minlp_ := by
    rw [unfixIntsLoop_fixIntsLoop, hempty]
    rfl
  refine ⟨?_, ?_, ?_, ?_⟩
  · unfold fixedNLP
    simp only [fixInts_, solveNLP_, unfixInts_, Engine.solve]
    split <;> simp only [key]
  · unfold fixedNLP
    simp only [fixInts_, solveNLP_, unfixInts_, Engine.solve]
    split <;> rfl
  · unfold fixedNLP2
    simp only [fixInts_, solveNLP_, unfixInts_, Engine.solve]
    split <;> simp only [key]
  · unfold fixedNLP2
    simp only [fixInts_, solveNLP_, unfixInts_, Engine.solve]
    split <;> rfl

/-- Witness of C1 on the example handler with LP point (2.3, 0.4). -/
theorem fixedNLP_restores_bounds_witness :
    Examples.handler.nlpMods_ = [] ∧
    ((Examples.handler.fixedNLP [23 / 10, 2 / 5]).1.minlp_.vars = Examples.handler.minlp_.vars ∧
     (Examples.handler.fixedNLP [23 / 10, 2 / 5]).1.nlpMods_ = [] ∧
     (Examples.handler.fixedNLP2 [23 / 10, 2 / 5] []).1.minlp_.vars
        = Examples.handler.minlp_.vars ∧
     (Examples.handler.fixedNLP2 [23 / 10, 2 / 5] []).1.nlpMods_ = []) :=
  ⟨rfl, fixedNLP_restores_bounds Examples.handler [23 / 10, 2 / 5] [] rfl⟩

/-- C2: after `fixedNLP(lpx)`, with `r` the answer of the NLP engine on the problem
with fixed integers: when the status is `ProvenOptimal` or `ProvenLocalOptimal`,
`newUb_` is the solution value of the engine and the pool has gained exactly the
solution of the engine; for every other status `newUb_` is +infinity and the pool
is unchanged. -/
theorem fixedNLP_newUb_solPool (s : STOAHandler) (lpx : List ℚ) :
    (s.fixedNLP lpx).1.nlpStatus_ = (s.nlpe_.run (s.fixInts_ lpx).minlp_).1 ∧
    (s.fixedNLP lpx).1.newUb_ =
      (if (s.nlpe_.run (s.fixInts_ lpx).minlp_).1 = EngineStatus.ProvenOptimal ∨
          (s.nlpe_.run (s.fixInts_ lpx).minlp_).1 = EngineStatus.ProvenLocalOptimal
       then ExtRat.fin (s.nlpe_.run (s.fixInts_ lpx).minlp_).2.objValue
       else ExtRat.posInf) ∧
    (s.fixedNLP lpx).1.solPool_ =
      (if (s.nlpe_.run (s.fixInts_ lpx).minlp_).1 = EngineStatus.ProvenOptimal ∨
          (s.nlpe_.run (s.fixInts_ lpx).minlp_).1 = EngineStatus.ProvenLocalOptimal
       then s.solPool_ ++ [(s.nlpe_.run (s.fixInts_ lpx).minlp_).2]
       else s.solPool_) := by
  refine ⟨fixedNLP_nlpStatus s lpx, ?_⟩
  unfold fixedNLP
  simp only [fixInts_, solveNLP_, unfixInts_, Engine.solve, Engine.getSolutionValue,
    SolutionPool.addSolution]
  generalize s.nlpe_.run (fixIntsLoop lpx s.minlp_.vars 0 s.minlp_ s.nlpMods_).1 = r
  obtain ⟨st, sol⟩ := r
  cases st <;> simp

/-- C3, counterexample: the LP values `0.49999999999999994 = 1/2 - 2^-54` and `2^52 + 1` are
both `double` numbers; the first has nearest integer 0 and the second is an
integer, yet `fixInts_` fixes an integer variable with the first value to 1 and
one with the second value to `2^52 + 2`, because the sum with 0.5 is rounded to a
`double` before `floor` is taken. -/
theorem fixInts_not_nearest_integer :
    (roundToDouble (1 / 2 - pow2 (-54)) = 1 / 2 - pow2 (-54) ∧
      round ((1 : ℚ) / 2 - pow2 (-54)) = 0 ∧
      (Examples.handler.fixInts_ [1 / 2 - pow2 (-54), 2 / 5]).minlp_.vars =
        [{ Examples.z with lb := ExtRat.fin 1, ub := ExtRat.fin 1 }, Examples.w]) ∧
    (roundToDouble (pow2 52 + 1) = pow2 52 + 1 ∧
      round (pow2 52 + 1) = 4503599627370497 ∧
      (Examples.handler.fixInts_ [pow2 52 + 1, 2 / 5]).minlp_.vars =
        [{ Examples.z with lb := ExtRat.fin 4503599627370498,
                           ub := ExtRat.fin 4503599627370498 }, Examples.w]) := by
  decide!

/-- C3 as amended: the problem on which `fixedNLP(lpx)` runs the NLP engine has every
Integer or Binary variable fixed, lower bound = upper bound =
`floor(lpx[index] + 0.5)` with the sum rounded to the nearest `double`, and every
other variable as it was; whenever the sum `lpx[index] + 0.5` is itself a `double`,
this value is `round(lpx[index])`, an integer nearest to the LP value. -/
theorem fixInts_floor_of_double_sum (s : STOAHandler) (lpx : List ℚ) :
    (s.fixedNLP lpx).1.nlpStatus_ = (s.nlpe_.run (s.fixInts_ lpx).minlp_).1 ∧
    (s.fixInts_ lpx).minlp_.vars = s.minlp_.vars.map (fun v =>
      if v.type = VariableType.Binary ∨ v.type = VariableType.Integer then
        { v with lb := ExtRat.fin ((⌊roundToDouble (lpx.getD v.index 0 + 1 / 2)⌋ : ℤ) : ℚ),
                 ub := ExtRat.fin ((⌊roundToDouble (lpx.getD v.index 0 + 1 / 2)⌋ : ℤ) : ℚ) }
      else v) ∧
    (∀ q : ℚ, roundToDouble (q + 1 / 2) = q + 1 / 2 →
      ⌊roundToDouble (q + 1 / 2)⌋ = round q ∧
      ∀ k : ℤ, |q - ((⌊roundToDouble (q + 1 / 2)⌋ : ℤ) : ℚ)| ≤ |q - (k : ℚ)|) := by
  refine ⟨fixedNLP_nlpStatus s lpx, ?_, ?_⟩
  · have h := fixIntsLoop_vars lpx s.minlp_.vars 0 s.minlp_ s.nlpMods_ [] rfl rfl
    simp only [fixInts_, h, List.nil_append]
    apply List.map_congr_left
    intro v _
    simp only [fixedVar]
  · intro q hq
    have hr : ⌊roundToDouble (q + 1 / 2)⌋ = round q := by
      rw [hq, round_eq]
    refine ⟨hr, fun k => ?_⟩
    rw [hr]
    exact round_le q k

/-- Witness of C3: the `double` nearest to 2.3 plus 0.5 is a `double`, so an integer
variable with this LP value is fixed to 2, its nearest integer. -/
theorem fixInts_floor_of_double_sum_witness :
    roundToDouble (roundToDouble (23 / 10) + 1 / 2) = roundToDouble (23 / 10) + 1 / 2 ∧
    ⌊roundToDouble (roundToDouble (23 / 10) + 1 / 2)⌋ = round (roundToDouble (23 / 10)) ∧
    round (roundToDouble (23 / 10)) = 2 :=
  ⟨by decide!,
   ((fixInts_floor_of_double_sum Examples.handler [roundToDouble (23 / 10), 2 / 5]).2.2
     (roundToDouble (23 / 10)) (by decide!)).1,
   by decide!⟩

/-- The scenario S4: an integer variable with LP value 2.3 is fixed to 2 during
the solve, the continuous variable keeps its bounds. -/
theorem fixInts_example :
    (Examples.handler.fixInts_ [23 / 10, 2 / 5]).minlp_.vars =
      [{ Examples.z with lb := ExtRat.fin 2, ub := ExtRat.fin 2 }, Examples.w] := by
  decide!

/-! ### OA cuts of the handler -/

theorem vioTest_max_iff (s : STOAHandler) (d b : ℚ) (habs : 0 ≤ s.solAbsTol_)
    (hrel : 0 ≤ s.solRelTol_) :
    s.vioTest (max d 0) b = true ↔
      (d > s.solAbsTol_ ∨ (b ≠ 0 ∧ d > |b| * s.solRelTol_)) := by
  have hb : 0 ≤ |b| * s.solRelTol_ := mul_nonneg (abs_nonneg b) hrel
  have h1 : max d 0 > s.solAbsTol_ ↔ d > s.solAbsTol_ := by
    constructor
    · intro h
      rcases lt_max_iff.mp h with h | h
      · exact h
      · exact absurd h (not_lt.mpr habs)
    · intro h
      exact lt_max_iff.mpr (Or.inl h)
  have h2 : max d 0 > |b| * s.solRelTol_ ↔ d > |b| * s.solRelTol_ := by
    constructor
    · intro h
      rcases lt_max_iff.mp h with h | h
      · exact h
      · exact absurd h (not_lt.mpr hb)
    · intro h
      exact lt_max_iff.mpr (Or.inl h)
  simp only [vioTest, Bool.or_eq_true, Bool.and_eq_true, decide_eq_true_eq, h1, h2]

theorem OACutToCons_eq_cutToCons (s : STOAHandler) (lpx : List ℚ) (con : Constraint)
    (out : CutOut)
    (hst : s.nlpStatus_ = EngineStatus.ProvenOptimal ∨
      s.nlpStatus_ = EngineStatus.ProvenLocalOptimal ∨
      s.nlpStatus_ = EngineStatus.ProvenInfeasible ∨
      s.nlpStatus_ = EngineStatus.ProvenLocalInfeasible ∨
      s.nlpStatus_ = EngineStatus.ProvenObjectiveCutOff) :
    s.OACutToCons lpx con out = s.cutToCons_ con s.nlpe_.sol.primal lpx out := by
  rcases hst with h | h | h | h | h <;> simp [OACutToCons, h]

/-- C4: when the last NLP status is optimal or infeasible (and the tolerances are
non-negative), `OACutToCons` either leaves `rhs`, `varIdx`, `varCoeff` as they are,
or the linearization `a·y ≤ ub − c` at the NLP primal is violated at `lpx` by more
than the tolerance and the cut written is that linearization; and whenever the
linearization is not violated at `lpx`, the three outputs are left unchanged. -/
theorem OACutToCons_only_if_violated (s : STOAHandler) (lpx : List ℚ) (con : Constraint)
    (out : CutOut)
    (hst : s.nlpStatus_ = EngineStatus.ProvenOptimal ∨
      s.nlpStatus_ = EngineStatus.ProvenLocalOptimal ∨
      s.nlpStatus_ = EngineStatus.ProvenInfeasible ∨
      s.nlpStatus_ = EngineStatus.ProvenLocalInfeasible ∨
      s.nlpStatus_ = EngineStatus.ProvenObjectiveCutOff)
    (habs : 0 ≤ s.solAbsTol_) (hrel : 0 ≤ s.solRelTol_) :
    ((s.OACutToCons lpx con out).2 = out ∨
      ∃ act lf c, con.f.eval s.nlpe_.sol.primal = some act ∧
        s.linearAt_ con.f act s.nlpe_.sol.primal = some (lf, c) ∧
        (lf.eval lpx - (con.ub - c) > s.solAbsTol_ ∨
          (con.ub - c ≠ 0 ∧ lf.eval lpx - (con.ub - c) > |con.ub - c| * s.solRelTol_)) ∧
        (s.OACutToCons lpx con out).2 =
          { rhs := con.ub - c,
            varIdx := out.varIdx ++ lf.terms.map (fun t => t.1),
            varCoeff := out.varCoeff ++ lf.terms.map (fun t => t.2) }) ∧
    (∀ act lf c, con.f.eval s.nlpe_.sol.primal = some act →
      s.linearAt_ con.f act s.nlpe_.sol.primal = some (lf, c) →
      ¬ (lf.eval lpx - (con.ub - c) > s.solAbsTol_ ∨
          (con.ub - c ≠ 0 ∧ lf.eval lpx - (con.ub - c) > |con.ub - c| * s.solRelTol_)) →
      (s.OACutToCons lpx con out).2 = out) := by
  rw [OACutToCons_eq_cutToCons s lpx con out hst]
  have hd : ∀ (lf : LinearFunction) (c : ℚ),
      lf.eval lpx - con.ub + c = lf.eval lpx - (con.ub - c) := fun lf c => by ring
  constructor
  · unfold cutToCons_
    cases h1 : con.f.eval lpx with
    | none => left; rfl
    | some nlpact =>
      simp only []
      by_cases h2 : s.actTest nlpact con.ub = true
      · simp only [h2, if_true]
        unfold addCut_
        cases h3 : con.f.eval s.nlpe_.sol.primal with
        | none => left; rfl
        | some act =>
          simp only []
          cases h4 : s.linearAt_ con.f act s.nlpe_.sol.primal with
          | none => left; rfl
          | some r =>
            obtain ⟨lf, c⟩ := r
            simp only []
            by_cases h5 : s.vioTest (max (lf.eval lpx - con.ub + c) 0) (con.ub - c) = true
            · right
              refine ⟨act, lf, c, rfl, h4, ?_, ?_⟩
              · have := (vioTest_max_iff s _ _ habs hrel).mp h5
                rwa [hd] at this
              · simp only [h5, if_true]
            · left
              simp only [h5]
              rfl
      · left
        simp only [h2]
        rfl
  · intro act lf c h3 h4 hnv
    unfold cutToCons_
    cases h1 : con.f.eval lpx with
    | none => rfl
    | some nlpact =>
      simp only []
      by_cases h2 : s.actTest nlpact con.ub = true
      · simp only [h2, if_true]
        unfold addCut_
        simp only [h3, h4]
        have h5 : ¬ s.vioTest (max (lf.eval lpx - con.ub + c) 0) (con.ub - c) = true := by
          intro h
          apply hnv
          have := (vioTest_max_iff s _ _ habs hrel).mp h
          rwa [hd] at this
        simp only [h5]
        rfl
      · simp only [h2]
        rfl

/-- Witness of C4: status `ProvenOptimal`, tolerances 1e-6, constraint
`x0 * x0 ≤ 1`, NLP primal (1, 0) and LP point (2, 0). -/
theorem OACutToCons_only_if_violated_witness :
    (0 ≤ Examples.handlerOpt.solAbsTol_ ∧ 0 ≤ Examples.handlerOpt.solRelTol_) ∧
    ((Examples.handlerOpt.OACutToCons [2, 0] Examples.sqCon Examples.out0).2 = Examples.out0 ∨
      ∃ act lf c, Examples.sqCon.f.eval Examples.handlerOpt.nlpe_.sol.primal = some act ∧
        Examples.handlerOpt.linearAt_ Examples.sqCon.f act
          Examples.handlerOpt.nlpe_.sol.primal = some (lf, c) ∧
        (lf.eval [2, 0] - (Examples.sqCon.ub - c) > Examples.handlerOpt.solAbsTol_ ∨
          (Examples.sqCon.ub - c ≠ 0 ∧ lf.eval [2, 0] - (Examples.sqCon.ub - c) >
            |Examples.sqCon.ub - c| * Examples.handlerOpt.solRelTol_)) ∧
        (Examples.handlerOpt.OACutToCons [2, 0] Examples.sqCon Examples.out0).2 =
          { rhs := Examples.sqCon.ub - c,
            varIdx := Examples.out0.varIdx ++ lf.terms.map (fun t => t.1),
            varCoeff := Examples.out0.varCoeff ++ lf.terms.map (fun t => t.2) }) :=
  ⟨⟨by norm_num [Examples.handlerOpt, Examples.handler],
    by norm_num [Examples.handlerOpt, Examples.handler]⟩,
   (OACutToCons_only_if_violated Examples.handlerOpt [2, 0] Examples.sqCon Examples.out0
      (Or.inl rfl) (by norm_num [Examples.handlerOpt, Examples.handler])
      (by norm_num [Examples.handlerOpt, Examples.handler])).1⟩

/-- The cut that `OACutToCons` writes in the witness of C4 is `2 * x0 ≤ 2`. -/
theorem OACutToCons_example :
    (Examples.handlerOpt.OACutToCons [2, 0] Examples.sqCon Examples.out0).2
      = { rhs := 2, varIdx := [0], varCoeff := [2] } := by
  simp [OACutToCons, cutToCons_, addCut_, Examples.handlerOpt, Examples.handler,
    Examples.optEngine, Examples.sqCon, Examples.sqFun, Examples.out0, linearAt_, actTest,
    vioTest, Function.evalGradient, LinearFunction.ofArray, LinearFunction.eval, InnerProduct,
    List.range_succ]
  norm_num

/-- C5, the code at the failing input: after an NLP solve that hit the iteration
limit, with the constraint `x1 * x1 ≤ 1` and LP point (0, 2), the linearization at
the LP point is `4 * x1 ≤ 5` (`lf = 4 * x1`, `c = -4`), but the triple written by
`OACutToCons` has `varCoeff = [1]`, the index of the variable, where the gradient
coefficient is 4. -/
theorem consCutAtLpSol_writes_index :
    Examples.handlerIL.linearAt_ Examples.sqCon1.f 4 [0, 2]
      = some ({ terms := [(1, 4)] }, -4) ∧
    (Examples.handlerIL.OACutToCons [0, 2] Examples.sqCon1 Examples.out0).2
      = { rhs := 5, varIdx := [1], varCoeff := [1] } := by
  constructor
  · simp [Examples.handlerIL, Examples.handler, Examples.sqCon1, Examples.sqFun1, linearAt_,
      Function.evalGradient, LinearFunction.ofArray, InnerProduct, List.range_succ]
    norm_num
  · simp [OACutToCons, consCutAtLpSol_, Examples.handlerIL, Examples.handler,
      Examples.sqCon1, Examples.sqFun1, Examples.out0, linearAt_, actTest, vioTest,
      Function.evalGradient, LinearFunction.ofArray, LinearFunction.eval, InnerProduct,
      List.range_succ]
    norm_num

theorem addCut_rel (s : STOAHandler) (nlpx lpx : List ℚ) (con : Constraint) (out : CutOut) :
    (s.addCut_ nlpx lpx con out).1.rel_ = s.rel_ := by
  unfold addCut_
  cases con.f.eval nlpx with
  | none => rfl
  | some act =>
    dsimp only
    cases s.linearAt_ con.f act nlpx with
    | none => rfl
    | some r =>
      dsimp only
      split <;> rfl

theorem cutToCons_rel (s : STOAHandler) (con : Constraint) (nlpx lpx : List ℚ)
    (out : CutOut) : (s.cutToCons_ con nlpx lpx out).1.rel_ = s.rel_ := by
  unfold cutToCons_
  cases con.f.eval lpx with
  | none => rfl
  | some act =>
    dsimp only
    split
    · exact addCut_rel s nlpx lpx con out
    · rfl

theorem consCutAtLpSol_rel (s : STOAHandler) (con : Constraint) (lpx : List ℚ)
    (out : CutOut) : (s.consCutAtLpSol_ con lpx out).1.rel_ = s.rel_ := by
  unfold consCutAtLpSol_
  cases con.f.eval lpx with
  | none => rfl
  | some act =>
    dsimp only
    split
    · cases s.linearAt_ con.f act lpx with
      | none => rfl
      | some r =>
        dsimp only
        split <;> rfl
    · rfl

/-- No path of `OACutToCons` touches the relaxation. -/
theorem OACutToCons_rel (s : STOAHandler) (lpx : List ℚ) (con : Constraint) (out : CutOut) :
    (s.OACutToCons lpx con out).1.rel_ = s.rel_ := by
  unfold OACutToCons
  split
  · exact cutToCons_rel s con _ lpx out
  · exact cutToCons_rel s con _ lpx out
  · exact cutToCons_rel s con _ lpx out
  · exact cutToCons_rel s con _ lpx out
  · exact cutToCons_rel s con _ lpx out
  · exact consCutAtLpSol_rel s con lpx out
  · rfl

/-- C6, the code at the failing input: with status `ProvenOptimal`, constraint
`x0 * x0 ≤ 1`, NLP primal (1, 0) and LP point (2, 0), `OACutToCons` writes the cut
`2 * x0 ≤ 2` into the out-parameters and the relaxation still has no constraint. -/
theorem OACutToCons_not_in_rel :
    (Examples.handlerOpt.OACutToCons [2, 0] Examples.sqCon Examples.out0).2
      = { rhs := 2, varIdx := [0], varCoeff := [2] } ∧
    (Examples.handlerOpt.OACutToCons [2, 0] Examples.sqCon Examples.out0).1.rel_.cons = [] := by
  constructor
  · simp [OACutToCons, cutToCons_, addCut_, Examples.handlerOpt, Examples.handler,
      Examples.optEngine, Examples.sqCon, Examples.sqFun, Examples.out0, linearAt_, actTest,
      vioTest, Function.evalGradient, LinearFunction.ofArray, LinearFunction.eval,
      InnerProduct, List.range_succ]
    norm_num
  · rw [OACutToCons_rel]
    rfl

end STOAHandler

/-! ### Linear supports -/

theorem dense_getD (g : List ℚ) (n k : Nat) (hk : k < n) :
    ((List.range n).map (fun k => g.getD k 0)).getD k 0 = g.getD k 0 := by
  simp [List.getD_eq_getElem?_getD, List.getElem?_range hk]

theorem sum_filter_map (l : List Nat) (p : Nat → Bool) (h : Nat → ℚ) :
    ((l.filter p).map h).sum = (l.map (fun k => if p k = true then h k else 0)).sum := by
  induction l with
  | nil => rfl
  | cons a l ih =>
    by_cases hp : p a = true
    · simp [List.filter_cons, hp, ih]
    · simp [List.filter_cons, hp, ih]

theorem sum_range_zero_tail (h : Nat → ℚ) (m : Nat) (hz : ∀ k, m ≤ k → h k = 0) :
    ∀ n, m ≤ n → ((List.range n).map h).sum = ((List.range m).map h).sum := by
  intro n hn
  induction n with
  | zero =>
    have : m = 0 := Nat.le_zero.mp hn
    subst this
    rfl
  | succ n ih =>
    by_cases hmn : m = n + 1
    · subst hmn
      rfl
    · have hle : m ≤ n := by omega
      rw [List.sum_range_succ, ih hle, hz n hle, add_zero]

theorem ofArray_eval (a : List ℚ) (n : Nat) (tol : ℚ) (y : List ℚ) :
    (LinearFunction.ofArray a n tol).eval y =
      ((List.range n).map (fun k =>
        if tol ≤ |a.getD k 0| then a.getD k 0 * y.getD k 0 else 0)).sum := by
  unfold LinearFunction.ofArray LinearFunction.eval
  simp only [List.map_map]
  rw [show ((fun t : Nat × ℚ => t.2 * y.getD t.1 0) ∘ fun k => (k, a.getD k 0))
        = (fun k => a.getD k 0 * y.getD k 0) from rfl]
  rw [sum_filter_map]
  simp only [decide_eq_true_eq]

theorem ofArray_eval_eq_InnerProduct (g : List ℚ) (n m : Nat) (tol : ℚ) (y : List ℚ)
    (hmn : m ≤ n) (hlen : g.length ≤ m)
    (hnd : ∀ k, |g.getD k 0| < tol → g.getD k 0 = 0) :
    (LinearFunction.ofArray ((List.range n).map (fun k => g.getD k 0)) n tol).eval y =
      InnerProduct y ((List.range n).map (fun k => g.getD k 0)) m := by
  rw [ofArray_eval]
  unfold InnerProduct
  have h1 : ((List.range n).map (fun k =>
        if tol ≤ |((List.range n).map (fun k => g.getD k 0)).getD k 0| then
          ((List.range n).map (fun k => g.getD k 0)).getD k 0 * y.getD k 0 else 0))
      = (List.range n).map (fun k => y.getD k 0 * g.getD k 0) := by
    apply List.map_congr_left
    intro k hk
    rw [dense_getD g n k (List.mem_range.mp hk)]
    by_cases hc : tol ≤ |g.getD k 0|
    · rw [if_pos hc, mul_comm]
    · rw [if_neg hc, hnd k (not_le.mp hc), mul_zero]
  have h2 : ((List.range m).map (fun i =>
        y.getD i 0 * ((List.range n).map (fun k => g.getD k 0)).getD i 0))
      = (List.range m).map (fun k => y.getD k 0 * g.getD k 0) := by
    apply List.map_congr_left
    intro k hk
    rw [dense_getD g n k (lt_of_lt_of_le (List.mem_range.mp hk) hmn)]
  rw [h1, h2]
  apply sum_range_zero_tail _ m _ n hmn
  intro k hk
  have : g.getD k 0 = 0 := by
    simp [List.getD_eq_getElem?_getD, List.getElem?_eq_none (le_trans hlen hk)]
  show y.getD k 0 * g.getD k 0 = 0
  rw [this, mul_zero]

theorem Linearizations.linearAt_of_gradient_L (s : Linearizations) (f : Function) (fval : ℚ)
    (x g : List ℚ) (hg : f.gradient x = some g) :
    s.linearAt_ f fval x = some
      (LinearFunction.ofArray ((List.range s.rel_.numVars).map (fun k => g.getD k 0))
          s.rel_.numVars s.conCoeff_tol,
        fval - InnerProduct x ((List.range s.rel_.numVars).map (fun k => g.getD k 0))
          s.minlp_.vars.length) := by
  simp [Linearizations.linearAt_, Function.evalGradient, hg]

theorem STOAHandler.linearAt_of_gradient_H (s : STOAHandler) (f : Function) (fval : ℚ)
    (x g : List ℚ) (hg : f.gradient x = some g) :
    s.linearAt_ f fval x = some
      (LinearFunction.ofArray ((List.range s.rel_.numVars).map (fun k => g.getD k 0))
          s.rel_.numVars s.conCoeff_tol,
        fval - InnerProduct x ((List.range s.rel_.numVars).map (fun k => g.getD k 0))
          s.minlp_.vars.length) := by
  simp [STOAHandler.linearAt_, Function.evalGradient, hg]

/-- C7, counterexample: with `conCoeff_tol = 1e-6`, the function
`x0 * x0 + x1 / 10^7` at the point (1, 10^7), where its value is 2, is linearized
to `lf = 2 * x0` and `c = -1`, so that `lf(x) + c = 1`, not 2. -/
theorem linearAt_drop_breaks_fval :
    Examples.tinyFun.eval [1, 10000000] = some 2 ∧
    Examples.lin.linearAt_ Examples.tinyFun 2 [1, 10000000]
      = some ({ terms := [(0, 2)] }, -1) ∧
    (LinearFunction.eval { terms := [(0, 2)] } [1, 10000000] + (-1) ≠ 2) := by
  refine ⟨?_, ?_, ?_⟩
  · simp [Examples.tinyFun]
    norm_num
  · simp [Examples.lin, Examples.tinyFun, Linearizations.linearAt_, Function.evalGradient,
      LinearFunction.ofArray, InnerProduct, List.range_succ]
    norm_num
    rw [abs_of_pos (by norm_num)]
    norm_num
  · simp [LinearFunction.eval]

/-- C7 as amended: when the gradient oracle reports no error at `x`, returns entries
for the variables of the source problem only (all of them variables of the
relaxation), and no non-zero entry is below `conCoeff_tol` in absolute value, both
`linearAt_` produce `lf` and `c` with `lf(x) + c = fval`. -/
theorem linearAt_reproduces_fval (sL : Linearizations) (sH : STOAHandler) (f : Function)
    (fval : ℚ) (x g : List ℚ) (hg : f.gradient x = some g)
    (hrelL : sL.minlp_.vars.length ≤ sL.rel_.numVars) (hlenL : g.length ≤ sL.minlp_.vars.length)
    (hndL : ∀ k, |g.getD k 0| < sL.conCoeff_tol → g.getD k 0 = 0)
    (hrelH : sH.minlp_.vars.length ≤ sH.rel_.numVars) (hlenH : g.length ≤ sH.minlp_.vars.length)
    (hndH : ∀ k, |g.getD k 0| < sH.conCoeff_tol → g.getD k 0 = 0) :
    (∃ lf c, sL.linearAt_ f fval x = some (lf, c) ∧ lf.eval x + c = fval) ∧
    (∃ lf c, sH.linearAt_ f fval x = some (lf, c) ∧ lf.eval x + c = fval) := by
  constructor
  · refine ⟨_, _, Linearizations.linearAt_of_gradient_L sL f fval x g hg, ?_⟩
    rw [ofArray_eval_eq_InnerProduct g _ _ _ x hrelL hlenL hndL]
    ring
  · refine ⟨_, _, STOAHandler.linearAt_of_gradient_H sH f fval x g hg, ?_⟩
    rw [ofArray_eval_eq_InnerProduct g _ _ _ x hrelH hlenH hndH]
    ring

/-- Witness of C7: the function `x0 * x0` at the point (3, 0), value 9, gradient
`[6]`, on the example generator and the example handler. -/
theorem linearAt_reproduces_fval_witness :
    Examples.sqFun.gradient [3, 0] = some [6] ∧
    ((∃ lf c, Examples.lin.linearAt_ Examples.sqFun 9 [3, 0] = some (lf, c) ∧
        lf.eval [3, 0] + c = 9) ∧
     (∃ lf c, Examples.handler.linearAt_ Examples.sqFun 9 [3, 0] = some (lf, c) ∧
        lf.eval [3, 0] + c = 9)) :=
  have hg : Examples.sqFun.gradient [3, 0] = some [6] := by
    simp [Examples.sqFun]
    norm_num
  have hnd : ∀ k, |([6] : List ℚ).getD k 0| < 1 / 1000000 → ([6] : List ℚ).getD k 0 = 0 := by
    intro k hk
    cases k with
    | zero =>
      exfalso
      simp only [List.getD_cons_zero] at hk
      rw [abs_of_pos (by norm_num)] at hk
      norm_num at hk
    | succ k => simp
  ⟨hg, linearAt_reproduces_fval Examples.lin Examples.handler Examples.sqFun 9 [3, 0] [6] hg
    (by simp [Examples.lin]) (by simp [Examples.lin]) hnd
    (by simp [Examples.handler]) (by simp [Examples.handler]) hnd⟩

theorem InnerProduct_dense (y g : List ℚ) (n m : Nat) (hmn : m ≤ n) :
    InnerProduct y ((List.range n).map (fun k => g.getD k 0)) m = InnerProduct y g m := by
  unfold InnerProduct
  congr 1
  apply List.map_congr_left
  intro k hk
  rw [dense_getD g n k (lt_of_lt_of_le (List.mem_range.mp hk) hmn)]

theorem Linearizations.addCutAtRoot_cons (s : Linearizations) (x : List ℚ) (con : Constraint)
    (id0 : Nat) (act : ℚ) (g : List ℚ) (hact : con.f.eval x = some act)
    (hg : con.f.gradient x = some g) :
    (s.addCutAtRoot_ x con id0).1.rel_.cons = s.rel_.cons ++
      [{ lf := LinearFunction.ofArray ((List.range s.rel_.numVars).map (fun k => g.getD k 0))
            s.rel_.numVars s.conCoeff_tol,
         lb := ExtRat.negInf,
         ub := ExtRat.fin (con.ub - (act - InnerProduct x
            ((List.range s.rel_.numVars).map (fun k => g.getD k 0)) s.minlp_.vars.length)),
         name := "_OAcut_" ++ toString (s.stats_.rs1Cuts + 1) ++ "_AtRoot" }] := by
  unfold Linearizations.addCutAtRoot_
  simp only [hact, Linearizations.linearAt_of_gradient_L s con.f act x g hg,
    Relaxation.newConstraint]

/-- C8, counterexample: `g = x0 * x0 + x1 / 10^7` lies above each of its tangent
planes (it is convex, with exact gradient), the constraint is `g ≤ 0`, and with
`conCoeff_tol = feasAbs_tol = 1e-6` the cut added by `addCutAtRoot_` at (1, 0) is
`2 * x0 ≤ 1`; the point (1, -10^7) satisfies `g ≤ 0` and violates the cut by 1. -/
theorem addCutAtRoot_cuts_off_feasible_point :
    (∀ (x y : List ℚ) (gx gy : ℚ) (gr : List ℚ), Examples.tinyFun.eval x = some gx →
      Examples.tinyFun.eval y = some gy → Examples.tinyFun.gradient x = some gr →
      gx + (InnerProduct y gr 2 - InnerProduct x gr 2) ≤ gy) ∧
    (Examples.lin.addCutAtRoot_ [1, 0] Examples.tinyCon 0).1.rel_.cons =
      [{ lf := { terms := [(0, 2)] }, lb := ExtRat.negInf, ub := ExtRat.fin 1,
         name := "_OAcut_1_AtRoot" }] ∧
    Examples.tinyCon.f.eval [1, -10000000] = some 0 ∧
    (0 : ℚ) ≤ Examples.tinyCon.ub ∧
    ¬ (LinearFunction.eval { terms := [(0, 2)] } [1, -10000000]
        ≤ 1 + Examples.lin.solAbsTol_) := by
  refine ⟨?_, ?_, ?_, ?_, ?_⟩
  · intro x y gx gy gr hx hy hgr
    simp only [Examples.tinyFun, Option.some.injEq] at hx hy hgr
    subst hx hy hgr
    simp only [InnerProduct, List.range_succ, List.range_zero, List.nil_append,
      List.map_cons, List.map_nil, List.cons_append, List.sum_cons, List.sum_nil,
      List.getD_cons_zero, List.getD_cons_succ, add_zero]
    generalize x.getD 0 0 = a
    generalize x.getD 1 0 = b
    generalize y.getD 0 0 = c
    generalize y.getD 1 0 = d
    nlinarith [sq_nonneg (c - a)]
  · rw [Linearizations.addCutAtRoot_cons Examples.lin [1, 0] Examples.tinyCon 0 1
      [2, 1 / 10000000] (by simp [Examples.tinyCon, Examples.tinyFun])
      (by simp [Examples.tinyCon, Examples.tinyFun])]
    simp [Examples.lin, Examples.tinyCon, LinearFunction.ofArray, InnerProduct,
      List.range_succ]
    refine ⟨?_, ?_, ?_⟩
    · norm_num
      rw [abs_of_pos (by norm_num)]
      norm_num
    · norm_num
    · decide
  · simp [Examples.tinyCon, Examples.tinyFun]
  · simp [Examples.tinyCon]
  · simp [LinearFunction.eval, Examples.lin]
    norm_num

/-- C8 as amended: let `g` be the gradient at `x0` of a constraint function that
lies above its tangent plane at `x0` (as a convex differentiable function with an
exact gradient oracle does), with entries for the variables of the source problem
only.  If no non-zero entry of `g` is below `conCoeff_tol` in absolute value and
`feasAbs_tol ≥ 0`, the cut `a·y ≤ ub − c` that `addCutAtRoot_` adds holds up to
`feasAbs_tol` at every point `y` with `g(y) ≤ ub`. -/
theorem addCutAtRoot_valid_of_no_drop (s : Linearizations) (x0 : List ℚ) (con : Constraint)
    (id0 : Nat) (act : ℚ) (g : List ℚ)
    (hact : con.f.eval x0 = some act) (hg : con.f.gradient x0 = some g)
    (hrel : s.minlp_.vars.length ≤ s.rel_.numVars) (hlen : g.length ≤ s.minlp_.vars.length)
    (hconv : ∀ (y : List ℚ) (gy : ℚ), con.f.eval y = some gy →
      act + (InnerProduct y g s.minlp_.vars.length - InnerProduct x0 g s.minlp_.vars.length)
        ≤ gy)
    (hnd : ∀ k, |g.getD k 0| < s.conCoeff_tol → g.getD k 0 = 0)
    (htol : 0 ≤ s.solAbsTol_) :
    ∃ (lf : LinearFunction) (c : ℚ) (name : String),
      s.linearAt_ con.f act x0 = some (lf, c) ∧
      (s.addCutAtRoot_ x0 con id0).1.rel_.cons = s.rel_.cons ++
        [{ lf := lf, lb := ExtRat.negInf, ub := ExtRat.fin (con.ub - c), name := name }] ∧
      ∀ (y : List ℚ) (gy : ℚ), con.f.eval y = some gy → gy ≤ con.ub →
        lf.eval y ≤ (con.ub - c) + s.solAbsTol_ := by
  refine ⟨_, _, _, Linearizations.linearAt_of_gradient_L s con.f act x0 g hg,
    Linearizations.addCutAtRoot_cons s x0 con id0 act g hact hg, ?_⟩
  intro y gy hy hfeas
  rw [ofArray_eval_eq_InnerProduct g _ _ _ y hrel hlen hnd, InnerProduct_dense y g _ _ hrel,
    InnerProduct_dense x0 g _ _ hrel]
  have := hconv y gy hy
  linarith

/-- Witness of C8: the constraint `x0 * x0 ≤ 1` linearized at (1, 0) on the example
generator. -/
theorem addCutAtRoot_valid_of_no_drop_witness :
    (Examples.sqCon.f.eval [1, 0] = some 1 ∧ Examples.sqCon.f.gradient [1, 0] = some [2] ∧
      0 ≤ Examples.lin.solAbsTol_) ∧
    ∃ (lf : LinearFunction) (c : ℚ) (name : String),
      Examples.lin.linearAt_ Examples.sqCon.f 1 [1, 0] = some (lf, c) ∧
      (Examples.lin.addCutAtRoot_ [1, 0] Examples.sqCon 0).1.rel_.cons =
        Examples.lin.rel_.cons ++
          [{ lf := lf, lb := ExtRat.negInf, ub := ExtRat.fin (Examples.sqCon.ub - c),
             name := name }] ∧
      ∀ (y : List ℚ) (gy : ℚ), Examples.sqCon.f.eval y = some gy → gy ≤ Examples.sqCon.ub →
        lf.eval y ≤ (Examples.sqCon.ub - c) + Examples.lin.solAbsTol_ :=
  have hact : Examples.sqCon.f.eval [1, 0] = some 1 := by
    simp [Examples.sqCon, Examples.sqFun]
  have hg : Examples.sqCon.f.gradient [1, 0] = some [2] := by
    simp [Examples.sqCon, Examples.sqFun]
  have htol : 0 ≤ Examples.lin.solAbsTol_ := by
    norm_num [Examples.lin]
  have hconv : ∀ (y : List ℚ) (gy : ℚ), Examples.sqCon.f.eval y = some gy →
      1 + (InnerProduct y [2] Examples.lin.minlp_.vars.length
        - InnerProduct [1, 0] [2] Examples.lin.minlp_.vars.length) ≤ gy := by
    intro y gy hy
    simp only [Examples.sqCon, Examples.sqFun, Option.some.injEq] at hy
    subst hy
    simp only [Examples.lin, List.length_cons, List.length_nil, InnerProduct, List.range_succ,
      List.range_zero, List.nil_append, List.map_cons, List.map_nil, List.cons_append,
      List.sum_cons, List.sum_nil, List.getD_cons_zero, List.getD_cons_succ, List.getD_nil,
      add_zero]
    generalize y.getD 0 0 = a
    generalize y.getD 1 0 = b
    nlinarith [sq_nonneg (a - 1)]
  have hnd : ∀ k, |([2] : List ℚ).getD k 0| < Examples.lin.conCoeff_tol →
      ([2] : List ℚ).getD k 0 = 0 := by
    intro k hk
    cases k with
    | zero =>
      exfalso
      simp only [List.getD_cons_zero, Examples.lin] at hk
      rw [abs_of_pos (by norm_num)] at hk
      norm_num at hk
    | succ k => simp
  ⟨⟨hact, hg, htol⟩,
   addCutAtRoot_valid_of_no_drop Examples.lin [1, 0] Examples.sqCon 0 1 [2] hact hg
    (by simp [Examples.lin]) (by simp [Examples.lin]) hconv hnd htol⟩

/-! ### Coefficient drop -/

theorem ofArray_isDropOf (g : List ℚ) (len n : Nat) (tol : ℚ) (hlen : n ≤ len) :
    (LinearFunction.ofArray ((List.range len).map (fun k => g.getD k 0)) n tol).IsDropOf
      g n tol := by
  unfold LinearFunction.IsDropOf LinearFunction.ofArray
  constructor
  · intro t ht
    simp only [List.mem_map, List.mem_filter, List.mem_range, decide_eq_true_eq] at ht
    obtain ⟨k, ⟨hk, hkeep⟩, rfl⟩ := ht
    rw [dense_getD g len k (lt_of_lt_of_le hk hlen)] at hkeep ⊢
    exact ⟨hkeep, hk, rfl⟩
  · intro k hk hkeep
    simp only [List.mem_map, List.mem_filter, List.mem_range, decide_eq_true_eq]
    refine ⟨k, ⟨hk, ?_⟩, ?_⟩
    · rw [dense_getD g len k (lt_of_lt_of_le hk hlen)]
      exact hkeep
    · rw [dense_getD g len k (lt_of_lt_of_le hk hlen)]

/-- C9: with `g` the gradient of the constraint function at `x`, the linear function
built by either `linearAt_`, the one `addCutAtRoot_` adds to the relaxation, and
the one `rScheme2Cut_` adds to the relaxation (for a gradient array that covers the
variables of the relaxation) have no term with a coefficient below `conCoeff_tol`
in absolute value, every term carries the gradient entry of its variable, and
every entry not below the threshold is kept. -/
theorem linear_terms_above_tol (sL : Linearizations) (sH : STOAHandler) (con : Constraint)
    (fval : ℚ) (x g : List ℚ) (id0 : Nat) (delta lVarCoeff lastSlope : ℚ) (nVarIdx : Nat)
    (grad : List ℚ)
    (hg : con.f.gradient x = some g) (hgrad : sL.rel_.numVars ≤ grad.length) :
    (∃ lf c, sL.linearAt_ con.f fval x = some (lf, c) ∧
      lf.IsDropOf g sL.rel_.numVars sL.conCoeff_tol) ∧
    (∃ lf c, sH.linearAt_ con.f fval x = some (lf, c) ∧
      lf.IsDropOf g sH.rel_.numVars sH.conCoeff_tol) ∧
    ((sL.addCutAtRoot_ x con id0).1.rel_ = sL.rel_ ∨
      ∃ lf ub name, (sL.addCutAtRoot_ x con id0).1.rel_.cons = sL.rel_.cons ++
          [{ lf := lf, lb := ExtRat.negInf, ub := ub, name := name }] ∧
        lf.IsDropOf g sL.rel_.numVars sL.conCoeff_tol) ∧
    ((sL.rScheme2Cut_ con delta lVarCoeff lastSlope nVarIdx x grad).1.rel_ = sL.rel_ ∨
      ∃ lf ub name,
        (sL.rScheme2Cut_ con delta lVarCoeff lastSlope nVarIdx x grad).1.rel_.cons =
          sL.rel_.cons ++ [{ lf := lf, lb := ExtRat.negInf, ub := ub, name := name }] ∧
        lf.IsDropOf g sL.rel_.numVars sL.conCoeff_tol) := by
  refine ⟨?_, ?_, ?_, ?_⟩
  · exact ⟨_, _, Linearizations.linearAt_of_gradient_L sL con.f fval x g hg,
      ofArray_isDropOf g _ _ _ (le_refl _)⟩
  · exact ⟨_, _, STOAHandler.linearAt_of_gradient_H sH con.f fval x g hg,
      ofArray_isDropOf g _ _ _ (le_refl _)⟩
  · cases hact : con.f.eval x with
    | none =>
      left
      simp [Linearizations.addCutAtRoot_, hact]
    | some act =>
      right
      exact ⟨_, _, _, Linearizations.addCutAtRoot_cons sL x con id0 act g hact hg,
        ofArray_isDropOf g _ _ _ (le_refl _)⟩
  · unfold Linearizations.rScheme2Cut_
    simp only [Function.evalGradient, hg]
    split
    · left
      rfl
    · right
      exact ⟨_, _, _, rfl, ofArray_isDropOf g _ _ _ hgrad⟩

/-- Witness of C9: the constraint `x0 * x0 + x1 / 10^7 ≤ 0` at the point (1, 0), with
a gradient array of two entries. -/
theorem linear_terms_above_tol_witness :
    Examples.tinyCon.f.gradient [1, 0] = some [2, 1 / 10000000] ∧
    ∃ lf c, Examples.lin.linearAt_ Examples.tinyCon.f 1 [1, 0] = some (lf, c) ∧
      lf.IsDropOf [2, 1 / 10000000] Examples.lin.rel_.numVars Examples.lin.conCoeff_tol :=
  have hg : Examples.tinyCon.f.gradient [1, 0] = some [2, 1 / 10000000] := by
    simp [Examples.tinyCon, Examples.tinyFun]
  ⟨hg, (linear_terms_above_tol Examples.lin Examples.handler Examples.tinyCon 1 [1, 0]
    [2, 1 / 10000000] 0 (1 / 2) 1 0 0 [0, 0] hg (by simp [Examples.lin])).1⟩

/-- The linear function of the witness of C9 is `2 * x0`: the entry `1 / 10^7` of
the gradient is dropped. -/
theorem linearAt_example :
    Examples.lin.linearAt_ Examples.tinyCon.f 1 [1, 0] = some ({ terms := [(0, 2)] }, -1) := by
  simp [Examples.lin, Examples.tinyCon, Examples.tinyFun, Linearizations.linearAt_,
    Function.evalGradient, LinearFunction.ofArray, InnerProduct, List.range_succ]
  norm_num
  rw [abs_of_pos (by norm_num)]
  norm_num

/-! ### Root cuts are added without a violation test -/

/-- C10, counterexample: `addCutAtRoot_` at the point (0, 0) for the constraint
`x0 * x0 ≤ 1` adds the cut `0 ≤ 1` to the relaxation, a cut that no point at all
violates. -/
theorem addCutAtRoot_adds_unviolated_cut :
    (Examples.lin.addCutAtRoot_ [0, 0] Examples.sqCon 0).1.rel_.cons =
      [{ lf := { terms := [] }, lb := ExtRat.negInf, ub := ExtRat.fin 1,
         name := "_OAcut_1_AtRoot" }] ∧
    ∀ y : List ℚ, LinearFunction.eval { terms := [] } y ≤ 1 := by
  constructor
  · rw [Linearizations.addCutAtRoot_cons Examples.lin [0, 0] Examples.sqCon 0 0 [0]
      (by simp [Examples.sqCon, Examples.sqFun]) (by simp [Examples.sqCon, Examples.sqFun])]
    simp [Examples.lin, Examples.sqCon, LinearFunction.ofArray, InnerProduct,
      List.range_succ]
    decide
  · intro y
    simp [LinearFunction.eval]

/-- C10 as amended: the root cuts are added without any test against an LP point.
`addCutAtRoot_` and the loop body of `addInitLinearX_` add exactly one constraint
when the activity and the gradient evaluate without error and none otherwise;
`rScheme2Cut_` adds exactly one constraint when the gradient evaluates and the
slope test does not skip the point, and none otherwise; `cutAtLineSearchPt_` adds
exactly one constraint when the line search finds a point and none otherwise. -/
theorem root_cuts_added_unconditionally (s : Linearizations) (h : STOAHandler)
    (x : List ℚ) (con : Constraint) (id0 : Nat) (delta lVarCoeff lastSlope : ℚ)
    (nVarIdx : Nat) (grad : List ℚ) (fuel : Nat) (cUninit : ℚ) :
    ((s.addCutAtRoot_ x con id0).1.rel_.cons.length = s.rel_.cons.length +
      (if (con.f.eval x).isSome ∧ (con.f.gradient x).isSome then 1 else 0)) ∧
    ((h.addInitLinearXCon x con).rel_.cons.length = h.rel_.cons.length +
      (if (con.f.eval x).isSome ∧ (con.f.gradient x).isSome then 1 else 0)) ∧
    ((s.rScheme2Cut_ con delta lVarCoeff lastSlope nVarIdx x grad).1.rel_.cons.length =
      s.rel_.cons.length +
      (match con.f.evalGradient x grad with
       | none => 0
       | some gr =>
         if (lastSlope = 0 ∧ -1 * (gr.getD nVarIdx 0 / lVarCoeff) = 0) ∨
            (lastSlope ≠ 0 ∧
              |(-1 * (gr.getD nVarIdx 0 / lVarCoeff) - lastSlope) / lastSlope| * 100
                < s.rs2Per_) then 0 else 1)) ∧
    (∀ r, s.cutAtLineSearchPt_ fuel x con cUninit = some r →
      r.1.rel_.cons.length = s.rel_.cons.length + (if r.2.1 = true then 1 else 0)) := by
  refine ⟨?_, ?_, ?_, ?_⟩
  · unfold Linearizations.addCutAtRoot_ Linearizations.linearAt_ Function.evalGradient
    cases con.f.eval x <;> cases con.f.gradient x <;> simp [Relaxation.newConstraint]
  · unfold STOAHandler.addInitLinearXCon STOAHandler.linearAt_ Function.evalGradient
    cases con.f.eval x <;> cases con.f.gradient x <;> simp [Relaxation.newConstraint]
  · unfold Linearizations.rScheme2Cut_
    cases con.f.evalGradient x grad with
    | none => simp
    | some gr =>
      dsimp only
      split <;> simp [Relaxation.newConstraint]
  · intro r hr
    unfold Linearizations.cutAtLineSearchPt_ at hr
    cases hls : s.lineSearchPt_ fuel x con with
    | none => simp [hls] at hr
    | some t =>
      obtain ⟨found, xnew, nlpact⟩ := t
      simp only [hls] at hr
      cases found with
      | true =>
        simp only [if_true, Option.some.injEq] at hr
        subst hr
        simp [Relaxation.newConstraint]
      | false =>
        simp only [Bool.false_eq_true, if_false, Option.some.injEq] at hr
        subst hr
        simp

/-- Witness of C10 for `cutAtLineSearchPt_`: with center (0, 0), outer point (2, 0)
and the constraint `x0 * x0 + x1 * x1 ≤ 1`, one bisection step suffices, the call
returns and the relaxation gains its constraint. -/
theorem root_cuts_added_unconditionally_witness :
    ∃ r, Examples.linC.cutAtLineSearchPt_ 1 [2, 0] Examples.circleCon 0 = some r ∧
      r.2.1 = true ∧
      r.1.rel_.cons.length = Examples.linC.rel_.cons.length +
        (if r.2.1 = true then 1 else 0) := by
  have hfound : (Examples.linC.cutAtLineSearchPt_ 1 [2, 0] Examples.circleCon 0).map
      (fun r => r.2.1) = some true := by
    simp [Linearizations.cutAtLineSearchPt_, Linearizations.lineSearchPt_,
      Linearizations.lineSearchLoop, Examples.linC, Examples.lin, Examples.circleCon,
      Examples.circleFun, List.range_succ]
    norm_num
  cases hr : Examples.linC.cutAtLineSearchPt_ 1 [2, 0] Examples.circleCon 0 with
  | none => simp [hr] at hfound
  | some r =>
    rw [hr] at hfound
    refine ⟨r, rfl, ?_, ?_⟩
    · simpa using hfound
    · exact (root_cuts_added_unconditionally Examples.linC Examples.handler [2, 0]
        Examples.circleCon 0 0 1 0 0 [] 1 0).2.2.2 r hr

/-! ### Evaluation errors and engine statuses -/

/-- When the gradient oracle signals an error, `addCutAtRoot_`, the loop body of
`addInitLinearX_` and `addCut_` drop the linearization. -/
theorem linearAt_error_discarded (sL : Linearizations) (sH : STOAHandler) (con : Constraint)
    (x lpx : List ℚ) (id0 : Nat) (out : STOAHandler.CutOut)
    (hg : con.f.gradient x = none) :
    (sL.addCutAtRoot_ x con id0).1.rel_ = sL.rel_ ∧
    (sL.addCutAtRoot_ x con id0).2.1 = false ∧
    (sH.addInitLinearXCon x con).rel_ = sH.rel_ ∧
    sH.addCut_ x lpx con out = (sH, out) := by
  refine ⟨?_, ?_, ?_, ?_⟩
  · unfold Linearizations.addCutAtRoot_ Linearizations.linearAt_ Function.evalGradient
    cases con.f.eval x <;> simp [hg]
  · unfold Linearizations.addCutAtRoot_ Linearizations.linearAt_ Function.evalGradient
    cases con.f.eval x <;> simp [hg]
  · unfold STOAHandler.addInitLinearXCon STOAHandler.linearAt_ Function.evalGradient
    cases con.f.eval x <;> simp [hg]
  · unfold STOAHandler.addCut_ STOAHandler.linearAt_ Function.evalGradient
    cases con.f.eval x <;> simp [hg]

/-- C11, the code at the failing input: with center (0, 0), outer point (2, 0) and
a constraint that evaluates to `x0 * x0 + x1 * x1 ≤ 1` but whose gradient oracle
signals an error, `linearAt_` fails at the boundary point (1, 0) and
`cutAtLineSearchPt_` still returns true and adds a constraint to the relaxation:
the null linear function with upper bound `1 - c`, `c` uninitialised (here 0). -/
theorem cutAtLineSearchPt_keeps_failed_linearization :
    Examples.linG.linearAt_ Examples.noGradCon.f 1 [1, 0] = none ∧
    (Examples.linG.cutAtLineSearchPt_ 1 [2, 0] Examples.noGradCon 0).map
        (fun r => (r.2.1, r.2.2, r.1.rel_.cons)) =
      some (true, [1, 0], [{ lf := { terms := [] }, lb := ExtRat.negInf, ub := ExtRat.fin 1,
                             name := "_OAcut_1" }]) := by
  constructor
  · simp [Linearizations.linearAt_, Function.evalGradient, Examples.noGradCon,
      Examples.noGradFun]
  · simp [Linearizations.cutAtLineSearchPt_, Linearizations.lineSearchPt_,
      Linearizations.lineSearchLoop, Linearizations.linearAt_, Function.evalGradient,
      Relaxation.newConstraint, Examples.linG, Examples.lin, Examples.noGradCon,
      Examples.noGradFun, List.range_succ]
    norm_num
    refine ⟨_, _, ⟨rfl, rfl⟩, rfl, ?_⟩
    simp
    decide

/-- C12, counterexample: when the root NLP ends `ProvenUnbounded`, `relaxInitInc`
runs into the `assert` of the failure statuses and `isInf` is false, not true. -/
theorem relaxInitInc_unbounded_isInf_false :
    (Examples.unbHandler.nlpe_.run Examples.unbHandler.minlp_).1
      = EngineStatus.ProvenUnbounded ∧
    (Examples.unbHandler.relaxInitInc Examples.rel0).isInf = false ∧
    (Examples.unbHandler.relaxInitInc Examples.rel0).assertFailed = true := by
  refine ⟨rfl, ?_, ?_⟩ <;>
  simp [STOAHandler.relaxInitInc, STOAHandler.relax_, STOAHandler.linearizeObj_,
    STOAHandler.initLinear_, STOAHandler.solveNLP_, Engine.solve, Examples.unbHandler,
    Examples.rootHandler, Examples.handler, Examples.unbEngine, Examples.linObj]

/-- C12 as amended: with `st` the status of the root NLP, `relaxInitInc` sets `isInf`
to true exactly when `st` is `ProvenInfeasible`, `ProvenLocalInfeasible` or
`ProvenObjectiveCutOff`; `isInf` is false for `ProvenOptimal`, `ProvenLocalOptimal`
and `EngineIterationLimit`, and for every other status, `ProvenUnbounded` included,
the call runs into an `assert` with `isInf` still false. -/
theorem relaxInitInc_isInf (s : STOAHandler) (rel : Relaxation) :
    ((s.relaxInitInc rel).isInf =
      decide ((s.nlpe_.run s.minlp_).1 = EngineStatus.ProvenInfeasible ∨
        (s.nlpe_.run s.minlp_).1 = EngineStatus.ProvenLocalInfeasible ∨
        (s.nlpe_.run s.minlp_).1 = EngineStatus.ProvenObjectiveCutOff)) ∧
    ((s.relaxInitInc rel).assertFailed =
      ((match s.minlp_.obj with
        | none => true
        | some o => decide ((o.fType ≠ FunctionType.Linear ∧ o.fType ≠ FunctionType.Constant) ∧
            o.oType ≠ ObjectiveType.Minimize)) ||
       decide (¬ ((s.nlpe_.run s.minlp_).1 = EngineStatus.ProvenOptimal ∨
        (s.nlpe_.run s.minlp_).1 = EngineStatus.ProvenLocalOptimal ∨
        (s.nlpe_.run s.minlp_).1 = EngineStatus.EngineIterationLimit ∨
        (s.nlpe_.run s.minlp_).1 = EngineStatus.ProvenInfeasible ∨
        (s.nlpe_.run s.minlp_).1 = EngineStatus.ProvenLocalInfeasible ∨
        (s.nlpe_.run s.minlp_).1 = EngineStatus.ProvenObjectiveCutOff)))) := by
  have hm : ∀ t : STOAHandler, t.linearizeObj_.1.minlp_ = t.minlp_ ∧
      t.linearizeObj_.1.nlpe_ = t.nlpe_ := by
    intro t
    unfold STOAHandler.linearizeObj_
    cases t.minlp_.obj with
    | none => exact ⟨rfl, rfl⟩
    | some o =>
      dsimp only
      split <;> exact ⟨rfl, rfl⟩
  have hflag : ∀ t : STOAHandler, t.linearizeObj_.2 =
      (match t.minlp_.obj with
        | none => true
        | some o => decide ((o.fType ≠ FunctionType.Linear ∧ o.fType ≠ FunctionType.Constant) ∧
            o.oType ≠ ObjectiveType.Minimize)) := by
    intro t
    unfold STOAHandler.linearizeObj_
    cases t.minlp_.obj with
    | none => rfl
    | some o =>
      dsimp only
      split
      · rename_i hnl
        simp [hnl]
      · rename_i hnl
        simp [hnl]
  unfold STOAHandler.relaxInitInc STOAHandler.relax_
  simp only [hflag]
  unfold STOAHandler.initLinear_ STOAHandler.solveNLP_ Engine.solve
  simp only [(hm _).1, (hm _).2]
  generalize s.nlpe_.run s.minlp_ = r
  obtain ⟨st, sol⟩ := r
  cases st <;> simp

/-- C14: with `r` the answer of the MILP engine on the relaxation, `solveMILP`
writes the engine's solution to `sol` and its objective value to `objfLb` exactly
when the status is `ProvenOptimal`, `ProvenLocalOptimal` or `EngineIterationLimit`;
for every other status it ends in an `assert` and both outputs are as they
were. -/
theorem solveMILP_outputs (s : STOAHandler) (objfLb : ℚ) (sol : Option Solution) :
    ((s.solveMILP objfLb sol).sol, (s.solveMILP objfLb sol).objfLb,
        (s.solveMILP objfLb sol).assertFailed) =
      (if (s.milpe_.run s.rel_).1 = EngineStatus.ProvenOptimal ∨
          (s.milpe_.run s.rel_).1 = EngineStatus.ProvenLocalOptimal ∨
          (s.milpe_.run s.rel_).1 = EngineStatus.EngineIterationLimit
       then (some (s.milpe_.run s.rel_).2, (s.milpe_.run s.rel_).2.objValue, false)
       else (sol, objfLb, true)) := by
  unfold STOAHandler.solveMILP
  generalize s.milpe_.run s.rel_ = r
  obtain ⟨st, msol⟩ := r
  cases st <;> simp

/-! ### Seeding of the relaxation at the root -/

theorem STOAHandler.addInitLinearXCon_step (s : STOAHandler) (x : List ℚ) (c : Constraint)
    (hrel : s.minlp_.vars.length ≤ s.rel_.numVars)
    (hev : (c.f.eval x).isSome ∧ (c.f.gradient x).isSome) :
    (s.addInitLinearXCon x c).rel_.cons.map LinConstraint.row =
      s.rel_.cons.map LinConstraint.row ++
        [gradCut c.f x s.rel_.numVars s.minlp_.vars.length s.conCoeff_tol c.ub] ∧
    (s.addInitLinearXCon x c).rel_.numVars = s.rel_.numVars ∧
    (s.addInitLinearXCon x c).minlp_ = s.minlp_ ∧
    (s.addInitLinearXCon x c).conCoeff_tol = s.conCoeff_tol ∧
    (s.addInitLinearXCon x c).oNl_ = s.oNl_ ∧
    (s.addInitLinearXCon x c).objVar_ = s.objVar_ := by
  obtain ⟨act, hact⟩ := Option.isSome_iff_exists.mp hev.1
  obtain ⟨g, hg⟩ := Option.isSome_iff_exists.mp hev.2
  have heq : s.addInitLinearXCon x c =
      { s with
        stats_ := { s.stats_ with cuts := s.stats_.cuts + 1 },
        rel_ := s.rel_.newConstraint
          (LinearFunction.ofArray ((List.range s.rel_.numVars).map (fun k => g.getD k 0))
            s.rel_.numVars s.conCoeff_tol)
          ExtRat.negInf
          (ExtRat.fin (c.ub - (act - InnerProduct x
            ((List.range s.rel_.numVars).map (fun k => g.getD k 0)) s.minlp_.vars.length)))
          ("_STOAcut_" ++ toString (s.stats_.cuts + 1) ++ "_AtRoot") } := by
    unfold STOAHandler.addInitLinearXCon
    simp only [hact, STOAHandler.linearAt_of_gradient_H s c.f act x g hg]
  rw [heq]
  refine ⟨?_, rfl, rfl, rfl, rfl, rfl⟩
  simp only [Relaxation.newConstraint, List.map_append, List.map_cons, List.map_nil,
    LinConstraint.row, gradCut, hact, hg, Option.getD_some, InnerProduct_dense x g _ _ hrel]

theorem STOAHandler.foldl_addInitLinearXCon (x : List ℚ) (cons : List Constraint) :
    ∀ s : STOAHandler, s.minlp_.vars.length ≤ s.rel_.numVars →
      (∀ c ∈ cons, (c.f.eval x).isSome ∧ (c.f.gradient x).isSome) →
      (cons.foldl (fun st con => STOAHandler.addInitLinearXCon st x con) s).rel_.cons.map
          LinConstraint.row =
        s.rel_.cons.map LinConstraint.row ++ cons.map (fun c =>
          gradCut c.f x s.rel_.numVars s.minlp_.vars.length s.conCoeff_tol c.ub) ∧
      (cons.foldl (fun st con => STOAHandler.addInitLinearXCon st x con) s).rel_.numVars
        = s.rel_.numVars ∧
      (cons.foldl (fun st con => STOAHandler.addInitLinearXCon st x con) s).minlp_
        = s.minlp_ ∧
      (cons.foldl (fun st con => STOAHandler.addInitLinearXCon st x con) s).conCoeff_tol
        = s.conCoeff_tol ∧
      (cons.foldl (fun st con => STOAHandler.addInitLinearXCon st x con) s).oNl_ = s.oNl_ ∧
      (cons.foldl (fun st con => STOAHandler.addInitLinearXCon st x con) s).objVar_
        = s.objVar_ := by
  induction cons with
  | nil =>
    intro s _ _
    simp
  | cons c cs ih =>
    intro s hrel hev
    obtain ⟨h1, h2, h3, h4, h5, h6⟩ :=
      STOAHandler.addInitLinearXCon_step s x c hrel (hev c (List.mem_cons_self c cs))
    have hrel2 : (s.addInitLinearXCon x c).minlp_.vars.length
        ≤ (s.addInitLinearXCon x c).rel_.numVars := by
      rw [h2, h3]
      exact hrel
    obtain ⟨k1, k2, k3, k4, k5, k6⟩ := ih (s.addInitLinearXCon x c) hrel2
      (fun c' hc' => hev c' (List.mem_cons_of_mem c hc'))
    simp only [List.foldl_cons]
    refine ⟨?_, k2.trans h2, k3.trans h3, k4.trans h4, k5.trans h5, k6.trans h6⟩
    rw [k1, h1, h2, h3, h4]
    simp

theorem STOAHandler.addInitLinearXObj_rows (s : STOAHandler) (x : List ℚ) (o : Objective)
    (hobj : s.minlp_.obj = some o) (hrel : s.minlp_.vars.length ≤ s.rel_.numVars)
    (hev : (o.f.eval x).isSome ∧ (o.f.gradient x).isSome) :
    (s.addInitLinearXObj x).rel_.cons.map LinConstraint.row =
      s.rel_.cons.map LinConstraint.row ++
        (if s.oNl_ = true then
          [((gradCut o.f x s.rel_.numVars s.minlp_.vars.length s.conCoeff_tol 0).1.addTerm
              s.objVar_ (-1),
            ExtRat.negInf,
            ExtRat.fin (-((o.f.eval x).getD 0
              - InnerProduct x ((o.f.gradient x).getD []) s.minlp_.vars.length)))]
         else []) := by
  obtain ⟨act, hact⟩ := Option.isSome_iff_exists.mp hev.1
  obtain ⟨g, hg⟩ := Option.isSome_iff_exists.mp hev.2
  unfold STOAHandler.addInitLinearXObj
  by_cases hnl : s.oNl_ = true
  · simp only [hnl, if_true, hobj, hact]
    rw [STOAHandler.linearAt_of_gradient_H _ o.f act x g hg]
    simp only [Relaxation.newConstraint, List.map_append, List.map_cons, List.map_nil,
      LinConstraint.row, gradCut, hact, hg, Option.getD_some,
      InnerProduct_dense x g _ _ hrel, neg_one_mul]
  · simp [hnl]

theorem STOAHandler.addInitLinearX_rows (t : STOAHandler) (x : List ℚ) (o : Objective)
    (hobj : t.minlp_.obj = some o) (hrel : t.minlp_.vars.length ≤ t.rel_.numVars)
    (hevC : ∀ c ∈ t.nlCons_, (c.f.eval x).isSome ∧ (c.f.gradient x).isSome)
    (hevO : (o.f.eval x).isSome ∧ (o.f.gradient x).isSome) :
    (t.addInitLinearX_ x).rel_.cons.map LinConstraint.row =
      t.rel_.cons.map LinConstraint.row ++
        t.nlCons_.map (fun c =>
          gradCut c.f x t.rel_.numVars t.minlp_.vars.length t.conCoeff_tol c.ub) ++
        (if t.oNl_ = true then
          [((gradCut o.f x t.rel_.numVars t.minlp_.vars.length t.conCoeff_tol 0).1.addTerm
              t.objVar_ (-1),
            ExtRat.negInf,
            ExtRat.fin (-((o.f.eval x).getD 0
              - InnerProduct x ((o.f.gradient x).getD []) t.minlp_.vars.length)))]
         else []) := by
  obtain ⟨k1, k2, k3, k4, k5, k6⟩ :=
    STOAHandler.foldl_addInitLinearXCon x t.nlCons_ t hrel hevC
  unfold STOAHandler.addInitLinearX_
  rw [STOAHandler.addInitLinearXObj_rows _ x o (by rw [k3]; exact hobj)
    (by rw [k2, k3]; exact hrel) hevO]
  rw [k1, k2, k3, k4, k5, k6]

theorem STOAHandler.initLinear_seeds (t : STOAHandler)
    (hst : (t.nlpe_.run t.minlp_).1 = EngineStatus.ProvenOptimal ∨
      (t.nlpe_.run t.minlp_).1 = EngineStatus.ProvenLocalOptimal ∨
      (t.nlpe_.run t.minlp_).1 = EngineStatus.EngineIterationLimit) :
    ∃ u : STOAHandler, t.initLinear_.s = u.addInitLinearX_ (t.nlpe_.run t.minlp_).2.primal ∧
      u.rel_ = t.rel_ ∧ u.minlp_ = t.minlp_ ∧ u.nlCons_ = t.nlCons_ ∧ u.oNl_ = t.oNl_ ∧
      u.objVar_ = t.objVar_ ∧ u.conCoeff_tol = t.conCoeff_tol := by
  unfold STOAHandler.initLinear_ STOAHandler.solveNLP_ Engine.solve
  rcases hst with h | h | h
  · simp only [h]
    exact ⟨_, rfl, rfl, rfl, rfl, rfl, rfl, rfl⟩
  · simp only [h]
    exact ⟨_, rfl, rfl, rfl, rfl, rfl, rfl, rfl⟩
  · simp only [h]
    exact ⟨_, rfl, rfl, rfl, rfl, rfl, rfl, rfl⟩

/-- C13 as amended: after `relaxInitInc` on a fresh handler whose root NLP ends
optimal or at the iteration limit with primal `x`, all evaluations succeeding, the
relaxation has gained exactly one constraint per source constraint whose function
type is neither Constant nor Linear, in problem order, each the root cut
`a·y ≤ ub − (g(x) − ∇g(x)·x)` with lower bound -infinity, where `a` is `∇g(x)` with
the entries below `conCoeff_tol` dropped, followed by exactly one objective cut
`a·y − eta ≤ −(f(x) − ∇f(x)·x)` when the objective is nonlinear and by nothing
when it is linear or constant. -/
theorem relaxInitInc_seeds (s : STOAHandler) (rel : Relaxation) (o : Objective)
    (hfresh : s.nlCons_ = [] ∧ s.oNl_ = false)
    (hobj : s.minlp_.obj = some o)
    (hst : (s.nlpe_.run s.minlp_).1 = EngineStatus.ProvenOptimal ∨
      (s.nlpe_.run s.minlp_).1 = EngineStatus.ProvenLocalOptimal ∨
      (s.nlpe_.run s.minlp_).1 = EngineStatus.EngineIterationLimit)
    (hrel : s.minlp_.vars.length ≤ rel.numVars)
    (hevC : ∀ c ∈ s.minlp_.cons, (c.f.eval (s.nlpe_.run s.minlp_).2.primal).isSome ∧
      (c.f.gradient (s.nlpe_.run s.minlp_).2.primal).isSome)
    (hevO : (o.f.eval (s.nlpe_.run s.minlp_).2.primal).isSome ∧
      (o.f.gradient (s.nlpe_.run s.minlp_).2.primal).isSome) :
    (s.relaxInitInc rel).s.rel_.cons.map LinConstraint.row =
      rel.cons.map LinConstraint.row ++
        (s.minlp_.cons.filter (fun (c : Constraint) =>
            decide (c.fType ≠ FunctionType.Constant ∧ c.fType ≠ FunctionType.Linear))).map
          (fun c => gradCut c.f (s.nlpe_.run s.minlp_).2.primal
            (if o.fType ≠ FunctionType.Linear ∧ o.fType ≠ FunctionType.Constant
              then rel.numVars + 1 else rel.numVars)
            s.minlp_.vars.length s.conCoeff_tol c.ub) ++
        (if o.fType ≠ FunctionType.Linear ∧ o.fType ≠ FunctionType.Constant then
          [((gradCut o.f (s.nlpe_.run s.minlp_).2.primal (rel.numVars + 1)
                s.minlp_.vars.length s.conCoeff_tol 0).1.addTerm rel.numVars (-1),
            ExtRat.negInf,
            ExtRat.fin (-((o.f.eval (s.nlpe_.run s.minlp_).2.primal).getD 0
              - InnerProduct (s.nlpe_.run s.minlp_).2.primal
                  ((o.f.gradient (s.nlpe_.run s.minlp_).2.primal).getD [])
                  s.minlp_.vars.length)))]
         else []) := by
  obtain ⟨hf1, hf2⟩ := hfresh
  unfold STOAHandler.relaxInitInc STOAHandler.relax_
  simp only [hf1, List.nil_append]
  by_cases hnl : o.fType ≠ FunctionType.Linear ∧ o.fType ≠ FunctionType.Constant
  · simp only [STOAHandler.linearizeObj_, hobj, hnl, if_true, and_self, not_false_eq_true,
      ne_eq]
    obtain ⟨u, hu, u1, u2, u3, u4, u5, u6⟩ := STOAHandler.initLinear_seeds
      { s with rel_ := ((rel.newVariable).removeObjective).newObjective
                 (LinearFunction.addTerm { terms := [] } rel.numVars 1),
               nlCons_ := s.minlp_.cons.filter (fun (c : Constraint) =>
                 decide (c.fType ≠ FunctionType.Constant ∧ c.fType ≠ FunctionType.Linear)),
               oNl_ := true, objVar_ := rel.numVars } hst
    simp only [ne_eq] at hu
    rw [hu]
    rw [STOAHandler.addInitLinearX_rows u _ o (by rw [u2]; exact hobj)
      (by rw [u1, u2]; exact Nat.le_succ_of_le hrel)
      (by
        rw [u3]
        intro c hc
        exact hevC c (List.mem_of_mem_filter hc))
      hevO]
    rw [u1, u2, u3, u4, u5, u6]
    simp [Relaxation.newVariable, Relaxation.removeObjective, Relaxation.newObjective]
  · have hnl2 : ¬ (o.fType ≠ FunctionType.Linear ∧ o.fType ≠ FunctionType.Constant) := hnl
    simp only [STOAHandler.linearizeObj_, hobj, hnl2, if_false]
    obtain ⟨u, hu, u1, u2, u3, u4, u5, u6⟩ := STOAHandler.initLinear_seeds
      { s with rel_ := rel,
               nlCons_ := s.minlp_.cons.filter (fun (c : Constraint) =>
                 decide (c.fType ≠ FunctionType.Constant ∧ c.fType ≠ FunctionType.Linear)) }
      hst
    simp only [ne_eq] at hu
    rw [hu]
    rw [STOAHandler.addInitLinearX_rows u _ o (by rw [u2]; exact hobj)
      (by rw [u1, u2]; exact hrel)
      (by
        rw [u3]
        intro c hc
        exact hevC c (List.mem_of_mem_filter hc))
      hevO]
    rw [u1, u2, u3, u4, u5, u6]
    simp [hf2]

/-- C13, counterexample: on the fresh example handler (constraint
`x0 * x0 + x1 / 10^7 ≤ 0`, linear objective, `conCoeff_tol = 1e-6`) whose root NLP
ends optimal at (1, 0), the gradient there is (2, 1 / 10^7) but the constraint that
`relaxInitInc` adds is `2 * x0 ≤ 1`, without the term of `x1`: the point
(0, 2 * 10^7) satisfies it and violates `∇g(x)·y ≤ 1`. -/
theorem relaxInitInc_cut_is_not_the_gradient :
    Examples.rootHandler.nlpe_.run Examples.rootHandler.minlp_ =
      (EngineStatus.ProvenOptimal, { objValue := 0, primal := [1, 0] }) ∧
    Examples.tinyCon.f.gradient [1, 0] = some [2, 1 / 10000000] ∧
    (Examples.rootHandler.relaxInitInc Examples.rel0).s.rel_.cons =
      [{ lf := { terms := [(0, 2)] }, lb := ExtRat.negInf, ub := ExtRat.fin 1,
         name := "_STOAcut_1_AtRoot" }] ∧
    LinearFunction.eval { terms := [(0, 2)] } [0, 20000000] ≤ 1 ∧
    ¬ (InnerProduct [0, 20000000] [2, 1 / 10000000] 2 ≤ 1) := by
  refine ⟨rfl, ?_, ?_, ?_, ?_⟩
  · simp [Examples.tinyCon, Examples.tinyFun]
  · simp [STOAHandler.relaxInitInc, STOAHandler.relax_, STOAHandler.linearizeObj_,
      STOAHandler.initLinear_, STOAHandler.solveNLP_, Engine.solve,
      STOAHandler.addInitLinearX_, STOAHandler.addInitLinearXCon,
      STOAHandler.addInitLinearXObj, STOAHandler.linearAt_, Function.evalGradient,
      LinearFunction.ofArray, InnerProduct, Relaxation.newConstraint, Examples.rootHandler,
      Examples.handler, Examples.rootEngine, Examples.linObj, Examples.tinyCon,
      Examples.tinyFun, Examples.rel0, List.range_succ]
    norm_num
    refine ⟨?_, ?_⟩
    · rw [abs_of_pos (by norm_num)]
      norm_num
    · decide
  · simp [LinearFunction.eval]
  · simp [InnerProduct, List.range_succ]
    norm_num

/-- Witness of C13: the fresh example handler with the relaxation of two variables;
the relaxation gains the single root cut of its nonlinear constraint. -/
theorem relaxInitInc_seeds_witness :
    (Examples.rootHandler.nlCons_ = [] ∧ Examples.rootHandler.oNl_ = false) ∧
    (Examples.rootHandler.relaxInitInc Examples.rel0).s.rel_.cons.map LinConstraint.row =
      [gradCut Examples.tinyCon.f [1, 0] 2 2 (1 / 1000000) 0] := by
  refine ⟨⟨rfl, rfl⟩, ?_⟩
  have h := relaxInitInc_seeds Examples.rootHandler Examples.rel0 Examples.linObj
    ⟨rfl, rfl⟩ rfl (Or.inl rfl) (by simp [Examples.rootHandler, Examples.rel0])
    (by
      intro c hc
      simp only [Examples.rootHandler, List.mem_singleton] at hc
      subst hc
      exact ⟨rfl, rfl⟩)
    ⟨rfl, rfl⟩
  rw [h]
  simp [Examples.rootHandler, Examples.handler, Examples.rootEngine, Examples.linObj,
    Examples.tinyCon, Examples.rel0]

/-! ### The presolver loop -/

namespace Presolver

theorem forBody_iters_log {σ : Type} (n : Int) (h : Handler σ) (st : SolveState σ) :
    (forBody n h st).1.iters = st.iters ∧
    (forBody n h st).1.log =
      { changed := (h.presolve st.p.hmem st.p.problem_ st.p.mods_ st.p.sol_).changed,
        status := (h.presolve st.p.hmem st.p.problem_ st.p.mods_ st.p.sol_).status,
        solPresent := (h.presolve st.p.hmem st.p.problem_ st.p.mods_ st.p.sol_).sol.isSome }
        :: st.log := by
  unfold forBody
  dsimp only
  split_ifs <;> exact ⟨rfl, rfl⟩

theorem forLoop_iters {σ : Type} (n : Int) (hs : List (Handler σ)) :
    ∀ st : SolveState σ, (forLoop n hs st).iters = st.iters := by
  induction hs with
  | nil => intro st; rfl
  | cons h hs ih =>
    intro st
    unfold forLoop
    dsimp only
    split
    · exact (forBody_iters_log n h st).1
    · rw [ih, (forBody_iters_log n h st).1]

theorem forLoop_log_length {σ : Type} (n : Int) (hs : List (Handler σ)) :
    ∀ st : SolveState σ, (forLoop n hs st).log.length ≤ st.log.length + hs.length := by
  induction hs with
  | nil => intro st; simp [forLoop]
  | cons h hs ih =>
    intro st
    unfold forLoop
    dsimp only
    have hl : (forBody n h st).1.log.length = st.log.length + 1 := by
      rw [(forBody_iters_log n h st).2]
      rfl
    split
    · simp only [List.length_cons]
      omega
    · refine le_trans (ih _) ?_
      simp only [List.length_cons]
      omega

theorem whileLoop_returns {σ : Type} (n : Int) (hs : List (Handler σ)) :
    ∀ (fuel : Nat) (st : SolveState σ), st.iters ≤ 5 → 5 - st.iters ≤ fuel →
      ∃ st', whileLoop n hs fuel st = some st' ∧ st'.iters ≤ 5 ∧
        st'.log.length + st.iters * hs.length ≤ st.log.length + 5 * hs.length := by
  intro fuel
  induction fuel with
  | zero =>
    intro st h5 hf
    have : st.iters = 5 := by omega
    refine ⟨st, ?_, h5, ?_⟩
    · simp [whileLoop, this]
    · rw [this]
  | succ fuel ih =>
    intro st h5 hf
    unfold whileLoop
    by_cases hc : st.changed = true ∧ st.stop = false ∧ st.iters < 5
    · simp only [hc, and_self, if_true]
      have hit := forLoop_iters n hs st
      have hlog := forLoop_log_length n hs st
      obtain ⟨st', h1, h2, h3⟩ := ih { forLoop n hs st with iters := (forLoop n hs st).iters + 1 }
        (by simp only [hit]; omega) (by simp only [hit]; omega)
      refine ⟨st', h1, h2, ?_⟩
      simp only [hit, Nat.add_mul, Nat.one_mul] at h3
      omega
    · simp only [hc, if_false]
      refine ⟨st, rfl, h5, ?_⟩
      have : st.iters * hs.length ≤ 5 * hs.length := Nat.mul_le_mul_right _ h5
      omega

/-- C15: whatever the handlers do, `Presolver::solve` returns (the bound 5 on the
loop is enough, and a larger bound changes nothing), after at most 5 major
iterations and at most `5 * k` handler calls, `k` the number of handlers. -/
theorem solve_at_most_five_iterations {σ : Type} (p : Presolver σ) (extra : Nat) :
    ∃ st, solveRun (5 + extra) p = some st ∧ (solve (5 + extra) p).isSome = true ∧
      st.iters ≤ 5 ∧ st.log.length ≤ 5 * p.handlers_.length := by
  obtain ⟨st, h1, h2, h3⟩ := whileLoop_returns (p.handlers_.length : Int) p.handlers_
    (5 + extra)
    { p := { p with status_ := SolveStatus.Started },
      changed := true, stop := false, iters := 0, subiters := 0,
      last_ch_subiter := -10000, log := [] }
    (by simp) (by simp)
  refine ⟨st, h1, ?_, h2, ?_⟩
  · simp [solve, solveRun, h1]
  · simpa using h3

theorem forBody_statusInv {σ : Type} (n : Int) (h : Handler σ) (st : SolveState σ)
    (hstop : st.stop = false) (hinv : st.StatusInv) :
    (forBody n h st).1.StatusInv ∧
    ((forBody n h st).2 = false → (forBody n h st).1.stop = false) := by
  obtain ⟨hlog, hstat⟩ := hinv.1 hstop
  unfold forBody
  dsimp only
  split_ifs <;>
    simp_all [SolveState.StatusInv, CallRecord.solved, CallRecord.endStatus]
  tauto

theorem forLoop_statusInv {σ : Type} (n : Int) (hs : List (Handler σ)) :
    ∀ st : SolveState σ, st.stop = false → st.StatusInv → (forLoop n hs st).StatusInv := by
  induction hs with
  | nil => intro st _ hinv; exact hinv
  | cons h hs ih =>
    intro st hstop hinv
    obtain ⟨h1, h2⟩ := forBody_statusInv n h st hstop hinv
    unfold forLoop
    dsimp only
    split
    · exact h1
    · rename_i hb
      exact ih _ (h2 (by simpa using hb)) h1

theorem whileLoop_statusInv {σ : Type} (n : Int) (hs : List (Handler σ)) :
    ∀ (fuel : Nat) (st st' : SolveState σ), st.StatusInv →
      whileLoop n hs fuel st = some st' → st'.StatusInv := by
  intro fuel
  induction fuel with
  | zero =>
    intro st st' hinv hrun
    unfold whileLoop at hrun
    split at hrun
    · cases hrun
    · cases hrun
      exact hinv
  | succ fuel ih =>
    intro st st' hinv hrun
    unfold whileLoop at hrun
    split at hrun
    · rename_i hc
      refine ih _ st' ?_ hrun
      have := forLoop_statusInv n hs st hc.2.1 hinv
      exact this
    · cases hrun
      exact hinv

theorem solveRun_statusInv {σ : Type} (fuel : Nat) (p : Presolver σ) (st : SolveState σ)
    (hrun : solveRun fuel p = some st) : st.StatusInv := by
  refine whileLoop_statusInv _ _ fuel _ st ?_ hrun
  simp [SolveState.StatusInv]

theorem solve_eq_of_solveRun {σ : Type} (fuel : Nat) (p : Presolver σ) (st : SolveState σ)
    (hrun : solveRun fuel p = some st) :
    (solve fuel p).map (fun r => r.2) =
      some (if SolveStatus.Started = st.p.status_ then SolveStatus.Finished
            else st.p.status_) := by
  unfold solve
  simp only [hrun, Option.map_some']
  split_ifs <;> rfl

theorem solved_call_is_last {σ : Type} (st : SolveState σ) (hinv : st.StatusInv)
    (i : Nat) (r : CallRecord) (hi : st.log[i]? = some r) (hr : r.solved) :
    i = 0 ∧ st.p.status_ = r.endStatus := by
  have hstop : st.stop = true := by
    by_contra hns
    have hf : st.stop = false := by simpa using hns
    exact (hinv.1 hf).1 r (List.getElem?_mem hi) hr
  obtain ⟨htail, hhead⟩ := hinv.2 hstop
  cases hl : st.log with
  | nil => simp [hl] at hi
  | cons a rest =>
    rw [hl] at hi htail hhead
    cases i with
    | zero =>
      simp only [List.getElem?_cons_zero, Option.some.injEq] at hi
      subst hi
      exact ⟨rfl, (hhead a rfl).1 hr⟩
    | succ j =>
      exfalso
      simp only [List.getElem?_cons_succ] at hi
      exact htail r (List.getElem?_mem hi) hr

/-- C16: in the run of `Presolver::solve`, a handler call that returned
`SolvedInfeasible` or `SolvedUnbounded`, or `SolvedOptimal` with a solution
present, is the last call made (position 0 of the record of calls, most recent
first), and `solve` returns exactly the status of that call. -/
theorem solve_returns_solved_status {σ : Type} (p : Presolver σ) (extra : Nat) :
    ∃ st, solveRun (5 + extra) p = some st ∧
      ∀ (i : Nat) (r : CallRecord), st.log[i]? = some r →
        (r.status = SolveStatus.SolvedInfeasible ∨ r.status = SolveStatus.SolvedUnbounded ∨
          (r.status = SolveStatus.SolvedOptimal ∧ r.solPresent = true)) →
        i = 0 ∧ (solve (5 + extra) p).map (fun q => q.2) = some r.status := by
  obtain ⟨st, hrun, _⟩ := whileLoop_returns (p.handlers_.length : Int) p.handlers_
    (5 + extra)
    { p := { p with status_ := SolveStatus.Started },
      changed := true, stop := false, iters := 0, subiters := 0,
      last_ch_subiter := -10000, log := [] }
    (by simp) (by simp)
  refine ⟨st, hrun, ?_⟩
  intro i r hi hr
  have hsolved : r.solved := by
    unfold CallRecord.solved
    rcases hr with h | h | h
    · exact Or.inr (Or.inl h)
    · exact Or.inr (Or.inr h)
    · exact Or.inl h.1
  obtain ⟨h0, hstat⟩ := solved_call_is_last st (solveRun_statusInv _ p st hrun) i r hi hsolved
  refine ⟨h0, ?_⟩
  rw [solve_eq_of_solveRun _ p st hrun, hstat]
  have hend : r.endStatus = r.status := by
    unfold CallRecord.endStatus
    rcases hr with h | h | h
    · simp [h]
    · simp [h]
    · simp [h.1, h.2]
  rw [hend]
  rcases hr with h | h | h
  · simp [h]
  · simp [h]
  · simp [h.1]

/-- C17: in the run of `Presolver::solve`, a handler call that returned
`SolvedOptimal` while `sol_` is null is the last call made, and `solve` returns
`SolveError`. -/
theorem solve_optimal_without_solution {σ : Type} (p : Presolver σ) (extra : Nat) :
    ∃ st, solveRun (5 + extra) p = some st ∧
      ∀ (i : Nat) (r : CallRecord), st.log[i]? = some r →
        (r.status = SolveStatus.SolvedOptimal ∧ r.solPresent = false) →
        i = 0 ∧ (solve (5 + extra) p).map (fun q => q.2) = some SolveStatus.SolveError := by
  obtain ⟨st, hrun, _⟩ := whileLoop_returns (p.handlers_.length : Int) p.handlers_
    (5 + extra)
    { p := { p with status_ := SolveStatus.Started },
      changed := true, stop := false, iters := 0, subiters := 0,
      last_ch_subiter := -10000, log := [] }
    (by simp) (by simp)
  refine ⟨st, hrun, ?_⟩
  intro i r hi hr
  obtain ⟨h0, hstat⟩ := solved_call_is_last st (solveRun_statusInv _ p st hrun) i r hi
    (Or.inl hr.1)
  refine ⟨h0, ?_⟩
  rw [solve_eq_of_solveRun _ p st hrun, hstat]
  simp [CallRecord.endStatus, hr.1, hr.2]

theorem mem_take_cons_unchanged (r : CallRecord) (log : List CallRecord) (m k : Nat)
    (hr : r.changed = false) (hk : m ≤ k + 1)
    (hun : ∀ r' ∈ log.take k, r'.changed = false) :
    ∀ r' ∈ (r :: log).take m, r'.changed = false := by
  intro r' hr'
  cases m with
  | zero => simp at hr'
  | succ m =>
    rw [List.take_succ_cons, List.mem_cons] at hr'
    rcases hr' with h | h
    · rw [h]
      exact hr
    · exact hun r' (List.take_subset_take_left log (by omega) h)

theorem forBody_fields {σ : Type} (n : Int) (h : Handler σ) (st : SolveState σ) :
    ((h.presolve st.p.hmem st.p.problem_ st.p.mods_ st.p.sol_).status
          = SolveStatus.SolvedOptimal ∨
        (h.presolve st.p.hmem st.p.problem_ st.p.mods_ st.p.sol_).status
          = SolveStatus.SolvedInfeasible ∨
        (h.presolve st.p.hmem st.p.problem_ st.p.mods_ st.p.sol_).status
          = SolveStatus.SolvedUnbounded →
      (forBody n h st).1.stop = true ∧
      (forBody n h st).1.p.status_ ≠ SolveStatus.Started) ∧
    (¬ ((h.presolve st.p.hmem st.p.problem_ st.p.mods_ st.p.sol_).status
          = SolveStatus.SolvedOptimal ∨
        (h.presolve st.p.hmem st.p.problem_ st.p.mods_ st.p.sol_).status
          = SolveStatus.SolvedInfeasible ∨
        (h.presolve st.p.hmem st.p.problem_ st.p.mods_ st.p.sol_).status
          = SolveStatus.SolvedUnbounded) →
      (forBody n h st).1.last_ch_subiter =
        (if (h.presolve st.p.hmem st.p.problem_ st.p.mods_ st.p.sol_).changed = true
          then st.subiters else st.last_ch_subiter) ∧
      (st.subiters > n - 2 ∧ st.subiters - (forBody n h st).1.last_ch_subiter > n - 2 →
        (forBody n h st).1.stop = true ∧ (forBody n h st).1.subiters = st.subiters) ∧
      (¬ (st.subiters > n - 2 ∧ st.subiters - (forBody n h st).1.last_ch_subiter > n - 2) →
        (forBody n h st).1.stop = st.stop ∧
        (forBody n h st).1.subiters = st.subiters + 1)) := by
  unfold forBody
  dsimp only
  generalize h.presolve st.p.hmem st.p.problem_ st.p.mods_ st.p.sol_ = out
  split_ifs <;> simp_all
  all_goals
    intro hst
    simp [hst] at *

theorem forBody_changeInv {σ : Type} (n : Int) (h : Handler σ) (st : SolveState σ)
    (hstop : st.stop = false) (hinv : st.ChangeInv n) :
    (forBody n h st).1.ChangeInv n := by
  obtain ⟨hlc, hlt, hsub, hun⟩ := hinv.1 hstop
  obtain ⟨hsolved, hother⟩ := forBody_fields n h st
  have hlog := (forBody_iters_log n h st).2
  revert hsolved hother hlog
  generalize h.presolve st.p.hmem st.p.problem_ st.p.mods_ st.p.sol_ = out
  generalize (forBody n h st).1 = st'
  intro hsolved hother hlog
  by_cases hs : out.status = SolveStatus.SolvedOptimal ∨
      out.status = SolveStatus.SolvedInfeasible ∨ out.status = SolveStatus.SolvedUnbounded
  · obtain ⟨k1, k2⟩ := hsolved hs
    exact ⟨fun hf => absurd hf (by simp [k1]), fun _ hst => absurd hst k2⟩
  · obtain ⟨k1, k2, k3⟩ := hother hs
    have hlen : st'.log.length = st.log.length + 1 := by
      rw [hlog]
      rfl
    by_cases htest : st.subiters > n - 2 ∧ st.subiters - st'.last_ch_subiter > n - 2
    · obtain ⟨k4, _⟩ := k2 htest
      refine ⟨fun hf => absurd hf (by simp [k4]), fun _ _ => ⟨by omega, ?_⟩⟩
      rw [hlog]
      by_cases hch : out.changed = true
      · have hn : (n - 1).toNat = 0 := by
          rw [k1, if_pos hch] at htest
          omega
        simp [hn]
      · have hch2 : out.changed = false := by simpa using hch
        rw [k1, if_neg hch] at htest
        apply mem_take_cons_unchanged _ _ _
          (st.log.length - (st.last_ch_subiter + 1).toNat) hch2 ?_ hun
        rcases hlc with hlc | hlc <;> omega
    · obtain ⟨k4, k5⟩ := k3 htest
      refine ⟨fun _ => ?_, fun hf => absurd hf (by simp [k4, hstop])⟩
      by_cases hch : out.changed = true
      · rw [if_pos hch] at k1
        refine ⟨Or.inr (by omega), by omega, by omega, ?_⟩
        have hz : st'.log.length - (st'.last_ch_subiter + 1).toNat = 0 := by omega
        simp [hz]
      · have hch2 : out.changed = false := by simpa using hch
        rw [if_neg hch] at k1
        refine ⟨by rw [k1]; exact hlc, by omega, by omega, ?_⟩
        rw [hlog, k1]
        apply mem_take_cons_unchanged _ _ _
          (st.log.length - (st.last_ch_subiter + 1).toNat) hch2 ?_ hun
        simp only [List.length_cons]
        rcases hlc with hlc | hlc <;> omega

theorem forBody_stop_of_continue {σ : Type} (n : Int) (h : Handler σ) (st : SolveState σ)
    (hb : (forBody n h st).2 = false) : (forBody n h st).1.stop = st.stop := by
  revert hb
  unfold forBody
  dsimp only
  split_ifs <;> simp

theorem forLoop_changeInv {σ : Type} (n : Int) (hs : List (Handler σ)) :
    ∀ st : SolveState σ, st.stop = false → st.ChangeInv n → (forLoop n hs st).ChangeInv n := by
  induction hs with
  | nil => intro st _ hinv; exact hinv
  | cons h hs ih =>
    intro st hstop hinv
    have h1 := forBody_changeInv n h st hstop hinv
    unfold forLoop
    dsimp only
    split
    · exact h1
    · rename_i hb
      refine ih _ ?_ h1
      rw [forBody_stop_of_continue n h st (by simpa using hb)]
      exact hstop

theorem whileLoop_changeInv {σ : Type} (n : Int) (hs : List (Handler σ)) :
    ∀ (fuel : Nat) (st st' : SolveState σ), st.ChangeInv n →
      whileLoop n hs fuel st = some st' → st'.ChangeInv n := by
  intro fuel
  induction fuel with
  | zero =>
    intro st st' hinv hrun
    unfold whileLoop at hrun
    split at hrun
    · cases hrun
    · cases hrun
      exact hinv
  | succ fuel ih =>
    intro st st' hinv hrun
    unfold whileLoop at hrun
    split at hrun
    · rename_i hc
      refine ih _ st' ?_ hrun
      have := forLoop_changeInv n hs st hc.2.1 hinv
      exact this
    · cases hrun
      exact hinv

/-- C18, counterexample: with the two handlers `hChange`, `hNoChange` (k = 2), `solve`
stops in its first major iteration on the non-progress test, with no `Solved`
status (it returns `Finished`), after two calls of which the first reported
`changed = true`: the last k calls are not all without change. -/
theorem solve_stops_one_call_after_change :
    (solveRun 5 Examples.pre2).map
        (fun st => (st.iters, st.stop, st.p.status_, st.log.map (fun r => r.changed))) =
      some (1, true, SolveStatus.Started, [false, true]) ∧
    (solve 5 Examples.pre2).map (fun q => q.2) = some SolveStatus.Finished := by
  constructor <;> rfl

/-- C18 as amended: when `Presolver::solve` stops through its non-progress test
(`stop` set with `status_` still `Started`), none of the last `k - 1` handler calls
reported `changed = true`, `k` the number of handlers: every handler other than
the one that made the last change has run since without a change. -/
theorem solve_stop_test_no_change {σ : Type} (p : Presolver σ) (extra : Nat) :
    ∃ st, solveRun (5 + extra) p = some st ∧
      (st.stop = true → st.p.status_ = SolveStatus.Started →
        p.handlers_.length - 1 ≤ st.log.length ∧
        ∀ r ∈ st.log.take (p.handlers_.length - 1), r.changed = false) := by
  obtain ⟨st, hrun, _⟩ := whileLoop_returns (p.handlers_.length : Int) p.handlers_
    (5 + extra)
    { p := { p with status_ := SolveStatus.Started },
      changed := true, stop := false, iters := 0, subiters := 0,
      last_ch_subiter := -10000, log := [] }
    (by simp) (by simp)
  refine ⟨st, hrun, ?_⟩
  have hinv := whileLoop_changeInv _ _ _ _ st (by simp [SolveState.ChangeInv]) hrun
  intro hstop hstat
  have hk : ((p.handlers_.length : Int) - 1).toNat = p.handlers_.length - 1 := by omega
  have := hinv.2 hstop hstat
  rw [hk] at this
  exact this

/-- Witness of C18: with three handlers that report no change, `solve` stops on the
non-progress test after one pass, and the two most recent calls are without
change. -/
theorem solve_stop_test_no_change_witness :
    (solveRun 5 Examples.preIdle).map (fun st => (st.stop, st.p.status_, st.log.length)) =
      some (true, SolveStatus.Started, 3) ∧
    ∃ st, solveRun (5 + 0) Examples.preIdle = some st ∧
      (st.stop = true → st.p.status_ = SolveStatus.Started →
        Examples.preIdle.handlers_.length - 1 ≤ st.log.length ∧
        ∀ r ∈ st.log.take (Examples.preIdle.handlers_.length - 1), r.changed = false) :=
  ⟨rfl, solve_stop_test_no_change Examples.preIdle 0⟩

/-- Witness of C16: with the handlers `hNoChange`, `hInfeasible`, `hChange`, the second
call returns `SolvedInfeasible`; it is the last call and `solve` returns
`SolvedInfeasible`. -/
theorem solve_returns_solved_status_witness :
    (solveRun 5 Examples.preInf).map (fun st => st.log.map (fun r => r.status)) =
      some [SolveStatus.SolvedInfeasible, SolveStatus.Finished] ∧
    (solve (5 + 0) Examples.preInf).map (fun q => q.2) = some SolveStatus.SolvedInfeasible := by
  refine ⟨rfl, ?_⟩
  obtain ⟨st, hrun, hst⟩ := solve_returns_solved_status Examples.preInf 0
  have hlog : st.log[0]? = some ⟨false, SolveStatus.SolvedInfeasible, false⟩ := by
    have h : (solveRun (5 + 0) Examples.preInf).map (fun st => st.log[0]?) =
        some (some ⟨false, SolveStatus.SolvedInfeasible, false⟩) := rfl
    rw [hrun] at h
    simpa using h
  exact (hst 0 _ hlog (Or.inl rfl)).2

/-- Witness of C17: with the handlers `hChange`, `hOptimalNoSol`, `hChange`, the second
call returns `SolvedOptimal` without a solution; it is the last call and `solve`
returns `SolveError`. -/
theorem solve_optimal_without_solution_witness :
    (solveRun 5 Examples.preErr).map (fun st => st.log.map (fun r => r.status)) =
      some [SolveStatus.SolvedOptimal, SolveStatus.Finished] ∧
    (solve (5 + 0) Examples.preErr).map (fun q => q.2) = some SolveStatus.SolveError := by
  refine ⟨rfl, ?_⟩
  obtain ⟨st, hrun, hst⟩ := solve_optimal_without_solution Examples.preErr 0
  have hlog : st.log[0]? = some ⟨false, SolveStatus.SolvedOptimal, false⟩ := by
    have h : (solveRun (5 + 0) Examples.preErr).map (fun st => st.log[0]?) =
        some (some ⟨false, SolveStatus.SolvedOptimal, false⟩) := rfl
    rw [hrun] at h
    simpa using h
  exact (hst 0 _ hlog ⟨rfl, rfl⟩).2

/-! ### Postsolve and standardization -/

theorem getXLoop_same (ms : List PreMod) :
    ∀ y : List ℚ, getXLoop ms y y = ms.foldl (fun xx m => m.postsolveGetX xx) y := by
  induction ms with
  | nil => intro y; rfl
  | cons m ms ih =>
    intro y
    simp only [getXLoop, List.foldl_cons]
    exact ih _

/-- C19: `Presolver::getX` returns the fold, in recording order, of `postsolveGetX`
over the recorded modifications, started from the first `n` entries of `x`, `n`
the number of variables of the problem; with no modification recorded it returns
those `n` entries. -/
theorem getX_is_fold {σ : Type} (p : Presolver σ) (x newx : List ℚ) :
    getX p x newx =
      p.mods_.foldl (fun xx m => m.postsolveGetX xx)
        ((List.range p.problem_.vars.length).map (fun i => x.getD i 0)) ∧
    getX { p with mods_ := [] } x newx =
      (List.range p.problem_.vars.length).map (fun i => x.getD i 0) := by
  constructor
  · unfold getX
    cases hm : p.mods_ with
    | nil => simp
    | cons m ms =>
      simp only [List.length_cons, gt_iff_lt, Nat.zero_lt_succ, if_true, getXLoop,
        List.foldl_cons]
      exact getXLoop_same ms _
  · simp [getX]

theorem minimizify_cons {σ : Type} (p : Presolver σ) :
    (minimizify_ p).problem_.cons = p.problem_.cons := by
  unfold minimizify_
  split
  · rename_i oPtr ho
    split_ifs
    · simp [RangeProblem.negateObj, ho]
    · rfl
  · rfl

theorem standardize_cons {σ : Type} (p : Presolver σ) :
    (standardize p).problem_.cons = p.problem_.cons.map (fun c_ptr =>
      if ExtRat.negInf.blt c_ptr.lb = true ∧ ExtRat.posInf.ble c_ptr.ub = true then
        c_ptr.reverseSense
      else c_ptr) := by
  show (ifIntsAreBins_ (minimizify_ p)).problem_.cons.map _ = _
  show (minimizify_ p).problem_.cons.map _ = _
  rw [minimizify_cons]

/-- C20: after `Presolver::standardize` the constraints are the same in number and
order; a constraint that had a finite lower bound `l` and upper bound +infinity
has been replaced by its sense reversal, once: function negated, bounds
(-infinity, -l); a constraint with a finite upper bound is unchanged; and no
constraint is left with a finite lower bound and upper bound +infinity. -/
theorem standardize_reverses_lower_bounded {σ : Type} (p : Presolver σ) :
    (standardize p).problem_.cons.length = p.problem_.cons.length ∧
    (∀ (i : Nat) (c : RangeConstraint), p.problem_.cons[i]? = some c →
      (∀ l : ℚ, c.lb = ExtRat.fin l → c.ub = ExtRat.posInf →
        (standardize p).problem_.cons[i]? =
          some { c with f := c.f.neg, lb := ExtRat.negInf, ub := ExtRat.fin (-l) }) ∧
      (∀ u : ℚ, c.ub = ExtRat.fin u → (standardize p).problem_.cons[i]? = some c)) ∧
    (∀ c ∈ (standardize p).problem_.cons,
      ¬ ((∃ l : ℚ, c.lb = ExtRat.fin l) ∧ c.ub = ExtRat.posInf)) := by
  rw [standardize_cons]
  refine ⟨by simp, ?_, ?_⟩
  · intro i c hc
    constructor
    · intro l hl hu
      simp [List.getElem?_map, hc, hl, hu, ExtRat.blt, ExtRat.ble,
        RangeConstraint.reverseSense, ExtRat.neg]
    · intro u hu
      simp [List.getElem?_map, hc, hu, ExtRat.ble]
  · intro c hc
    simp only [List.mem_map] at hc
    obtain ⟨c0, _, rfl⟩ := hc
    rintro ⟨⟨l, hl⟩, hu⟩
    split_ifs at hl hu with hcond
    · simp [RangeConstraint.reverseSense] at hl hu
      cases h0 : c0.ub <;> simp [h0, ExtRat.neg] at hl
      cases h1 : c0.lb <;> simp [h1, ExtRat.neg] at hu
      simp [h1, ExtRat.blt, ExtRat.ble] at hcond
    · apply hcond
      simp [hl, hu, ExtRat.blt, ExtRat.ble]

/-- Witness of C20: in the example problem, `5 ≤ 3 * x0 + x1` becomes
`-3 * x0 - x1 ≤ -5` and `x0 ≤ 4` is unchanged. -/
theorem standardize_reverses_lower_bounded_witness :
    (standardize Examples.pre2).problem_.cons[0]? =
      some { Examples.geCon with f := Examples.geCon.f.neg, lb := ExtRat.negInf,
                                 ub := ExtRat.fin (-5) } ∧
    (∀ x : List ℚ, Examples.geCon.f.neg.eval x = some (-3 * x.getD 0 0 - x.getD 1 0)) ∧
    (standardize Examples.pre2).problem_.cons[1]? = some Examples.leCon :=
  ⟨((standardize_reverses_lower_bounded Examples.pre2).2.1 0 Examples.geCon rfl).1 5 rfl rfl,
   by intro x; simp [Examples.geCon, Function.neg]; ring,
   ((standardize_reverses_lower_bounded Examples.pre2).2.1 1 Examples.leCon rfl).2 4 rfl⟩

end Presolver

/-! ### Variable types and objective sense after standardization -/

theorem Presolver.minimizify_vars {σ : Type} (p : Presolver σ) :
    (Presolver.minimizify_ p).problem_.vars = p.problem_.vars ∧
    (Presolver.minimizify_ p).intTol_ = p.intTol_ := by
  unfold Presolver.minimizify_
  split
  · rename_i oPtr ho
    split_ifs
    · simp [RangeProblem.negateObj, ho]
    · exact ⟨rfl, rfl⟩
  · exact ⟨rfl, rfl⟩

theorem Presolver.standardize_vars {σ : Type} (p : Presolver σ) :
    (Presolver.standardize p).problem_.vars = p.problem_.vars.map (fun v_ptr =>
      if v_ptr.type = VariableType.Integer then
        if v_ptr.ub.ble (ExtRat.fin (1 + p.intTol_)) = true ∧
            (ExtRat.fin (-p.intTol_)).ble v_ptr.lb = true then
          { v_ptr with type := VariableType.Binary }
        else v_ptr
      else v_ptr) := by
  show (Presolver.ifIntsAreBins_ (Presolver.minimizify_ p)).problem_.vars = _
  unfold Presolver.ifIntsAreBins_
  simp only [(Presolver.minimizify_vars p).1, (Presolver.minimizify_vars p).2]

theorem Presolver.standardize_obj {σ : Type} (p : Presolver σ) :
    (Presolver.standardize p).problem_.obj = (Presolver.minimizify_ p).problem_.obj := rfl

/-- C21: after `Presolver::standardize` the variables are the same in number and
order; a variable is Binary exactly when it was Binary before or was Integer
with `lb ≥ -intTol_` and `ub ≤ 1 + intTol_`; a Continuous variable is unchanged;
and identifier, index and both bounds of every variable are unchanged. -/
theorem standardize_binary_iff {σ : Type} (p : Presolver σ) :
    (Presolver.standardize p).problem_.vars.length = p.problem_.vars.length ∧
    ∀ (i : Nat) (v : Variable), p.problem_.vars[i]? = some v →
      ∃ v1 : Variable, (Presolver.standardize p).problem_.vars[i]? = some v1 ∧
        (v1.type = VariableType.Binary ↔
          (v.type = VariableType.Binary ∨
            (v.type = VariableType.Integer ∧ (ExtRat.fin (-p.intTol_)).ble v.lb = true ∧
              v.ub.ble (ExtRat.fin (1 + p.intTol_)) = true))) ∧
        (v.type = VariableType.Continuous → v1 = v) ∧
        v1.lb = v.lb ∧ v1.ub = v.ub ∧ v1.id = v.id ∧ v1.index = v.index := by
  rw [Presolver.standardize_vars]
  refine ⟨by simp, ?_⟩
  intro i v hv
  refine ⟨_, by simp only [List.getElem?_map, hv, Option.map_some']; rfl, ?_⟩
  by_cases hint : v.type = VariableType.Integer
  · by_cases hb : v.ub.ble (ExtRat.fin (1 + p.intTol_)) = true ∧
        (ExtRat.fin (-p.intTol_)).ble v.lb = true
    · simp [hint, hb]
    · simp only [hint, hb, if_true, if_false]
      simp only [hint, true_and, and_true, implies_true, false_or, reduceCtorEq, false_iff]
      exact fun h => hb ⟨h.2, h.1⟩
  · simp [hint]

/-- Witness of C21: in the example problem the Integer variable in [0, 1] becomes
Binary, the Integer variable in [0, 5] stays Integer and the continuous variable
is unchanged. -/
theorem standardize_binary_iff_witness :
    (Presolver.standardize Examples.preMax).problem_.vars.length = 3 ∧
    (Presolver.standardize Examples.preMax).problem_.vars.map (fun v => v.type) =
      [VariableType.Integer, VariableType.Binary, VariableType.Continuous] :=
  ⟨(standardize_binary_iff Examples.preMax).1, by decide!⟩

/-- C22: `Bnb::solve` records `objSense_ = -1` exactly when the input problem has an
objective of type Maximize, and `objSense_ = 1` otherwise; in the first case the
presolver it standardizes holds the negated objective as a minimization, in the
second the objective is the one of the input. -/
theorem objSense_agrees_with_negation {σ : Type} (b : Bnb) (p : RangeProblem)
    (handlers : List (Handler σ)) (hmem : σ) :
    ((b.solve p handlers hmem).1.objSense_ = -1 ↔
      ∃ o, p.obj = some o ∧ o.oType = ObjectiveType.Maximize) ∧
    ((b.solve p handlers hmem).1.objSense_ = -1 ∨ (b.solve p handlers hmem).1.objSense_ = 1) ∧
    (∀ o, p.obj = some o → o.oType = ObjectiveType.Maximize →
      (b.solve p handlers hmem).2.problem_.obj =
        some { o with f := o.f.neg, oType := ObjectiveType.Minimize }) ∧
    ((¬ ∃ o, p.obj = some o ∧ o.oType = ObjectiveType.Maximize) →
      (b.solve p handlers hmem).2.problem_.obj = p.obj) ∧
    (b.solve p handlers hmem).1.oinst_.obj = (b.solve p handlers hmem).2.problem_.obj := by
  have hobj : (b.solve p handlers hmem).2.problem_.obj =
      (match p.obj with
        | some o => if o.oType = ObjectiveType.Maximize then
            some { o with f := o.f.neg, oType := ObjectiveType.Minimize } else some o
        | none => none) := by
    unfold Bnb.solve Bnb.presolve_
    simp only [Presolver.standardize_obj]
    unfold Presolver.minimizify_
    cases ho : p.obj with
    | none => simp [ho]
    | some o =>
      by_cases hm : o.oType = ObjectiveType.Maximize
      · simp [ho, hm, RangeProblem.negateObj]
      · simp [ho, hm]
  have hsense : (b.solve p handlers hmem).1.objSense_ =
      (match p.obj with
        | some o => if o.oType = ObjectiveType.Maximize then -1 else 1
        | none => 1) := by
    unfold Bnb.solve
    cases ho : p.obj with
    | none => simp [ho]
    | some o =>
      by_cases hm : o.oType = ObjectiveType.Maximize
      · simp [ho, hm]
      · simp [ho, hm]
  refine ⟨?_, ?_, ?_, ?_, rfl⟩
  · rw [hsense]
    cases ho : p.obj with
    | none => simp; norm_num
    | some o =>
      by_cases hm : o.oType = ObjectiveType.Maximize
      · simp [hm]
      · simp [hm]; norm_num
  · rw [hsense]
    cases ho : p.obj with
    | none => simp
    | some o =>
      by_cases hm : o.oType = ObjectiveType.Maximize
      · simp [hm]
      · simp [hm]
  · intro o ho hm
    rw [hobj]
    simp [ho, hm]
  · intro hno
    rw [hobj]
    cases ho : p.obj with
    | none => rfl
    | some o =>
      have hm : ¬ o.oType = ObjectiveType.Maximize := fun hm => hno ⟨o, ho, hm⟩
      simp [hm]

/-- Witness of C22: for `maximize 2 * x0 + 3 * x1` the recorded sense is -1 and the
presolver holds `minimize -2 * x0 - 3 * x1`. -/
theorem objSense_agrees_with_negation_witness :
    (Examples.bnb0.solve Examples.maxProblem ([] : List (Handler Unit)) ()).1.objSense_ = -1 ∧
    (Examples.bnb0.solve Examples.maxProblem ([] : List (Handler Unit)) ()).2.problem_.obj =
      some { Examples.maxObj with f := Examples.maxObj.f.neg,
                                  oType := ObjectiveType.Minimize } ∧
    (∀ x : List ℚ, Examples.maxObj.f.neg.eval x = some (-2 * x.getD 0 0 - 3 * x.getD 1 0)) :=
  ⟨(objSense_agrees_with_negation Examples.bnb0 Examples.maxProblem [] ()).1.mpr
      ⟨Examples.maxObj, rfl, rfl⟩,
   (objSense_agrees_with_negation Examples.bnb0 Examples.maxProblem [] ()).2.2.1
      Examples.maxObj rfl rfl,
   by intro x; simp [Examples.maxObj, Function.neg]; ring⟩


/-! ### The directory of auxiliary variables -/

theorem YEqBivar.foldl_insert_fields {V : Type} (getId : V → Nat) (calls : List (V × V × V)) :
    ∀ t : YEqBivar V,
      (calls.foldl (fun t c => YEqBivar.insert getId t c.1 c.2.1 c.2.2) t).y_ =
        t.y_ ++ calls.map (fun c => c.1) ∧
      (calls.foldl (fun t c => YEqBivar.insert getId t c.1 c.2.1 c.2.2) t).v1_ =
        t.v1_ ++ calls.map (fun c => c.2.1) ∧
      (calls.foldl (fun t c => YEqBivar.insert getId t c.1 c.2.1 c.2.2) t).v2_ =
        t.v2_ ++ calls.map (fun c => c.2.2) ∧
      (calls.foldl (fun t c => YEqBivar.insert getId t c.1 c.2.1 c.2.2) t).hash1_ =
        t.hash1_ ++ calls.map (fun c => getId c.2.1) ∧
      (calls.foldl (fun t c => YEqBivar.insert getId t c.1 c.2.1 c.2.2) t).hash2_ =
        t.hash2_ ++ calls.map (fun c => getId c.2.2) := by
  induction calls with
  | nil => intro t; simp
  | cons c calls ih =>
    intro t
    simp only [List.foldl_cons, List.map_cons]
    obtain ⟨h1, h2, h3, h4, h5⟩ := ih (YEqBivar.insert getId t c.1 c.2.1 c.2.2)
    rw [h1, h2, h3, h4, h5]
    simp [YEqBivar.insert]

theorem YEqBivar.findYLoop_eq {V : Type} [DecidableEq V] (getId : V → Nat)
    (calls : List (V × V × V)) (t : YEqBivar V) (a b : V)
    (hy : t.y_ = calls.map (fun c => c.1)) (h1 : t.v1_ = calls.map (fun c => c.2.1))
    (h2 : t.v2_ = calls.map (fun c => c.2.2))
    (k1 : t.hash1_ = calls.map (fun c => getId c.2.1))
    (k2 : t.hash2_ = calls.map (fun c => getId c.2.2)) :
    ∀ n i : Nat, n + i = calls.length →
      YEqBivar.findYLoop t (getId a) (getId b) a b n i =
        ((calls.drop i).find? (fun c => decide (c.2.1 = a ∧ c.2.2 = b))).map (fun c => c.1) := by
  intro n
  induction n with
  | zero =>
    intro i hi
    have : calls.drop i = [] := List.drop_eq_nil_of_le (by omega)
    simp [YEqBivar.findYLoop, this]
  | succ n ih =>
    intro i hi
    have hlt : i < calls.length := by omega
    have hdrop : calls.drop i = calls[i] :: calls.drop (i + 1) := List.drop_eq_getElem_cons hlt
    unfold YEqBivar.findYLoop
    rw [hdrop, List.find?_cons]
    simp only [hy, h1, h2, k1, k2, List.getElem?_map, List.getElem?_eq_getElem hlt,
      Option.map_some', Option.some.injEq]
    by_cases hc : calls[i].2.1 = a ∧ calls[i].2.2 = b
    · have hcond : getId calls[i].2.1 = getId a ∧ getId calls[i].2.2 = getId b ∧
          a = calls[i].2.1 ∧ b = calls[i].2.2 := by
        obtain ⟨ha, hb⟩ := hc
        exact ⟨by rw [ha], by rw [hb], ha.symm, hb.symm⟩
      rw [if_pos hcond]
      simp [hc]
    · have hcond : ¬ (getId calls[i].2.1 = getId a ∧ getId calls[i].2.2 = getId b ∧
          a = calls[i].2.1 ∧ b = calls[i].2.2) := by
        rintro ⟨_, _, ha, hb⟩
        exact hc ⟨ha.symm, hb.symm⟩
      rw [if_neg hcond]
      have hdec : decide (calls[i].2.1 = a ∧ calls[i].2.2 = b) = false := by simpa using hc
      simp only [hdec]
      exact ih (i + 1) (by omega)

/-- After a sequence of `insert` calls on a new table, `findY(a, b)` is the `y` of
the first call in the sequence made for the ordered pair (a, b), and null when
there is none. -/
theorem YEqBivar.findY_afterInserts {V : Type} [DecidableEq V] (getId : V → Nat)
    (calls : List (V × V × V)) (a b : V) :
    YEqBivar.findY getId (YEqBivar.afterInserts getId calls) a b =
      (calls.find? (fun c => decide (c.2.1 = a ∧ c.2.2 = b))).map (fun c => c.1) := by
  obtain ⟨hy, h1, h2, k1, k2⟩ := YEqBivar.foldl_insert_fields getId calls (YEqBivar.new V)
  have hnil : (YEqBivar.new V).y_ = [] ∧ (YEqBivar.new V).v1_ = [] ∧ (YEqBivar.new V).v2_ = [] ∧
      (YEqBivar.new V).hash1_ = [] ∧ (YEqBivar.new V).hash2_ = [] := ⟨rfl, rfl, rfl, rfl, rfl⟩
  rw [hnil.1, List.nil_append] at hy
  rw [hnil.2.1, List.nil_append] at h1
  rw [hnil.2.2.1, List.nil_append] at h2
  rw [hnil.2.2.2.1, List.nil_append] at k1
  rw [hnil.2.2.2.2, List.nil_append] at k2
  unfold YEqBivar.findY
  have hlen : (YEqBivar.afterInserts getId calls).v1_.length = calls.length := by
    unfold YEqBivar.afterInserts
    rw [h1, List.length_map]
  have := YEqBivar.findYLoop_eq getId calls (YEqBivar.afterInserts getId calls) a b
    hy h1 h2 k1 k2 calls.length 0 (by omega)
  simpa [hlen] using this

/-- C23, counterexample: after `insert(10, 1, 2)` and then `insert(11, 1, 2)` (handles
are numbers, each its own id), `findY(1, 2)` returns 10, the `y` of the first
insert, not the 11 of the most recent one. -/
theorem findY_returns_first_insert :
    YEqBivar.findY (fun v : Nat => v)
      (YEqBivar.afterInserts (fun v : Nat => v) [(10, 1, 2), (11, 1, 2)]) 1 2 = some 10 := by
  decide

/-- C23 as amended: for every sequence of `YEqBivar::insert` calls on a new table and
every ordered pair (a, b) inserted at least once, `findY(a, b)` returns the
auxiliary variable of the first `insert(y, a, b)` made for that pair: the
sequence splits into calls not made for (a, b), that call, and the rest. -/
theorem findY_first_insert {V : Type} [DecidableEq V] (getId : V → Nat)
    (calls : List (V × V × V)) (a b : V)
    (hins : ∃ c ∈ calls, c.2.1 = a ∧ c.2.2 = b) :
    ∃ (before : List (V × V × V)) (y : V) (after : List (V × V × V)),
      calls = before ++ (y, a, b) :: after ∧
      (∀ d ∈ before, ¬ (d.2.1 = a ∧ d.2.2 = b)) ∧
      YEqBivar.findY getId (YEqBivar.afterInserts getId calls) a b = some y := by
  rw [YEqBivar.findY_afterInserts]
  induction calls with
  | nil =>
    obtain ⟨c, hc, _⟩ := hins
    cases hc
  | cons c calls ih =>
    by_cases hc : c.2.1 = a ∧ c.2.2 = b
    · refine ⟨[], c.1, calls, ?_, by simp, ?_⟩
      · obtain ⟨y, a1, b1⟩ := c
        obtain ⟨ha, hb⟩ := hc
        simp only at ha hb
        subst ha hb
        rfl
      · simp [List.find?_cons, hc]
    · have hins1 : ∃ c ∈ calls, c.2.1 = a ∧ c.2.2 = b := by
        obtain ⟨d, hd, hd2⟩ := hins
        rcases List.mem_cons.mp hd with h | h
        · subst h
          exact absurd hd2 hc
        · exact ⟨d, h, hd2⟩
      obtain ⟨before, y, after, hsplit, hbefore, hfind⟩ := ih hins1
      refine ⟨c :: before, y, after, by rw [hsplit]; rfl, ?_, ?_⟩
      · intro d hd
        rcases List.mem_cons.mp hd with h | h
        · subst h
          exact hc
        · exact hbefore d h
      · have hdec : decide (c.2.1 = a ∧ c.2.2 = b) = false := by simpa using hc
        rw [List.find?_cons, hdec]
        exact hfind

/-- Witness of C23: after `insert(10, 1, 2)`, `insert(12, 2, 1)`, `insert(11, 1, 2)` the
pair (2, 1) was inserted and `findY(2, 1)` is defined. -/
theorem findY_first_insert_witness :
    ∃ (before : List (Nat × Nat × Nat)) (y : Nat) (after : List (Nat × Nat × Nat)),
      [(10, 1, 2), (12, 2, 1), (11, 1, 2)] = before ++ (y, 2, 1) :: after ∧
      (∀ d ∈ before, ¬ (d.2.1 = 2 ∧ d.2.2 = 1)) ∧
      YEqBivar.findY (fun v : Nat => v)
        (YEqBivar.afterInserts (fun v : Nat => v) [(10, 1, 2), (12, 2, 1), (11, 1, 2)]) 2 1
          = some y :=
  findY_first_insert (fun v : Nat => v) [(10, 1, 2), (12, 2, 1), (11, 1, 2)] 2 1
    ⟨(12, 2, 1), by simp, rfl, rfl⟩

/-- C24: for every sequence of `YEqBivar::insert` calls on a new table, `findY(a, b)`
returns null when no call was made for the ordered pair (a, b); in particular
`findY` on the new table is null, and after the single call `insert(y, a, b)`
with `a ≠ b`, `findY(b, a)` is null. -/
theorem findY_null_if_never_inserted {V : Type} [DecidableEq V] (getId : V → Nat) :
    (∀ (calls : List (V × V × V)) (a b : V),
      (∀ c ∈ calls, ¬ (c.2.1 = a ∧ c.2.2 = b)) →
      YEqBivar.findY getId (YEqBivar.afterInserts getId calls) a b = none) ∧
    (∀ a b : V, YEqBivar.findY getId (YEqBivar.new V) a b = none) ∧
    (∀ y a b : V, a ≠ b →
      YEqBivar.findY getId (YEqBivar.insert getId (YEqBivar.new V) y a b) b a = none) := by
  have hgen : ∀ (calls : List (V × V × V)) (a b : V),
      (∀ c ∈ calls, ¬ (c.2.1 = a ∧ c.2.2 = b)) →
      YEqBivar.findY getId (YEqBivar.afterInserts getId calls) a b = none := by
    intro calls a b hnone
    rw [YEqBivar.findY_afterInserts]
    have : calls.find? (fun c => decide (c.2.1 = a ∧ c.2.2 = b)) = none := by
      rw [List.find?_eq_none]
      intro c hc
      simpa using hnone c hc
    rw [this]
    rfl
  refine ⟨hgen, ?_, ?_⟩
  · intro a b
    exact hgen [] a b (by simp)
  · intro y a b hab
    have := hgen [(y, a, b)] b a (by
      intro c hc
      simp only [List.mem_singleton] at hc
      subst hc
      exact fun h => hab h.2.symm)
    exact this

/-- Witness of C24: after `insert(10, 1, 2)` and `insert(11, 3, 4)` the pairs (2, 1) and
(1, 4) were never inserted and `findY` returns null for them. -/
theorem findY_null_if_never_inserted_witness :
    YEqBivar.findY (fun v : Nat => v)
      (YEqBivar.afterInserts (fun v : Nat => v) [(10, 1, 2), (11, 3, 4)]) 2 1 = none ∧
    YEqBivar.findY (fun v : Nat => v)
      (YEqBivar.afterInserts (fun v : Nat => v) [(10, 1, 2), (11, 3, 4)]) 1 4 = none :=
  ⟨(findY_null_if_never_inserted (fun v : Nat => v)).1 [(10, 1, 2), (11, 3, 4)] 2 1
      (by decide),
   (findY_null_if_never_inserted (fun v : Nat => v)).1 [(10, 1, 2), (11, 3, 4)] 1 4
      (by decide)⟩


/-! ### Violation tests and the line search -/

theorem map_range_getD (f : Nat → ℚ) (n k : Nat) (hk : k < n) :
    ((List.range n).map f).getD k 0 = f k := by
  simp [List.getD_eq_getElem?_getD, List.getElem?_range hk]

theorem and_test_iff_max (act ub a r : ℚ) (ha : 0 ≤ a) (hr : 0 ≤ r) :
    (act > ub + a ∧ (ub = 0 ∨ act > ub + |ub| * r)) ↔ act > ub + max a (|ub| * r) := by
  have hb : 0 ≤ |ub| * r := mul_nonneg (abs_nonneg ub) hr
  by_cases h0 : ub = 0
  · subst h0
    simp [max_eq_left ha]
  · constructor
    · rintro ⟨h1, h2 | h2⟩
      · exact absurd h2 h0
      · rcases max_cases a (|ub| * r) with ⟨hm, _⟩ | ⟨hm, _⟩ <;> rw [hm] <;> assumption
    · intro h
      have h1 : a ≤ max a (|ub| * r) := le_max_left _ _
      have h2 : |ub| * r ≤ max a (|ub| * r) := le_max_right _ _
      exact ⟨by linarith, Or.inr (by linarith)⟩

theorem Linearizations.maxVioLoop_negInf (s : Linearizations) (x : List ℚ) (cs : List Constraint) :
    ∀ (i : Int) (r : ExtRat × Int),
      (Linearizations.maxVioLoop s x cs i r).1 = ExtRat.negInf ↔
        (r.1 = ExtRat.negInf ∧ ∀ c ∈ cs, ∀ act, c.f.eval x = some act →
          ¬ (act > c.ub + s.solAbsTol_ ∧ (c.ub = 0 ∨ act > c.ub + |c.ub| * s.solRelTol_))) := by
  induction cs with
  | nil => intro i r; simp [Linearizations.maxVioLoop]
  | cons c cs ih =>
    intro i r
    obtain ⟨max, index⟩ := r
    unfold Linearizations.maxVioLoop
    cases hev : c.f.eval x with
    | none =>
      simp only [ih, List.mem_cons, forall_eq_or_imp, hev]
      simp
    | some act =>
      simp only [hev]
      by_cases hv : act > c.ub + s.solAbsTol_ ∧ (c.ub = 0 ∨ act > c.ub + |c.ub| * s.solRelTol_)
      · rw [if_pos hv]
        have hright : ¬ (max = ExtRat.negInf ∧ ∀ c1 ∈ c :: cs, ∀ act, c1.f.eval x = some act →
            ¬ (act > c1.ub + s.solAbsTol_ ∧
              (c1.ub = 0 ∨ act > c1.ub + |c1.ub| * s.solRelTol_))) := by
          rintro ⟨_, h⟩
          exact h c (List.mem_cons_self _ _) act hev hv
        simp only [hright, iff_false]
        generalize (if |c.ub| > s.solAbsTol_ then 100 * (act - c.ub) / |c.ub| else act - c.ub)
          = vio
        by_cases hlt : max.blt (ExtRat.fin vio) = true
        · rw [if_pos hlt, ih]
          simp
        · rw [if_neg hlt, ih]
          intro hmax
          apply hlt
          simp only at hmax
          rw [hmax.1]
          rfl
      · rw [if_neg hv, ih]
        simp only [List.mem_cons, forall_eq_or_imp, hev, Option.some.injEq, forall_eq']
        tauto

/-- C28: with tolerances `absTol, relTol ≥ 0`, the test
`act > ub + absTol && (ub == 0 || act > ub + fabs(ub) * relTol)` of the generator
holds exactly when `act > ub + max(absTol, |ub| * relTol)`; with it, `maxVio`
returns -infinity exactly when no nonlinear constraint that evaluates at `x` is
violated in that sense, and a bisection step of `lineSearchPt_` moves the outer
end to the midpoint when the constraint is violated there in that sense. -/
theorem violation_test_is_max (s : Linearizations) (habs : 0 ≤ s.solAbsTol_)
    (hrel : 0 ≤ s.solRelTol_) :
    (∀ act ub : ℚ,
      (act > ub + s.solAbsTol_ ∧ (ub = 0 ∨ act > ub + |ub| * s.solRelTol_)) ↔
        act > ub + max s.solAbsTol_ (|ub| * s.solRelTol_)) ∧
    (∀ (x : List ℚ) (index : Int),
      (s.maxVio x index).1 = ExtRat.negInf ↔
        ∀ c ∈ s.nlCons_, ∀ act, c.f.eval x = some act →
          ¬ act > c.ub + max s.solAbsTol_ (|c.ub| * s.solRelTol_)) ∧
    (∀ (con : Constraint) (fuel : Nat) (xl xu : List ℚ) (act : ℚ),
      con.f.eval ((List.range s.minlp_.vars.length).map
        (fun i => 1 / 2 * (xl.getD i 0 + xu.getD i 0))) = some act →
      act > con.ub + max s.solAbsTol_ (|con.ub| * s.solRelTol_) →
      s.lineSearchLoop con (fuel + 1) xl xu =
        s.lineSearchLoop con fuel xl ((List.range s.minlp_.vars.length).map
          (fun i => 1 / 2 * (xl.getD i 0 + xu.getD i 0)))) := by
  refine ⟨fun act ub => and_test_iff_max act ub _ _ habs hrel, ?_, ?_⟩
  · intro x index
    unfold Linearizations.maxVio
    rw [Linearizations.maxVioLoop_negInf]
    simp only [true_and]
    constructor
    · intro h c hc act hev hv
      exact h c hc act hev ((and_test_iff_max act c.ub _ _ habs hrel).mpr hv)
    · intro h c hc act hev hv
      exact h c hc act hev ((and_test_iff_max act c.ub _ _ habs hrel).mp hv)
  · intro con fuel xl xu act hev hv
    have hv1 := (and_test_iff_max act con.ub _ _ habs hrel).mpr hv
    conv_lhs => unfold Linearizations.lineSearchLoop
    simp only [hev]
    rw [if_pos hv1]

/-- Witness of C28: on the example generator (both tolerances 1e-6) the activity 2
against the upper bound 1. -/
theorem violation_test_is_max_witness :
    (0 ≤ Examples.linC.solAbsTol_ ∧ 0 ≤ Examples.linC.solRelTol_) ∧
    (((2 : ℚ) > 1 + Examples.linC.solAbsTol_ ∧
        ((1 : ℚ) = 0 ∨ (2 : ℚ) > 1 + |1| * Examples.linC.solRelTol_)) ↔
      (2 : ℚ) > 1 + max Examples.linC.solAbsTol_ (|1| * Examples.linC.solRelTol_)) :=
  ⟨⟨by norm_num [Examples.linC, Examples.lin], by norm_num [Examples.linC, Examples.lin]⟩,
   (violation_test_is_max Examples.linC (by norm_num [Examples.linC, Examples.lin])
      (by norm_num [Examples.linC, Examples.lin])).1 2 1⟩

theorem Linearizations.lineSearchLoop_sound (s : Linearizations) (con : Constraint)
    (c u : List ℚ) :
    ∀ (fuel : Nat) (xl xu x : List ℚ) (nlpact : ℚ),
      OnSegment c u s.minlp_.vars.length xl → OnSegment c u s.minlp_.vars.length xu →
      s.lineSearchLoop con fuel xl xu = some (true, x, nlpact) →
      OnSegment c u s.minlp_.vars.length x ∧ con.f.eval x = some nlpact ∧
        (|con.ub - nlpact| ≤ s.solAbsTol_ ∨
          (con.ub ≠ 0 ∧ |con.ub - nlpact| ≤ |con.ub| * s.solRelTol_)) := by
  intro fuel
  induction fuel with
  | zero =>
    intro xl xu x nlpact _ _ h
    simp [Linearizations.lineSearchLoop] at h
  | succ fuel ih =>
    intro xl xu x nlpact hl hu h
    have hmid : OnSegment c u s.minlp_.vars.length ((List.range s.minlp_.vars.length).map
        (fun i => 1 / 2 * (xl.getD i 0 + xu.getD i 0))) := by
      obtain ⟨tl, hl0, hl1, _, hlx⟩ := hl
      obtain ⟨tu, hu0, hu1, _, hux⟩ := hu
      refine ⟨(tl + tu) / 2, by linarith, by linarith, by simp, ?_⟩
      intro i hi
      rw [map_range_getD _ _ _ hi, hlx i hi, hux i hi]
      ring
    unfold Linearizations.lineSearchLoop at h
    cases hev : con.f.eval ((List.range s.minlp_.vars.length).map
        (fun i => 1 / 2 * (xl.getD i 0 + xu.getD i 0))) with
    | none =>
      simp only [hev, Option.some.injEq, Prod.mk.injEq, Bool.false_eq_true, false_and] at h
    | some act =>
      simp only [hev] at h
      split_ifs at h with h1 h2
      · exact ih _ _ _ _ hl hmid h
      · simp only [Option.some.injEq, Prod.mk.injEq, true_and] at h
        obtain ⟨hx, hact⟩ := h
        subst hx hact
        exact ⟨hmid, hev, h2⟩
      · exact ih _ _ _ _ hmid hu h

/-- C26: on the example (center (0, 0), outer point (2, 0), constraint
`x0 * x0 + x1 * x1 ≤ 1`) `lineSearchPt_` succeeds at its first bisection step,
hence within any larger number of steps, and returns the point (1, 0); and
whenever `lineSearchPt_` returns true, its point lies on the segment between
`solC_` and the outer point, the constraint evaluates there to the returned
activity, and it is active: `|ub - f(x)| ≤ absTol`, or `ub ≠ 0` and
`|ub - f(x)| ≤ |ub| * relTol`. -/
theorem lineSearchPt_active_on_segment :
    (∀ extra : Nat, Examples.linC.lineSearchPt_ (1 + extra) [2, 0] Examples.circleCon =
      some (true, [1, 0], 1)) ∧
    (∀ (s : Linearizations) (fuel : Nat) (u : List ℚ) (con : Constraint) (x : List ℚ)
      (nlpact : ℚ), s.lineSearchPt_ fuel u con = some (true, x, nlpact) →
      OnSegment (s.solC_.getD []) u s.minlp_.vars.length x ∧ con.f.eval x = some nlpact ∧
        (|con.ub - nlpact| ≤ s.solAbsTol_ ∨
          (con.ub ≠ 0 ∧ |con.ub - nlpact| ≤ |con.ub| * s.solRelTol_))) := by
  constructor
  · intro extra
    rw [Nat.add_comm]
    simp [Linearizations.lineSearchPt_, Linearizations.lineSearchLoop, Examples.linC,
      Examples.lin, Examples.circleCon, Examples.circleFun, List.range_succ]
  · intro s fuel u con x nlpact h
    unfold Linearizations.lineSearchPt_ at h
    refine Linearizations.lineSearchLoop_sound s con (s.solC_.getD []) u fuel _ _ x nlpact
      ?_ ?_ h
    · refine ⟨0, le_refl _, by norm_num, by simp, ?_⟩
      intro i hi
      rw [map_range_getD _ _ _ hi]
      ring
    · refine ⟨1, by norm_num, le_refl _, by simp, ?_⟩
      intro i hi
      rw [map_range_getD _ _ _ hi]
      ring

/-- Witness of C26: the point (1, 0) returned on the example after 40 steps lies on
the segment from (0, 0) to (2, 0) and the circle constraint is active there. -/
theorem lineSearchPt_active_on_segment_witness :
    Examples.linC.lineSearchPt_ 40 [2, 0] Examples.circleCon = some (true, [1, 0], 1) ∧
    OnSegment (Examples.linC.solC_.getD []) [2, 0] Examples.linC.minlp_.vars.length [1, 0] ∧
    Examples.circleCon.f.eval [1, 0] = some 1 ∧
    (|Examples.circleCon.ub - 1| ≤ Examples.linC.solAbsTol_ ∨
      (Examples.circleCon.ub ≠ 0 ∧
        |Examples.circleCon.ub - 1| ≤ |Examples.circleCon.ub| * Examples.linC.solRelTol_)) :=
  ⟨lineSearchPt_active_on_segment.1 39,
   lineSearchPt_active_on_segment.2 Examples.linC 40 [2, 0] Examples.circleCon [1, 0] 1
     (lineSearchPt_active_on_segment.1 39)⟩


/-! ### The cut at the line-search point -/

/-- C27, counterexample: on the example (center (0, 0), outer point (2, 0), constraint
`x0 * x0 + x1 * x1 ≤ 1`) the constraint that `cutAtLineSearchPt_` adds at the
boundary point (1, 0) is `2 * x0 ≤ 2`, with upper bound 2 and not 1; the point
(1, 0) satisfies the source constraint and would violate `2 * x0 ≤ 1`. -/
theorem cutAtLineSearchPt_upper_bound_is_two :
    (Examples.linC.cutAtLineSearchPt_ 1 [2, 0] Examples.circleCon 0).map
        (fun r => (r.2.2, r.1.rel_.cons)) =
      some ([1, 0], [{ lf := { terms := [(0, 2)] }, lb := ExtRat.negInf, ub := ExtRat.fin 2,
                       name := "_OAcut_1" }]) ∧
    Examples.circleCon.f.eval [1, 0] = some Examples.circleCon.ub ∧
    ¬ (LinearFunction.eval { terms := [(0, 2)] } [1, 0] ≤ 1) := by
  refine ⟨by decide!, by decide!, by decide!⟩

theorem Linearizations.lineSearchPt_circle (s : Linearizations) (extra : Nat)
    (hc : s.solC_ = some [0, 0]) (hn : s.minlp_.vars.length = 2) (habs : 0 ≤ s.solAbsTol_) :
    s.lineSearchPt_ (1 + extra) [2, 0] Examples.circleCon = some (true, [1, 0], 1) := by
  rw [Nat.add_comm]
  have h1 : ¬ ((1 : ℚ) + s.solAbsTol_ < 1) := by linarith
  simp [Linearizations.lineSearchPt_, Linearizations.lineSearchLoop, hc, hn,
    Examples.circleCon, Examples.circleFun, List.range_succ, h1, habs]

/-- C27 as amended: with `solC_ = (0, 0)`, outer point (2, 0) and the constraint
`x0 * x0 + x1 * x1 ≤ 1` on two variables, for tolerances `absTol ≥ 0` and
`0 < conCoeff_tol ≤ 2`, `cutAtLineSearchPt_` finds the boundary point (1, 0) and adds
to the relaxation exactly the cut `2 * x0 ≤ 2`: coefficient 2 on `x0`, no term on
`x1`, lower bound -infinity, upper bound `1 - (1 - 2) = 2`. -/
theorem cutAtLineSearchPt_circle_cut (s : Linearizations) (extra : Nat) (cUninit : ℚ)
    (hc : s.solC_ = some [0, 0]) (hn : s.minlp_.vars.length = 2) (hr : s.rel_.numVars = 2)
    (habs : 0 ≤ s.solAbsTol_) (htol : 0 < s.conCoeff_tol ∧ s.conCoeff_tol ≤ 2) :
    ∃ s1 : Linearizations,
      s.cutAtLineSearchPt_ (1 + extra) [2, 0] Examples.circleCon cUninit =
        some (s1, true, [1, 0]) ∧
      s1.rel_.cons.map LinConstraint.row =
        s.rel_.cons.map LinConstraint.row ++
          [({ terms := [(0, 2)] }, ExtRat.negInf, ExtRat.fin 2)] := by
  have hlin : s.linearAt_ Examples.circleCon.f 1 [1, 0] =
      some ({ terms := [(0, 2)] }, -1) := by
    have h0 : ¬ (s.conCoeff_tol ≤ 0) := not_le.mpr htol.1
    have h2 : s.conCoeff_tol ≤ |(2 : ℚ)| := by
      rw [abs_of_pos (by norm_num)]
      exact htol.2
    simp [Linearizations.linearAt_, Function.evalGradient, LinearFunction.ofArray,
      InnerProduct, hn, hr, Examples.circleCon, Examples.circleFun, List.range_succ,
      List.filter_cons, h0, h2, htol.2]
    norm_num
  unfold Linearizations.cutAtLineSearchPt_
  rw [Linearizations.lineSearchPt_circle s extra hc hn habs]
  simp only [if_true, hlin]
  refine ⟨_, rfl, ?_⟩
  simp [Relaxation.newConstraint, LinConstraint.row, Examples.circleCon]
  norm_num

/-- Witness of C27: the example generator, whose tolerances are all 1e-6, after 40
bisection steps. -/
theorem cutAtLineSearchPt_circle_cut_witness :
    ∃ s1 : Linearizations,
      Examples.linC.cutAtLineSearchPt_ (1 + 39) [2, 0] Examples.circleCon 0 =
        some (s1, true, [1, 0]) ∧
      s1.rel_.cons.map LinConstraint.row =
        Examples.linC.rel_.cons.map LinConstraint.row ++
          [({ terms := [(0, 2)] }, ExtRat.negInf, ExtRat.fin 2)] :=
  cutAtLineSearchPt_circle_cut Examples.linC 39 0 rfl rfl rfl
    (by norm_num [Examples.linC, Examples.lin])
    (by norm_num [Examples.linC, Examples.lin])


/-! ### Feasibility test of the handler -/

theorem STOAHandler.isFeasLoop_false_iff (s : STOAHandler) (x : List ℚ) (cs : List Constraint) :
    s.isFeasLoop x cs = false ↔
      ∃ c ∈ cs, c.f.eval x = none ∨ ∃ act, c.f.eval x = some act ∧
        (act > c.ub + s.solAbsTol_ ∨ (c.ub ≠ 0 ∧ act > c.ub + |c.ub| * s.solRelTol_)) := by
  induction cs with
  | nil => simp [STOAHandler.isFeasLoop]
  | cons c cs ih =>
    unfold STOAHandler.isFeasLoop
    cases hev : c.f.eval x with
    | none => simp [hev]
    | some act =>
      simp only [hev]
      by_cases hv : act > c.ub + s.solAbsTol_ ∨ (c.ub ≠ 0 ∧ act > c.ub + |c.ub| * s.solRelTol_)
      · rw [if_pos hv]
        simp only [List.mem_cons, exists_eq_or_imp, hev, true_iff]
        exact Or.inl (Or.inr ⟨act, rfl, hv⟩)
      · rw [if_neg hv, ih]
        simp only [List.mem_cons, exists_eq_or_imp, hev, Option.some.injEq, false_or,
          exists_eq_left', reduceCtorEq]
        exact ⟨fun h => Or.inr h, fun h => h.resolve_left hv⟩

/-- C29, counterexample: with both tolerances 1e-6, the constraint `x0 * x0 ≤ 100` and
the point `x0 = 10 + 1e-6`, every evaluation succeeds, the objective is not
nonlinear and the activity does not exceed `ub + max(absTol, |ub| * relTol)`, yet
`isFeas` returns false. -/
theorem isFeas_rejects_within_max_tolerance :
    (Examples.handler100.isFeas [10000001 / 1000000]).2 = false ∧
    Examples.handler100.oNl_ = false ∧
    Examples.sqCon100.f.eval [10000001 / 1000000] = some (100000020000001 / 1000000000000) ∧
    ¬ ((100000020000001 / 1000000000000 : ℚ) >
      Examples.sqCon100.ub + max Examples.handler100.solAbsTol_
        (|Examples.sqCon100.ub| * Examples.handler100.solRelTol_)) := by
  refine ⟨by decide!, rfl, by decide!, ?_⟩
  norm_num [Examples.sqCon100, Examples.handler100, Examples.handler]

/-- C29 as amended: `STOAHandler::isFeas(x)` returns false exactly when some
evaluation fails or some nonlinear constraint has
`activity(x) > ub + absTol`, or `ub ≠ 0` and `activity(x) > ub + |ub| * relTol`
(and likewise the nonlinear objective value against the value of eta in `x`);
the same test decides in `cutToCons_` and `consCutAtLpSol_` whether a cut is
attempted; for tolerances `≥ 0` and `ub ≠ 0` the test is
`activity(x) > ub + min(absTol, |ub| * relTol)`. -/
theorem isFeas_false_iff (s : STOAHandler) (x : List ℚ) :
    ((s.isFeas x).2 = false ↔
      ((∃ c ∈ s.nlCons_, c.f.eval x = none ∨ ∃ act, c.f.eval x = some act ∧
          (act > c.ub + s.solAbsTol_ ∨ (c.ub ≠ 0 ∧ act > c.ub + |c.ub| * s.solRelTol_))) ∨
       (s.oNl_ = true ∧ (s.minlp_.getObjValue x = none ∨
          ∃ act, s.minlp_.getObjValue x = some act ∧
            (act > x.getD s.objVar_ 0 + s.solAbsTol_ ∨
              (x.getD s.objVar_ 0 ≠ 0 ∧
                act > x.getD s.objVar_ 0 + |x.getD s.objVar_ 0| * s.solRelTol_)))))) ∧
    (∀ (con : Constraint) (nlpx lpx : List ℚ) (out : STOAHandler.CutOut) (act : ℚ),
      con.f.eval lpx = some act →
      ((act > con.ub + s.solAbsTol_ ∨ (con.ub ≠ 0 ∧ act > con.ub + |con.ub| * s.solRelTol_)) →
        s.cutToCons_ con nlpx lpx out = s.addCut_ nlpx lpx con out) ∧
      (¬ (act > con.ub + s.solAbsTol_ ∨
          (con.ub ≠ 0 ∧ act > con.ub + |con.ub| * s.solRelTol_)) →
        s.cutToCons_ con nlpx lpx out = (s, out) ∧ s.consCutAtLpSol_ con lpx out = (s, out))) ∧
    (0 ≤ s.solAbsTol_ → 0 ≤ s.solRelTol_ → ∀ act ub : ℚ, ub ≠ 0 →
      ((act > ub + s.solAbsTol_ ∨ (ub ≠ 0 ∧ act > ub + |ub| * s.solRelTol_)) ↔
        act > ub + min s.solAbsTol_ (|ub| * s.solRelTol_))) := by
  refine ⟨?_, ?_, ?_⟩
  · unfold STOAHandler.isFeas
    by_cases hloop : s.isFeasLoop x s.nlCons_ = false
    · rw [if_pos hloop]
      simp only [true_iff]
      exact Or.inl ((STOAHandler.isFeasLoop_false_iff s x s.nlCons_).mp hloop)
    · rw [if_neg hloop]
      have hno := mt (STOAHandler.isFeasLoop_false_iff s x s.nlCons_).mpr hloop
      by_cases ho : s.oNl_ = true
      · rw [if_pos ho]
        simp only [hno, ho, true_and, false_or]
        cases hobj : s.minlp_.getObjValue x with
        | none => simp
        | some act =>
          simp only [Option.some.injEq, exists_eq_left', reduceCtorEq, false_or]
          split_ifs with hv
          · simp only [true_iff]
            exact hv
          · simp only [Bool.true_eq_false, false_iff]
            exact hv
      · rw [if_neg ho]
        simp [hno, ho]
  · intro con nlpx lpx out act hev
    constructor
    · intro hv
      have ht : s.actTest act con.ub = true := by
        simpa [STOAHandler.actTest] using hv
      simp [STOAHandler.cutToCons_, hev, ht]
    · intro hv
      have ht : s.actTest act con.ub = false := by
        have : ¬ s.actTest act con.ub = true := by
          simpa [STOAHandler.actTest] using hv
        simpa using this
      constructor
      · simp [STOAHandler.cutToCons_, hev, ht]
      · simp [STOAHandler.consCutAtLpSol_, hev, ht]
  · intro habs hrel act ub hub
    simp only [hub, ne_eq, not_false_eq_true, true_and]
    constructor
    · rintro (h | h)
      · exact lt_of_le_of_lt (add_le_add_left (min_le_left _ _) ub) h
      · exact lt_of_le_of_lt (add_le_add_left (min_le_right _ _) ub) h
    · intro h
      rcases min_cases s.solAbsTol_ (|ub| * s.solRelTol_) with ⟨hm, _⟩ | ⟨hm, _⟩
      · rw [hm] at h
        exact Or.inl h
      · rw [hm] at h
        exact Or.inr h


/-- Witness of C29: at `x0 = 11` the constraint `x0 * x0 ≤ 100` has activity 121, above
`100 + 1e-6`, and `isFeas` returns false. -/
theorem isFeas_false_iff_witness :
    (Examples.handler100.isFeas [11]).2 = false :=
  (isFeas_false_iff Examples.handler100 [11]).1.mpr
    (Or.inl ⟨Examples.sqCon100, List.mem_singleton.mpr rfl,
      Or.inr ⟨121, by decide!, Or.inl (by norm_num [Examples.sqCon100, Examples.handler100,
        Examples.handler])⟩⟩)

/-! ### The center problem -/

theorem foldl_append_eq_flatMap {α β : Type} (f : α → List β) (xs : List α) :
    ∀ acc : List β, xs.foldl (fun l x => l ++ f x) acc = acc ++ xs.flatMap f := by
  induction xs with
  | nil => intro acc; simp
  | cons x xs ih =>
    intro acc
    simp only [List.foldl_cons, List.flatMap_cons, ih, List.append_assoc]

theorem Linearizations.findCenterCon_rows (eta : Nat) (c : SplitConstraint)
    (hlb : c.lb ≠ ExtRat.posInf) (hub : c.ub ≠ ExtRat.negInf)
    (hlin : c.fType = FunctionType.Linear → c.nlf = none) :
    (if (Linearizations.findCenterCon eta c).2.1 = true then []
      else [(Linearizations.findCenterCon eta c).1.row]) ++
    (if (Linearizations.findCenterCon eta c).2.2 = true then
      (Linearizations.findCenterPair eta (Linearizations.findCenterCon eta c).1).map
        SplitConstraint.row
      else []) = Linearizations.etaRows eta c := by
  unfold Linearizations.findCenterCon Linearizations.etaRows
  by_cases hconst : c.fType = FunctionType.Constant
  · simp [hconst, SplitConstraint.row]
  · by_cases hl : c.fType = FunctionType.Linear
    · have hnlf := hlin hl
      cases hlbv : c.lb with
      | posInf => exact absurd hlbv hlb
      | negInf =>
        cases hubv : c.ub with
        | negInf => exact absurd hubv hub
        | posInf => simp [hl, SplitConstraint.row]
        | fin u => simp [hl, hubv, hnlf, SplitConstraint.row]
      | fin l =>
        cases hubv : c.ub with
        | negInf => exact absurd hubv hub
        | posInf => simp [hl, hubv, hnlf, SplitConstraint.row]
        | fin u =>
          by_cases hlu : l = u
          · simp [hl, hlu, SplitConstraint.row, hlbv, hubv]
          · simp [hl, hlu, hlbv, hubv, SplitConstraint.row, Linearizations.findCenterPair]
    · cases hlf : c.lf <;> simp [hconst, hl, hlf, SplitConstraint.row]

theorem Linearizations.findCenter_kept_added (eta : Nat) (cs : List SplitConstraint)
    (hwf : ∀ c ∈ cs, c.lb ≠ ExtRat.posInf ∧ c.ub ≠ ExtRat.negInf ∧
      (c.fType = FunctionType.Linear → c.nlf = none)) :
    List.Perm
      ((((cs.map (Linearizations.findCenterCon eta)).filter (fun r => !r.2.1)).map
          (fun r => r.1)).map SplitConstraint.row ++
        ((((cs.map (Linearizations.findCenterCon eta)).filter (fun r => r.2.2)).map
          (fun r => r.1)).flatMap (Linearizations.findCenterPair eta)).map SplitConstraint.row)
      (cs.flatMap (Linearizations.etaRows eta)) := by
  induction cs with
  | nil => simp
  | cons c cs ih =>
    have hc := hwf c (List.mem_cons_self _ _)
    have ih1 := ih (fun d hd => hwf d (List.mem_cons_of_mem _ hd))
    have hrow := Linearizations.findCenterCon_rows eta c hc.1 hc.2.1 hc.2.2
    rw [List.flatMap_cons, ← hrow]
    simp only [List.map_cons, List.filter_cons]
    generalize Linearizations.findCenterCon eta c = r
    obtain ⟨c1, m, q⟩ := r
    cases m <;> cases q <;>
      simp only [Bool.not_true, Bool.not_false, Bool.false_eq_true, if_false, if_true,
        List.map_cons, List.flatMap_cons, List.map_append, List.nil_append, List.append_nil,
        List.cons_append, List.singleton_append]
    · exact List.Perm.cons _ ih1
    · refine List.Perm.cons _ ?_
      refine List.Perm.trans ?_ (List.Perm.append_left _ ih1)
      rw [← List.append_assoc, ← List.append_assoc]
      exact List.Perm.append_right _ List.perm_append_comm
    · exact ih1
    · refine List.Perm.trans ?_ (List.Perm.append_left _ ih1)
      rw [← List.append_assoc, ← List.append_assoc]
      exact List.Perm.append_right _ List.perm_append_comm

/-- C30: in the problem that `findCenter` builds from a source problem whose
constraints have bounds `lb < +infinity` and `ub > -infinity` (Linear ones
without a nonlinear part), the rows of the constraints are, up to order, those
the claim lists for each source constraint (`etaRows`: for a Linear constraint
with `lb ≠ ub`, `lf + eta ≥ lb` for a finite `lb` and `lf - eta ≤ ub` for a finite
`ub`, the original gone; a Linear constraint with `lb = ub` unchanged; a nonlinear
constraint with its bounds and the term `-eta` added to its linear part),
followed by the constraints that `findCenter` writes for the variable bounds. -/
theorem findCenter_eta_problem (inst : SplitProblem)
    (hwf : ∀ c ∈ inst.cons, c.lb ≠ ExtRat.posInf ∧ c.ub ≠ ExtRat.negInf ∧
      (c.fType = FunctionType.Linear → c.nlf = none)) :
    List.Perm ((Linearizations.findCenterProblem inst).cons.map SplitConstraint.row)
      (inst.cons.flatMap (Linearizations.etaRows inst.vars.length) ++
        (inst.vars.flatMap (Linearizations.findCenterVar inst.vars.length)).map
          SplitConstraint.row) := by
  unfold Linearizations.findCenterProblem
  simp only [foldl_append_eq_flatMap, List.nil_append, List.map_append]
  exact List.Perm.append_right _
    (Linearizations.findCenter_kept_added inst.vars.length inst.cons hwf)

/-- Witness of C30: the example problem with a two-sided inequality, a one-sided
inequality, an equality and a nonlinear constraint, all with admissible
bounds. -/
theorem findCenter_eta_problem_witness :
    List.Perm
      ((Linearizations.findCenterProblem Examples.splitProblem).cons.map SplitConstraint.row)
      (Examples.splitProblem.cons.flatMap (Linearizations.etaRows 2) ++
        (Examples.splitProblem.vars.flatMap (Linearizations.findCenterVar 2)).map
          SplitConstraint.row) ∧
    (Linearizations.findCenterProblem Examples.splitProblem).cons.map
        (fun c => (c.lf, c.lb, c.ub)) =
      [(some { terms := [(0, 1), (2, -1)] }, ExtRat.negInf, ExtRat.fin 4),
       (some { terms := [(0, 1)] }, ExtRat.fin 2, ExtRat.fin 2),
       (some { terms := [(1, 1), (2, -1)] }, ExtRat.negInf, ExtRat.fin 1),
       (some { terms := [(0, 1), (1, 1), (2, 1)] }, ExtRat.fin 1, ExtRat.posInf),
       (some { terms := [(0, 1), (1, 1), (2, -1)] }, ExtRat.negInf, ExtRat.fin 3)] :=
  ⟨findCenter_eta_problem Examples.splitProblem (by
      intro c hc
      simp only [Examples.splitProblem, List.mem_cons, List.mem_singleton,
        List.not_mem_nil, or_false] at hc
      rcases hc with h | h | h | h <;> subst h <;> simp),
   by decide!⟩


/-! ### Root linearization scheme 1 on the parabola -/

theorem Linearizations.rs1Loop_mono (con : Constraint) (lVarIdx nVarIdx : Nat)
    (consUb stopCond : ℚ) :
    ∀ (fuel : Nat) (s : Linearizations) (st : Linearizations.RS1State) (i : Nat) (maxVio : ℚ)
      (newConId : Nat) (r : Linearizations),
      Linearizations.rs1Loop con lVarIdx nVarIdx consUb stopCond fuel s st i maxVio newConId
        = some r →
      ∀ extra : Nat,
        Linearizations.rs1Loop con lVarIdx nVarIdx consUb stopCond (fuel + extra) s st i maxVio
          newConId = some r := by
  intro fuel
  induction fuel with
  | zero =>
    intro s st i maxVio newConId r h extra
    unfold Linearizations.rs1Loop at h
    split_ifs at h with hc
    cases extra with
    | zero =>
      unfold Linearizations.rs1Loop
      rw [if_neg hc]
      exact h
    | succ extra =>
      rw [Nat.zero_add]
      unfold Linearizations.rs1Loop
      rw [if_neg hc]
      exact h
  | succ fuel ih =>
    intro s st i maxVio newConId r h extra
    have hf : fuel + 1 + extra = (fuel + extra) + 1 := by omega
    rw [hf]
    unfold Linearizations.rs1Loop at h ⊢
    dsimp only at h ⊢
    split_ifs at h ⊢ <;> first | exact h | exact ih _ _ _ _ _ _ h extra

/-- C25, counterexample: with `rs1 = 5` on the constraint `x0 * x0 - x1 ≤ 0`, `x0` in
[-2, 3] and `x1` free (both tolerances 1e-6), `rootLinScheme1_` returns after seven
passes of its loop test and has added nine cuts to the relaxation, not three. -/
theorem rootLinScheme1_adds_nine_cuts :
    (Linearizations.rootLinScheme1_ Examples.linP 7 Examples.paraCon (-1) 1 0 0).map
      (fun s => (s.rel_.cons.length, s.stats_.rs1Cuts)) = some (9, 9) := by
  decide!


theorem Linearizations.rootLinScheme1_mono (s : Linearizations) (fuel : Nat) (con : Constraint)
    (lVarCoeff : ℚ) (lVarIdx nVarIdx : Nat) (nVarCoeff : ℚ) (r : Linearizations)
    (h : s.rootLinScheme1_ fuel con lVarCoeff lVarIdx nVarIdx nVarCoeff = some r)
    (extra : Nat) :
    s.rootLinScheme1_ (fuel + extra) con lVarCoeff lVarIdx nVarIdx nVarCoeff = some r := by
  unfold Linearizations.rootLinScheme1_ at h ⊢
  cases hinit : s.rs1Init con lVarCoeff lVarIdx nVarIdx nVarCoeff with
  | inl s1 =>
    rw [hinit] at h
    exact h
  | inr a =>
    rw [hinit] at h
    exact Linearizations.rs1Loop_mono _ _ _ _ _ _ _ _ _ _ _ _ h extra

/-- C25 as amended: with `rs1 = 5` on the constraint `x0 * x0 - x1 ≤ 0`, `x0` in [-2, 3] and
`x1` free, `rootLinScheme1_` returns (seven passes of its loop test suffice, and a
larger bound changes nothing) and has added exactly nine cuts, the tangents
`2 * a * x0 - x1 ≤ a * a` at `a = -2`, `3`, at the intersection `1/2` of these two, and
then at `-3/4`, `7/4`, `-11/8`, `-1/8`, `9/8`, `19/8`: it adds tangents until the largest
violation at a vertex is below `rs1 / 100` times the violation 25/4 at the first
intersection point. -/
theorem rootLinScheme1_parabola_cuts (extra : Nat) :
    (Linearizations.rootLinScheme1_ Examples.linP (7 + extra) Examples.paraCon (-1) 1 0 0).map
        (fun s => s.rel_.cons.map LinConstraint.row) =
      some [({ terms := [(0, -4), (1, -1)] }, ExtRat.negInf, ExtRat.fin 4),
            ({ terms := [(0, 6), (1, -1)] }, ExtRat.negInf, ExtRat.fin 9),
            ({ terms := [(0, 1), (1, -1)] }, ExtRat.negInf, ExtRat.fin (1 / 4)),
            ({ terms := [(0, -3 / 2), (1, -1)] }, ExtRat.negInf, ExtRat.fin (9 / 16)),
            ({ terms := [(0, 7 / 2), (1, -1)] }, ExtRat.negInf, ExtRat.fin (49 / 16)),
            ({ terms := [(0, -11 / 4), (1, -1)] }, ExtRat.negInf, ExtRat.fin (121 / 64)),
            ({ terms := [(0, -1 / 4), (1, -1)] }, ExtRat.negInf, ExtRat.fin (1 / 64)),
            ({ terms := [(0, 9 / 4), (1, -1)] }, ExtRat.negInf, ExtRat.fin (81 / 64)),
            ({ terms := [(0, 19 / 4), (1, -1)] }, ExtRat.negInf, ExtRat.fin (361 / 64))] := by
  have h7 : (Linearizations.rootLinScheme1_ Examples.linP 7 Examples.paraCon (-1) 1 0 0).map
        (fun s => s.rel_.cons.map LinConstraint.row) =
      some [({ terms := [(0, -4), (1, -1)] }, ExtRat.negInf, ExtRat.fin 4),
            ({ terms := [(0, 6), (1, -1)] }, ExtRat.negInf, ExtRat.fin 9),
            ({ terms := [(0, 1), (1, -1)] }, ExtRat.negInf, ExtRat.fin (1 / 4)),
            ({ terms := [(0, -3 / 2), (1, -1)] }, ExtRat.negInf, ExtRat.fin (9 / 16)),
            ({ terms := [(0, 7 / 2), (1, -1)] }, ExtRat.negInf, ExtRat.fin (49 / 16)),
            ({ terms := [(0, -11 / 4), (1, -1)] }, ExtRat.negInf, ExtRat.fin (121 / 64)),
            ({ terms := [(0, -1 / 4), (1, -1)] }, ExtRat.negInf, ExtRat.fin (1 / 64)),
            ({ terms := [(0, 9 / 4), (1, -1)] }, ExtRat.negInf, ExtRat.fin (81 / 64)),
            ({ terms := [(0, 19 / 4), (1, -1)] }, ExtRat.negInf, ExtRat.fin (361 / 64))] := by
    decide!
  cases hr : Linearizations.rootLinScheme1_ Examples.linP 7 Examples.paraCon (-1) 1 0 0 with
  | none =>
    rw [hr] at h7
    cases h7
  | some r =>
    rw [Linearizations.rootLinScheme1_mono _ _ _ _ _ _ _ r hr extra]
    rw [hr] at h7
    exact h7


/-! ### The two overloads of `fixedNLP` -/

/-- C40, counterexample: when the NLP engine reports `ProvenInfeasible`, `fixedNLP(lpx)`
returns true and `fixedNLP(lpx, _)` returns false. -/
theorem fixedNLP_overloads_differ_on_infeasible :
    (Examples.handlerInf.nlpe_.run (Examples.handlerInf.fixInts_ [2, 0]).minlp_).1 =
      EngineStatus.ProvenInfeasible ∧
    (Examples.handlerInf.fixedNLP [2, 0]).2 = true ∧
    (Examples.handlerInf.fixedNLP2 [2, 0] []).2 = false := by
  refine ⟨rfl, ?_, ?_⟩
  · decide!
  · decide!

/-- C40 as amended: with `st` the status the NLP engine reports on the problem with
fixed integers, the two overloads of `fixedNLP` leave the same state for every
status; `fixedNLP(lpx, _)` returns true exactly when `st` is `ProvenOptimal` or
`ProvenLocalOptimal`, and `fixedNLP(lpx)` returns true exactly when `st` is one of
these or `ProvenInfeasible`, `ProvenLocalInfeasible`, `ProvenObjectiveCutOff`,
`EngineIterationLimit`; so they return the same boolean for every status but
these four. -/
theorem fixedNLP_overloads_same_state (s : STOAHandler) (lpx x : List ℚ) :
    (s.fixedNLP lpx).1 = (s.fixedNLP2 lpx x).1 ∧
    (s.fixedNLP2 lpx x).2 =
      decide ((s.nlpe_.run (s.fixInts_ lpx).minlp_).1 = EngineStatus.ProvenOptimal ∨
        (s.nlpe_.run (s.fixInts_ lpx).minlp_).1 = EngineStatus.ProvenLocalOptimal) ∧
    (s.fixedNLP lpx).2 =
      decide ((s.nlpe_.run (s.fixInts_ lpx).minlp_).1 = EngineStatus.ProvenOptimal ∨
        (s.nlpe_.run (s.fixInts_ lpx).minlp_).1 = EngineStatus.ProvenLocalOptimal ∨
        (s.nlpe_.run (s.fixInts_ lpx).minlp_).1 = EngineStatus.ProvenInfeasible ∨
        (s.nlpe_.run (s.fixInts_ lpx).minlp_).1 = EngineStatus.ProvenLocalInfeasible ∨
        (s.nlpe_.run (s.fixInts_ lpx).minlp_).1 = EngineStatus.ProvenObjectiveCutOff ∨
        (s.nlpe_.run (s.fixInts_ lpx).minlp_).1 = EngineStatus.EngineIterationLimit) := by
  unfold STOAHandler.fixedNLP STOAHandler.fixedNLP2
  simp only [STOAHandler.fixInts_, STOAHandler.solveNLP_, STOAHandler.unfixInts_, Engine.solve]
  split <;> rename_i hst <;> simp only [hst] <;> simp
  rename_i h1 h2 h3 h4 h5
  exact ⟨⟨h1, h2⟩, h1, h2, h3, h4, h5, hst⟩

/-- Witness of C40: on the example handler, whose engine reports `ProvenOptimal`, both
overloads return true and leave the same state. -/
theorem fixedNLP_overloads_same_state_witness :
    (Examples.handler.fixedNLP [23 / 10, 2 / 5]).1 =
      (Examples.handler.fixedNLP2 [23 / 10, 2 / 5] []).1 ∧
    (Examples.handler.fixedNLP [23 / 10, 2 / 5]).2 = true ∧
    (Examples.handler.fixedNLP2 [23 / 10, 2 / 5] []).2 = true :=
  ⟨(fixedNLP_overloads_same_state Examples.handler [23 / 10, 2 / 5] []).1,
   by rw [(fixedNLP_overloads_same_state Examples.handler [23 / 10, 2 / 5] []).2.2]; rfl,
   by rw [(fixedNLP_overloads_same_state Examples.handler [23 / 10, 2 / 5] []).2.1]; rfl⟩

/-! ### The center -/

/-- C31: after `findCenter`, with `r` the answer of the NLP engine on the problem it
built: when the status is `ProvenOptimal` or `ProvenLocalOptimal` and the objective
value is strictly negative, `solC_` holds the first `n` entries of the primal, `n`
the number of variables of the source problem; when the status is one of these
two and the value is not negative, no center is stored; for every other status
`solC_` is what it was.  Hence, entered without a center, `findCenter` leaves a
center exactly when the status is one of the two and the value is negative. -/
theorem findCenter_center_iff (s : Linearizations) (inst : SplitProblem)
    (nlpe : SplitProblem → EngineStatus × Solution) :
    (s.findCenter inst nlpe).solC_ =
      (if (nlpe (Linearizations.findCenterProblem inst)).1 = EngineStatus.ProvenOptimal ∨
          (nlpe (Linearizations.findCenterProblem inst)).1 = EngineStatus.ProvenLocalOptimal then
        if (nlpe (Linearizations.findCenterProblem inst)).2.objValue < 0 then
          some ((List.range s.minlp_.vars.length).map
            (fun i => (nlpe (Linearizations.findCenterProblem inst)).2.primal.getD i 0))
        else none
      else s.solC_) ∧
    (s.solC_ = none →
      ((s.findCenter inst nlpe).solC_.isSome = true ↔
        (((nlpe (Linearizations.findCenterProblem inst)).1 = EngineStatus.ProvenOptimal ∨
            (nlpe (Linearizations.findCenterProblem inst)).1 = EngineStatus.ProvenLocalOptimal) ∧
          (nlpe (Linearizations.findCenterProblem inst)).2.objValue < 0))) := by
  have h1 : (s.findCenter inst nlpe).solC_ =
      (if (nlpe (Linearizations.findCenterProblem inst)).1 = EngineStatus.ProvenOptimal ∨
          (nlpe (Linearizations.findCenterProblem inst)).1 = EngineStatus.ProvenLocalOptimal then
        if (nlpe (Linearizations.findCenterProblem inst)).2.objValue < 0 then
          some ((List.range s.minlp_.vars.length).map
            (fun i => (nlpe (Linearizations.findCenterProblem inst)).2.primal.getD i 0))
        else none
      else s.solC_) := by
    unfold Linearizations.findCenter
    dsimp only
    split_ifs <;> rfl
  refine ⟨h1, ?_⟩
  intro hnone
  rw [h1, hnone]
  split_ifs with ha hb
  · simp [ha, hb]
  · simp [hb]
  · simp [ha]


/-- Witness of C31: the example generator has no center; with an engine that reports
`ProvenOptimal` with value -1/2 at (1/4, 1/4, -1/2) the center is (1/4, 1/4). -/
theorem findCenter_center_iff_witness :
    Examples.lin.solC_ = none ∧
    (Examples.lin.findCenter Examples.splitProblem Examples.centerEngine).solC_ =
      some [1 / 4, 1 / 4] ∧
    (Examples.lin.findCenter Examples.splitProblem Examples.centerEngine).solC_.isSome = true :=
  ⟨rfl, by decide!,
   ((findCenter_center_iff Examples.lin Examples.splitProblem Examples.centerEngine).2 rfl).mpr
     ⟨Or.inl rfl, by norm_num [Examples.centerEngine]⟩⟩


/-! ### Intersection points by Cramer's rule -/

/-- C37: with `a, b, e` the weights of the linear and the nonlinear variable and the upper
bound of the first cut and `c, d, f` those of the second, `findIntersectPt_` returns
true with `a * iP[1] + b * iP[0] = e` and `c * iP[1] + d * iP[0] = f` when the determinant
`a * d - b * c` is non-zero, and returns false with `iP` untouched when it is zero.
With `(x1, y1)`, `(x2, y2)` the list points `j` and `i` and `c, d, f` the weights of the
nonlinear and the linear variable and the upper bound of the new cut,
`insertNewPt_` inserts at position `j` a point `(x, y)` with `c * x + d * y = f` that
lies on the line `(y1 - y2) * X + (x2 - x1) * Y = y1 * (x2 - x1) - x1 * (y2 - y1)`, which
passes through both list points, and leaves `shouldCont` as it is, when the
determinant is non-zero; when it is zero it inserts nothing and sets `shouldCont`
to false. -/
theorem cramer_points_on_both_lines :
    (∀ (s : Linearizations) (newConsId : List Nat) (vl vnl : Nat) (iP : ℚ × ℚ)
      (a b e c d f : ℚ),
      a = (s.rel_.getConstraint (newConsId.getD 0 0)).lf.getWeight vl →
      b = (s.rel_.getConstraint (newConsId.getD 0 0)).lf.getWeight vnl →
      e = (s.rel_.getConstraint (newConsId.getD 0 0)).ub.toRat →
      c = (s.rel_.getConstraint (newConsId.getD 1 0)).lf.getWeight vl →
      d = (s.rel_.getConstraint (newConsId.getD 1 0)).lf.getWeight vnl →
      f = (s.rel_.getConstraint (newConsId.getD 1 0)).ub.toRat →
      (a * d - b * c ≠ 0 →
        (s.findIntersectPt_ newConsId vl vnl iP).1 = true ∧
        a * (s.findIntersectPt_ newConsId vl vnl iP).2.2 +
          b * (s.findIntersectPt_ newConsId vl vnl iP).2.1 = e ∧
        c * (s.findIntersectPt_ newConsId vl vnl iP).2.2 +
          d * (s.findIntersectPt_ newConsId vl vnl iP).2.1 = f) ∧
      (a * d - b * c = 0 → s.findIntersectPt_ newConsId vl vnl iP = (false, iP))) ∧
    (∀ (j i : Nat) (xc yc : List ℚ) (newcon : LinConstraint) (vl vnl : Nat)
      (shouldCont : Bool) (x1 y1 x2 y2 c d f : ℚ),
      x1 = xc.getD j 0 → y1 = yc.getD j 0 → x2 = xc.getD i 0 → y2 = yc.getD i 0 →
      c = newcon.lf.getWeight vnl → d = newcon.lf.getWeight vl → f = newcon.ub.toRat →
      ((y1 - y2) * d - (x2 - x1) * c ≠ 0 →
        ∃ x y : ℚ,
          Linearizations.insertNewPt_ j i xc yc newcon vl vnl shouldCont =
            (vecInsert xc j x, vecInsert yc j y, shouldCont) ∧
          c * x + d * y = f ∧
          (y1 - y2) * x + (x2 - x1) * y = y1 * (x2 - x1) - x1 * (y2 - y1) ∧
          (y1 - y2) * x1 + (x2 - x1) * y1 = y1 * (x2 - x1) - x1 * (y2 - y1) ∧
          (y1 - y2) * x2 + (x2 - x1) * y2 = y1 * (x2 - x1) - x1 * (y2 - y1)) ∧
      ((y1 - y2) * d - (x2 - x1) * c = 0 →
        Linearizations.insertNewPt_ j i xc yc newcon vl vnl shouldCont = (xc, yc, false))) := by
  constructor
  · intro s newConsId vl vnl iP a b e c d f ha hb he hc hd hf
    constructor
    · intro hdet
      have hdet1 : (s.rel_.getConstraint (newConsId.getD 0 0)).lf.getWeight vl *
            (s.rel_.getConstraint (newConsId.getD 1 0)).lf.getWeight vnl -
          (s.rel_.getConstraint (newConsId.getD 0 0)).lf.getWeight vnl *
            (s.rel_.getConstraint (newConsId.getD 1 0)).lf.getWeight vl ≠ 0 := by
        rw [← ha, ← hb, ← hc, ← hd]
        exact hdet
      unfold Linearizations.findIntersectPt_
      simp only [if_pos hdet1]
      rw [← ha, ← hb, ← hc, ← hd, ← he, ← hf]
      refine ⟨trivial, ?_, ?_⟩
      · field_simp
        ring
      · field_simp
        ring
    · intro hdet
      have hdet1 : ¬ ((s.rel_.getConstraint (newConsId.getD 0 0)).lf.getWeight vl *
            (s.rel_.getConstraint (newConsId.getD 1 0)).lf.getWeight vnl -
          (s.rel_.getConstraint (newConsId.getD 0 0)).lf.getWeight vnl *
            (s.rel_.getConstraint (newConsId.getD 1 0)).lf.getWeight vl ≠ 0) := by
        rw [← ha, ← hb, ← hc, ← hd]
        exact not_not.mpr hdet
      unfold Linearizations.findIntersectPt_
      simp only [if_neg hdet1]
  · intro j i xc yc newcon vl vnl shouldCont x1 y1 x2 y2 c d f hx1 hy1 hx2 hy2 hc hd hf
    constructor
    · intro hdet
      have hdet1 : (yc.getD j 0 - yc.getD i 0) * newcon.lf.getWeight vl -
          (xc.getD i 0 - xc.getD j 0) * newcon.lf.getWeight vnl ≠ 0 := by
        rw [← hx1, ← hy1, ← hx2, ← hy2, ← hc, ← hd]
        exact hdet
      unfold Linearizations.insertNewPt_
      simp only [if_pos hdet1]
      rw [← hx1, ← hy1, ← hx2, ← hy2, ← hc, ← hd, ← hf]
      refine ⟨_, _, rfl, ?_, ?_, by ring, by ring⟩
      · field_simp
        ring
      · field_simp
        ring
    · intro hdet
      have hdet1 : ¬ ((yc.getD j 0 - yc.getD i 0) * newcon.lf.getWeight vl -
          (xc.getD i 0 - xc.getD j 0) * newcon.lf.getWeight vnl ≠ 0) := by
        rw [← hx1, ← hy1, ← hx2, ← hy2, ← hc, ← hd]
        exact not_not.mpr hdet
      unfold Linearizations.insertNewPt_
      simp only [if_neg hdet1]


/-- Witness of C37: the two end-point tangents of the parabola, `-4 * x0 - x1 ≤ 4` and
`6 * x0 - x1 ≤ 9`, meet at `x0 = 1/2`, `x1 = -6`. -/
theorem cramer_points_on_both_lines_witness :
    Examples.linP2.findIntersectPt_ [0, 1] 1 0 (0, 0) = (true, (1 / 2, -6)) ∧
    (-1 : ℚ) * (Examples.linP2.findIntersectPt_ [0, 1] 1 0 (0, 0)).2.2 +
      (-4) * (Examples.linP2.findIntersectPt_ [0, 1] 1 0 (0, 0)).2.1 = 4 :=
  ⟨by decide!,
   ((cramer_points_on_both_lines.1 Examples.linP2 [0, 1] 1 0 (0, 0) (-1) (-4) 4 (-1) 6 9
      (by decide!) (by decide!) (by decide!) (by decide!) (by decide!) (by decide!)).1
      (by norm_num)).2.1⟩

/-! ### Step size -/

theorem Linearizations.addNewCut_keeps (s : Linearizations) (b1 : List ℚ) (con : Constraint)
    (newConId : Nat) :
    (s.addNewCut_ b1 con newConId).1.solAbsTol_ = s.solAbsTol_ ∧
    (s.addNewCut_ b1 con newConId).1.solRelTol_ = s.solRelTol_ ∧
    (s.addNewCut_ b1 con newConId).1.rs1_ = s.rs1_ ∧
    s.rel_.cons <+: (s.addNewCut_ b1 con newConId).1.rel_.cons := by
  have h1 : (s.addNewCut_ b1 con newConId).1 = (s.addCutAtRoot_ b1 con newConId).1 := by
    unfold Linearizations.addNewCut_
    dsimp only
    split_ifs <;> rfl
  rw [h1]
  unfold Linearizations.addCutAtRoot_
  cases hev : con.f.eval b1 with
  | none => simp
  | some act =>
    simp only []
    cases hl : s.linearAt_ con.f act b1 with
    | none => simp
    | some r => simp [Relaxation.newConstraint]

theorem Linearizations.rs1Loop_prefix (con : Constraint) (lVarIdx nVarIdx : Nat)
    (consUb stopCond : ℚ) :
    ∀ (fuel : Nat) (s : Linearizations) (st : Linearizations.RS1State) (i : Nat) (maxVio : ℚ)
      (newConId : Nat) (r : Linearizations),
      Linearizations.rs1Loop con lVarIdx nVarIdx consUb stopCond fuel s st i maxVio newConId
        = some r →
      s.rel_.cons <+: r.rel_.cons := by
  intro fuel
  induction fuel with
  | zero =>
    intro s st i maxVio newConId r h
    unfold Linearizations.rs1Loop at h
    split_ifs at h
    cases h
    exact List.prefix_refl _
  | succ fuel ih =>
    intro s st i maxVio newConId r h
    have hp := (Linearizations.addNewCut_keeps s (st.b1.set nVarIdx (st.xc.getD i 0)) con
      newConId).2.2.2
    unfold Linearizations.rs1Loop at h
    dsimp only at h
    split_ifs at h
    all_goals first
      | (cases h; exact List.prefix_refl _)
      | (cases h; exact hp)
      | exact List.IsPrefix.trans hp (ih _ _ _ _ _ _ h)

/-- C36, counterexample: on the parabola example (`ub = 0`, `rs1 = 5`, `absTol = 1e-6`) the
loop is entered with the threshold `stopCond = 5/16`, which is 5% of the violation
25/4 at the first intersection point, while `rs1 / 100 * max(|ub|, absTol)` is
`5e-8`; with its own threshold the loop has ended at the seventh pass of its test,
and with the threshold of the claim it has not: the scheme stops adding
tangents while the maximum violation is still above the claimed threshold. -/
theorem rootLinScheme1_stops_above_claimed_threshold :
    (match Examples.linP.rs1Init Examples.paraCon (-1) 1 0 0 with
      | Sum.inr a =>
        decide (a.stopCond = 5 / 16 ∧ a.maxVio = 25 / 4 ∧
          Examples.linP.rs1_ / 100 * max |Examples.paraCon.ub| Examples.linP.solAbsTol_ =
            1 / 20000000) &&
        (Linearizations.rs1Loop Examples.paraCon 1 0 a.consUb a.stopCond 7 a.s a.st a.i
          a.maxVio a.newConId).isSome &&
        (Linearizations.rs1Loop Examples.paraCon 1 0 a.consUb
          (Examples.linP.rs1_ / 100 * max |Examples.paraCon.ub| Examples.linP.solAbsTol_)
          7 a.s a.st a.i a.maxVio a.newConId).isNone
      | Sum.inl _ => false) = true := by
  decide!


theorem maxElementLoop_spec (l : List ℚ) :
    ∀ (pre : List ℚ) (i : Nat) (m : ℚ), i < pre.length → pre.getD i 0 = m →
      (∀ x ∈ pre, x ≤ m) →
      (maxElementLoop l pre.length (i, m)).1 < (pre ++ l).length ∧
      (pre ++ l).getD (maxElementLoop l pre.length (i, m)).1 0 =
        (maxElementLoop l pre.length (i, m)).2 ∧
      ∀ x ∈ pre ++ l, x ≤ (maxElementLoop l pre.length (i, m)).2 := by
  induction l with
  | nil =>
    intro pre i m hi hm hle
    simp only [maxElementLoop, List.append_nil]
    exact ⟨hi, hm, hle⟩
  | cons a l ih =>
    intro pre i m hi hm hle
    have hlen : (pre ++ [a]).length = pre.length + 1 := by simp
    have happ : pre ++ a :: l = (pre ++ [a]) ++ l := by simp
    unfold maxElementLoop
    split_ifs with hlt
    · have := ih (pre ++ [a]) pre.length a (by rw [hlen]; omega)
        (by simp [List.getD_eq_getElem?_getD])
        (by
          intro x hx
          rcases List.mem_append.mp hx with h | h
          · exact le_of_lt (lt_of_le_of_lt (hle x h) hlt)
          · simp only [List.mem_singleton] at h
            rw [h])
      rw [hlen] at this
      rw [happ]
      exact this
    · have := ih (pre ++ [a]) i m (by rw [hlen]; omega)
        (by
          rw [List.getD_eq_getElem?_getD, List.getElem?_append_left hi,
            ← List.getD_eq_getElem?_getD]
          exact hm)
        (by
          intro x hx
          rcases List.mem_append.mp hx with h | h
          · exact hle x h
          · simp only [List.mem_singleton] at h
            rw [h]
            exact not_lt.mp hlt)
      rw [hlen] at this
      rw [happ]
      exact this

theorem maxElement_spec (v : List ℚ) (hv : v ≠ []) :
    (maxElement v).1 < v.length ∧ v.getD (maxElement v).1 0 = (maxElement v).2 ∧
    ∀ x ∈ v, x ≤ (maxElement v).2 := by
  cases v with
  | nil => exact absurd rfl hv
  | cons a l =>
    have := maxElementLoop_spec l [a] 0 a (by simp) (by simp) (by simp)
    simpa [maxElement] using this

theorem Linearizations.rs1Init_threshold (s : Linearizations) (con : Constraint) (lVarCoeff : ℚ)
    (lVarIdx nVarIdx : Nat) (nVarCoeff : ℚ) (a : Linearizations.RS1Start)
    (h : s.rs1Init con lVarCoeff lVarIdx nVarIdx nVarCoeff = Sum.inr a) :
    a.consUb = con.ub ∧
    a.stopCond = (if |con.ub| > a.s.solAbsTol_ then con.ub * a.s.rs1_ / 100
      else a.maxVio * a.s.rs1_ / 100) ∧
    ¬ (a.stopCond < a.s.solAbsTol_ ∨ (con.ub ≠ 0 ∧ a.stopCond < |con.ub| * a.s.solRelTol_)) ∧
    a.st.linVioVal = [0, a.maxVio, 0] ∧ a.i = 1 ∧ 0 ≤ a.maxVio := by
  unfold Linearizations.rs1Init at h
  lift_lets at h
  extract_lets at h
  split_ifs at h with h1 h2 h3 h4 h5 h6
  all_goals
    split at h
    · cases h
    · lift_lets at h
      extract_lets at h
      split at h
      · cases h
      · rename_i hstop
        cases h
        refine ⟨?_, ?_, ?_, ?_, ?_, ?_⟩
        · rfl
        · split_ifs with hc
          · first | rfl | exact absurd hc h6
          · rfl
        · exact hstop
        · rfl
        · rfl
        · exact le_max_right _ _

theorem maxElement_le (v : List ℚ) : ∀ x ∈ v, x ≤ (maxElement v).2 := by
  cases v with
  | nil => intro x hx; cases hx
  | cons a l => exact (maxElement_spec (a :: l) (List.cons_ne_nil a l)).2.2

/-- C36, amended: when `rootLinScheme1_` reaches its loop, the threshold `stopCond` is
`ub * rs1 / 100` if `|ub| > absTol` and otherwise `rs1 / 100` times the violation at
the intersection point of the two end cuts, and it is not below the tolerances;
the scheme then is its loop run from that start.  Whenever the loop test is
reached with a maximum violation below `stopCond` the scheme stops with no further
cut; whenever it is reached with a maximum violation of at least `stopCond`, a
tangent is attempted at the current point and then either the scheme stops with
that state, or the loop is entered again at the first point of largest
violation in the updated list. -/
theorem rootLinScheme1_stopping_rule (s : Linearizations) (con : Constraint) (lVarCoeff : ℚ)
    (lVarIdx nVarIdx : Nat) (nVarCoeff : ℚ) (a : Linearizations.RS1Start)
    (h : s.rs1Init con lVarCoeff lVarIdx nVarIdx nVarCoeff = Sum.inr a) :
    a.stopCond = (if |con.ub| > a.s.solAbsTol_ then con.ub * a.s.rs1_ / 100
      else a.maxVio * a.s.rs1_ / 100) ∧
    ¬ (a.stopCond < a.s.solAbsTol_ ∨ (con.ub ≠ 0 ∧ a.stopCond < |con.ub| * a.s.solRelTol_)) ∧
    (∀ fuel, s.rootLinScheme1_ fuel con lVarCoeff lVarIdx nVarIdx nVarCoeff =
      Linearizations.rs1Loop con lVarIdx nVarIdx a.consUb a.stopCond fuel a.s a.st a.i a.maxVio
        a.newConId) ∧
    (∀ (fuel : Nat) (s1 : Linearizations) (st : Linearizations.RS1State) (i : Nat) (maxVio : ℚ)
      (newConId : Nat), maxVio < a.stopCond →
      Linearizations.rs1Loop con lVarIdx nVarIdx a.consUb a.stopCond fuel s1 st i maxVio newConId
        = some s1) ∧
    (∀ (fuel : Nat) (s1 : Linearizations) (st : Linearizations.RS1State) (i : Nat) (maxVio : ℚ)
      (newConId : Nat), a.stopCond ≤ maxVio →
      Linearizations.rs1Loop con lVarIdx nVarIdx a.consUb a.stopCond (fuel + 1) s1 st i maxVio
          newConId
        = some (s1.addNewCut_ (st.b1.set nVarIdx (st.xc.getD i 0)) con newConId).1 ∨
      ∃ st2 : Linearizations.RS1State,
        (∀ x ∈ st2.linVioVal, x ≤ (maxElement st2.linVioVal).2) ∧
        (st2.linVioVal ≠ [] →
          st2.linVioVal.getD (maxElement st2.linVioVal).1 0 = (maxElement st2.linVioVal).2) ∧
        Linearizations.rs1Loop con lVarIdx nVarIdx a.consUb a.stopCond (fuel + 1) s1 st i maxVio
            newConId
          = Linearizations.rs1Loop con lVarIdx nVarIdx a.consUb a.stopCond fuel
              (s1.addNewCut_ (st.b1.set nVarIdx (st.xc.getD i 0)) con newConId).1 st2
              (maxElement st2.linVioVal).1 (maxElement st2.linVioVal).2
              (s1.addNewCut_ (st.b1.set nVarIdx (st.xc.getD i 0)) con newConId).2.2) := by
  have ht := Linearizations.rs1Init_threshold s con lVarCoeff lVarIdx nVarIdx nVarCoeff a h
  refine ⟨ht.2.1, ht.2.2.1, ?_, ?_, ?_⟩
  · intro fuel
    unfold Linearizations.rootLinScheme1_
    rw [h]
  · intro fuel s1 st i maxVio newConId hlt
    cases fuel with
    | zero =>
      unfold Linearizations.rs1Loop
      rw [if_neg (not_le.mpr hlt)]
    | succ fuel =>
      unfold Linearizations.rs1Loop
      rw [if_neg (not_le.mpr hlt)]
  · intro fuel s1 st i maxVio newConId hge
    generalize hL : Linearizations.rs1Loop con lVarIdx nVarIdx a.consUb a.stopCond (fuel + 1) s1
      st i maxVio newConId = L
    unfold Linearizations.rs1Loop at hL
    rw [if_pos hge] at hL
    dsimp only at hL
    split_ifs at hL
    all_goals first
      | exact Or.inl hL.symm
      | exact Or.inr ⟨_, maxElement_le _, fun hne => (maxElement_spec _ hne).2.1, hL.symm⟩

theorem rootLinScheme1_stopping_rule_witness :
    ∃ a, Examples.linP.rs1Init Examples.paraCon (-1) 1 0 0 = Sum.inr a ∧
      a.stopCond = (if |Examples.paraCon.ub| > a.s.solAbsTol_ then
        Examples.paraCon.ub * a.s.rs1_ / 100 else a.maxVio * a.s.rs1_ / 100) :=
  match h : Examples.linP.rs1Init Examples.paraCon (-1) 1 0 0 with
  | Sum.inr a => ⟨a, rfl, (rootLinScheme1_stopping_rule Examples.linP Examples.paraCon (-1) 1 0 0
      a h).1⟩
  | Sum.inl _ => by
    have hr : (Examples.linP.rs1Init Examples.paraCon (-1) 1 0 0).isRight = true := by decide!
    rw [h] at hr
    cases hr


/-! ### The variables of the nonlinear constraints -/

/-- C34, the code at the failing input: for the problem whose only constraint is
`x0 * x1 ≤ 1`, `varsInNonlinCons_` leaves `varPtrs_` with `x0` only; the variable
`x1` of the bilinear term is in the quadratic part of the constraint and is not
in the list. -/
theorem varsInNonlinCons_misses_second_variable :
    Examples.linB.varsInNonlinCons_.varPtrs_ = [0] ∧
    (1 ∈ Examples.bilinCon.qfVars ∧ 1 ∉ Examples.linB.varsInNonlinCons_.varPtrs_) := by
  decide

/-! ### The test for a univariate nonlinear part -/

theorem Linearizations.uniVarLfLoop_found (tol : ℚ) (nVarIdx : Nat) (terms : List (Nat × ℚ)) :
    ∀ st : Linearizations.UniVarLoop, st.foundVar = true →
      (Linearizations.uniVarLfLoop tol nVarIdx terms st).foundVar = true ∧
      (Linearizations.uniVarLfLoop tol nVarIdx terms st).lVarIdx = st.lVarIdx ∧
      (Linearizations.uniVarLfLoop tol nVarIdx terms st).lVarCoeff = st.lVarCoeff := by
  induction terms with
  | nil => intro st h; exact ⟨h, rfl, rfl⟩
  | cons t rest ih =>
    intro st h
    obtain ⟨idx, coeff⟩ := t
    unfold Linearizations.uniVarLfLoop
    by_cases hi : idx = nVarIdx
    · rw [if_pos hi]
      exact ih { st with foundNVar := true, nVarCoeff := coeff } h
    · rw [if_neg hi]
      have hst : (if |coeff| > tol ∧ st.foundVar = false then
          ({ st with lVarIdx := idx, foundVar := true, lVarCoeff := coeff } :
            Linearizations.UniVarLoop)
          else st) = st := by
        rw [if_neg]
        intro hc
        rw [h] at hc
        exact Bool.noConfusion hc.2
      simp only [hst]
      split_ifs
      · exact ⟨h, rfl, rfl⟩
      · exact ih _ h

theorem Linearizations.uniVarLfLoop_first (tol : ℚ) (nVarIdx : Nat) (terms : List (Nat × ℚ)) :
    ∀ st : Linearizations.UniVarLoop, st.foundVar = false →
      (Linearizations.uniVarLfLoop tol nVarIdx terms st).foundVar = true →
      ∃ pre post, terms = pre ++
          ((Linearizations.uniVarLfLoop tol nVarIdx terms st).lVarIdx,
            (Linearizations.uniVarLfLoop tol nVarIdx terms st).lVarCoeff) :: post ∧
        (Linearizations.uniVarLfLoop tol nVarIdx terms st).lVarIdx ≠ nVarIdx ∧
        |(Linearizations.uniVarLfLoop tol nVarIdx terms st).lVarCoeff| > tol ∧
        ∀ t ∈ pre, t.1 = nVarIdx ∨ |t.2| ≤ tol := by
  induction terms with
  | nil =>
    intro st h hr
    unfold Linearizations.uniVarLfLoop at hr
    rw [h] at hr
    exact Bool.noConfusion hr
  | cons t rest ih =>
    intro st h hr
    obtain ⟨idx, coeff⟩ := t
    unfold Linearizations.uniVarLfLoop at hr ⊢
    by_cases hi : idx = nVarIdx
    · rw [if_pos hi] at hr ⊢
      obtain ⟨pre, post, he, hne, hgt, hpre⟩ :=
        ih { st with foundNVar := true, nVarCoeff := coeff } h hr
      refine ⟨(idx, coeff) :: pre, post, ?_, hne, hgt, ?_⟩
      · rw [List.cons_append, ← he]
      · intro t ht
        rcases List.mem_cons.mp ht with h1 | h1
        · rw [h1]; exact Or.inl hi
        · exact hpre t h1
    · rw [if_neg hi] at hr ⊢
      by_cases hc : |coeff| > tol
      · have hst : (if |coeff| > tol ∧ st.foundVar = false then
            ({ st with lVarIdx := idx, foundVar := true, lVarCoeff := coeff } :
              Linearizations.UniVarLoop)
            else st) = { st with lVarIdx := idx, foundVar := true, lVarCoeff := coeff } :=
          if_pos ⟨hc, h⟩
        simp only [hst] at hr ⊢
        have hf := Linearizations.uniVarLfLoop_found tol nVarIdx rest
          { st with lVarIdx := idx, foundVar := true, lVarCoeff := coeff } rfl
        split_ifs
        · exact ⟨[], rest, rfl, hi, hc, fun t ht => absurd ht (List.not_mem_nil t)⟩
        · rw [hf.2.1, hf.2.2]
          exact ⟨[], rest, rfl, hi, hc, fun t ht => absurd ht (List.not_mem_nil t)⟩
      · have hst : (if |coeff| > tol ∧ st.foundVar = false then
            ({ st with lVarIdx := idx, foundVar := true, lVarCoeff := coeff } :
              Linearizations.UniVarLoop)
            else st) = st := if_neg (fun hh => hc hh.1)
        simp only [hst] at hr ⊢
        have hno : ¬ (st.foundVar = true ∧ st.foundNVar = true) := by
          intro hh
          rw [h] at hh
          exact Bool.noConfusion hh.1
        rw [if_neg hno] at hr ⊢
        obtain ⟨pre, post, he, hne, hgt, hpre⟩ := ih _ h hr
        refine ⟨(idx, coeff) :: pre, post, ?_, hne, hgt, ?_⟩
        · rw [List.cons_append, ← he]
        · intro t ht
          rcases List.mem_cons.mp ht with h1 | h1
          · rw [h1]; exact Or.inr (not_lt.mp hc)
          · exact hpre t h1


theorem Linearizations.uniVarNVar_some (con : Constraint) (n m : Nat)
    (h : Linearizations.uniVarNVar con n = some m) :
    (con.nlf.isSome = true → con.nlfVars.length = 1) ∧
    (con.qf.isSome = true → con.qfVars.length ≤ 1) ∧
    (con.nlf.isSome = true → (con.qf.isSome = false ∨ con.qfVars = []) →
      m = con.nlfVars.getD 0 0) ∧
    (con.nlf.isSome = false → con.qf.isSome = true → con.qfVars ≠ [] →
      m = con.qfVars.getD 0 0) := by
  unfold Linearizations.uniVarNVar at h
  dsimp only at h
  by_cases hn : con.nlf.isSome = true <;> by_cases hq : con.qf.isSome = true <;>
    by_cases hv : con.qfVars = [] <;> simp only [hn, hq, hv, List.length_nil, if_true,
      if_false, true_and, false_and, ne_eq, not_true_eq_false, not_false_eq_true] at h
  all_goals split_ifs at h
  all_goals
    simp only [Option.some.injEq] at h
    subst h
    simp_all

/-- C33, counterexample: for the constraint `x0^3 + x1 + x2 ≤ 1`, whose nonlinear part
depends on `x0` only and whose linear part has the two variables `x1` and `x2`,
`uniVarNlFunc_` returns true, with `nVarIdx = 0`, `lVarIdx = 1` and `lVarCoeff = 1`. -/
theorem uniVarNlFunc_accepts_two_linear_variables :
    Examples.lin.uniVarNlFunc_ Examples.cubeCon Examples.uni0 =
      (true, { lVarCoeff := 1, lVarIdx := 1, nVarIdx := 0, nVarCoeff := 0 }) ∧
    (Examples.cubeCon.lfTerms.getD []).map (fun t => t.1) = [1, 2] ∧
    Examples.cubeCon.nlfVars = [0] := by
  decide!

/-- C33, amended: `uniVarNlFunc_` returns true only if the nonlinear function, when
present, has exactly one variable, the quadratic function, when present, has at
most one variable, and the linear part is present and has a term on a variable
other than `nVarIdx` with a coefficient above `conCoeff_tol` in absolute value;
`lVarIdx` and `lVarCoeff` are then the index and coefficient of the first such
term (other such terms may follow), and `nVarIdx` is the variable of the
nonlinear function when there is no quadratic variable, and the variable of
the quadratic function when there is no nonlinear function. -/
theorem uniVarNlFunc_true (s : Linearizations) (con : Constraint)
    (o : Linearizations.UniVarOut) (h : (s.uniVarNlFunc_ con o).1 = true) :
    (con.nlf.isSome = true → con.nlfVars.length = 1) ∧
    (con.qf.isSome = true → con.qfVars.length ≤ 1) ∧
    (con.nlf.isSome = true → (con.qf.isSome = false ∨ con.qfVars = []) →
      (s.uniVarNlFunc_ con o).2.nVarIdx = con.nlfVars.getD 0 0) ∧
    (con.nlf.isSome = false → con.qf.isSome = true → con.qfVars ≠ [] →
      (s.uniVarNlFunc_ con o).2.nVarIdx = con.qfVars.getD 0 0) ∧
    ∃ terms pre post, con.lfTerms = some terms ∧
      terms = pre ++
        ((s.uniVarNlFunc_ con o).2.lVarIdx, (s.uniVarNlFunc_ con o).2.lVarCoeff) :: post ∧
      (s.uniVarNlFunc_ con o).2.lVarIdx ≠ (s.uniVarNlFunc_ con o).2.nVarIdx ∧
      |(s.uniVarNlFunc_ con o).2.lVarCoeff| > s.conCoeff_tol ∧
      ∀ t ∈ pre, t.1 = (s.uniVarNlFunc_ con o).2.nVarIdx ∨ |t.2| ≤ s.conCoeff_tol := by
  unfold Linearizations.uniVarNlFunc_ at h ⊢
  cases hn : Linearizations.uniVarNVar con o.nVarIdx with
  | none =>
    rw [hn] at h
    exact Bool.noConfusion h
  | some m =>
    rw [hn] at h
    have hm := Linearizations.uniVarNVar_some con o.nVarIdx m hn
    cases hl : con.lfTerms with
    | none =>
      rw [hl] at h
      exact Bool.noConfusion h
    | some terms =>
      rw [hl] at h
      dsimp only at h ⊢
      obtain ⟨pre, post, he, hne, hgt, hpre⟩ :=
        Linearizations.uniVarLfLoop_first s.conCoeff_tol m terms _ rfl h
      exact ⟨hm.1, hm.2.1, hm.2.2.1, hm.2.2.2, terms, pre, post, rfl, he, hne, hgt, hpre⟩

theorem uniVarNlFunc_true_witness :
    (Examples.cubeCon.nlf.isSome = true → Examples.cubeCon.nlfVars.length = 1) ∧
    (Examples.lin.uniVarNlFunc_ Examples.cubeCon Examples.uni0).2.lVarIdx ≠
      (Examples.lin.uniVarNlFunc_ Examples.cubeCon Examples.uni0).2.nVarIdx :=
  match uniVarNlFunc_true Examples.lin Examples.cubeCon Examples.uni0 (by decide!) with
  | ⟨h1, _, _, _, _, _, _, _, _, hne, _, _⟩ => ⟨h1, hne⟩


/-! ### The objective cut of root linearization scheme 3 -/

/-- C35, the code at the failing input: with center (0, 0) and LP point (2, 0), the round
finds the boundary point (1/2, 0) of `x0 * x0 ≤ 1/4` and then the boundary point
(1, 0) of `x0 * x0 + x1 * x1 ≤ 1`; the first is the closer to the center, yet the
objective cut the round adds is `2 * x0 - eta ≤ 1`, the linearization of the
objective at (1, 0), and not `x0 - eta ≤ 1/4`, its linearization at (1/2, 0). -/
theorem rootLinScheme3_linearizes_at_last_point :
    ((Examples.linR3.rootLinScheme3 2 Examples.lpR3 2 SeparationStatus.SepaContinue [] [] 0 0).map
      (fun r => r.1.rel_.cons.map LinConstraint.row)) =
      some [({ terms := [(0, 1)] }, ExtRat.negInf, ExtRat.fin (1 / 2)),
            ({ terms := [(0, 2)] }, ExtRat.negInf, ExtRat.fin 2),
            ({ terms := [(0, 2), (2, -1)] }, ExtRat.negInf, ExtRat.fin 1)] ∧
    (Examples.linR3.cutAtLineSearchPt_ 2 [2, 0, 0] Examples.quarterCon 0).map (fun r => r.2) =
      some (true, [1 / 2, 0]) ∧
    (Examples.linR3.cutAtLineSearchPt_ 2 [2, 0, 0] Examples.circleCon 0).map (fun r => r.2) =
      some (true, [1, 0]) ∧
    getDistanceSq [0, 0] [1 / 2, 0] 2 < getDistanceSq [0, 0] [1, 0] 2 ∧
    (Linearizations.rs3ObjCut Examples.linR3 Examples.circleObj 2 0 [1 / 2, 0]).rel_.cons.map
      LinConstraint.row = [({ terms := [(0, 1), (2, -1)] }, ExtRat.negInf, ExtRat.fin (1 / 4))] := by
  decide!


/-! ### The tangent cuts at the boundary point -/

/-- C32, the code at the failing input: with `xIn = (0, 0)`, `xOut = (2, 2)` and the
constraints `x0 * x0 ≤ 1`, `x0 * x0 + x1 * x1 ≤ 5`, `2 * x1 * x1 ≤ 2`, all violated at
`xOut`, the first and the third are active at the midpoint (1, 1) and the second
is inactive.  The loop erases the second and reads the first again, so
`activeConsAct` is `[1, 1, 2]` for the two retained constraints, and the cut of the
third constraint is built from the activity 1 of the first: it is
`4 * x1 ≤ 5`, whereas the linearization of `2 * x1 * x1 ≤ 2` at (1, 1) is
`4 * x1 ≤ 4`. -/
theorem findBoundaryPt_cut_from_other_activity :
    ((Linearizations.fbLoop Examples.linGS [1, 1] 4
        { vioCons := [Examples.unitCon, Examples.circle5Con, Examples.twoSqCon], k := 0,
          activeConsAct := [], vioNLCons := false, firstVio := false, firstActive := false,
          activeNLCons := false }).map
      (fun r => (r.1, r.2.vioCons.map (fun c => c.name), r.2.activeConsAct))) =
      some (false, ["cA", "cC"], [1, 1, 2]) ∧
    ((Examples.linGS.findBoundaryPt_ 4 [2, 2] [0, 0]
        [Examples.unitCon, Examples.circle5Con, Examples.twoSqCon]).map
      (fun r => (r.ret, r.isPtFound, r.vioCons.map (fun c => c.name)))) =
      some (false, true, ["cA", "cC"]) ∧
    ((Examples.linGS.findBoundaryPt_ 4 [2, 2] [0, 0]
        [Examples.unitCon, Examples.circle5Con, Examples.twoSqCon]).map
      (fun r => r.s.rel_.cons.map LinConstraint.row)) =
      some [({ terms := [(0, 2)] }, ExtRat.negInf, ExtRat.fin 2),
            ({ terms := [(1, 4)] }, ExtRat.negInf, ExtRat.fin 5)] ∧
    gradCut Examples.twoSqCon.f [1, 1] 2 2 Examples.linGS.conCoeff_tol Examples.twoSqCon.ub =
      ({ terms := [(1, 4)] }, ExtRat.negInf, ExtRat.fin 4) := by
  decide!


/-! ### The sampling loops of root linearization scheme 2 -/

theorem getD_set_self (l : List ℚ) (i : Nat) (v : ℚ) (h : i < l.length) :
    (l.set i v).getD i 0 = v := by
  simp [List.getD_eq_getElem?_getD, h]

theorem Linearizations.rScheme2Cut_delta (s : Linearizations) (con : Constraint)
    (delta lVarCoeff lastSlope : ℚ) (nVarIdx : Nat) (npt grad : List ℚ) :
    (s.rScheme2Cut_ con delta lVarCoeff lastSlope nVarIdx npt grad).2.1 = delta ∨
    (s.rScheme2Cut_ con delta lVarCoeff lastSlope nVarIdx npt grad).2.1 = 2 * delta := by
  unfold Linearizations.rScheme2Cut_
  cases con.f.evalGradient npt grad with
  | none => exact Or.inl rfl
  | some g =>
    dsimp only
    split_ifs
    · exact Or.inr rfl
    · exact Or.inl rfl

theorem Linearizations.rScheme2Cut_delta_ge (s : Linearizations) (con : Constraint)
    (delta lVarCoeff lastSlope : ℚ) (nVarIdx : Nat) (npt grad : List ℚ) (h : 0 < delta) :
    delta ≤ (s.rScheme2Cut_ con delta lVarCoeff lastSlope nVarIdx npt grad).2.1 := by
  rcases Linearizations.rScheme2Cut_delta s con delta lVarCoeff lastSlope nVarIdx npt grad
    with h1 | h1
  · rw [h1]
  · rw [h1]; linarith

theorem Linearizations.rs2SampleLoop_mono (con : Constraint) (lVarCoeff : ℚ)
    (lVarIdx nVarIdx : Nat) (up : Bool) (nbhSize : ℚ) (extra : Nat) :
    ∀ (fuel : Nat) (st r : Linearizations.RS2Loop),
      Linearizations.rs2SampleLoop con lVarCoeff lVarIdx nVarIdx up nbhSize fuel st = some r →
      Linearizations.rs2SampleLoop con lVarCoeff lVarIdx nVarIdx up nbhSize (fuel + extra) st
        = some r := by
  intro fuel
  induction fuel with
  | zero =>
    intro st r h
    unfold Linearizations.rs2SampleLoop at h
    by_cases hc : (if up = true then st.npt.getD nVarIdx 0 ≤ nbhSize
      else st.npt.getD nVarIdx 0 ≥ nbhSize)
    · rw [if_pos hc] at h
      cases h
    · rw [if_neg hc] at h
      cases extra with
      | zero =>
        unfold Linearizations.rs2SampleLoop
        rw [if_neg hc]
        exact h
      | succ e =>
        rw [Nat.zero_add]
        unfold Linearizations.rs2SampleLoop
        rw [if_neg hc]
        exact h
  | succ fuel ih =>
    intro st r h
    rw [Nat.add_right_comm]
    unfold Linearizations.rs2SampleLoop at h ⊢
    by_cases hc : (if up = true then st.npt.getD nVarIdx 0 ≤ nbhSize
      else st.npt.getD nVarIdx 0 ≥ nbhSize)
    · rw [if_pos hc] at h ⊢
      exact ih _ _ h
    · rw [if_neg hc] at h ⊢
      exact h

theorem Linearizations.rs2SampleLoop_ends (con : Constraint) (lVarCoeff : ℚ)
    (lVarIdx nVarIdx : Nat) (up : Bool) (nbhSize d0 b : ℚ) (hd0 : 0 < d0) :
    ∀ (fuel : Nat) (st : Linearizations.RS2Loop),
      d0 ≤ st.delta → nVarIdx < st.npt.length →
      (if up = true then b ≤ st.npt.getD nVarIdx 0 ∧ nbhSize - st.npt.getD nVarIdx 0 < fuel * d0
        else st.npt.getD nVarIdx 0 ≤ b ∧ st.npt.getD nVarIdx 0 - nbhSize < fuel * d0) →
      (∀ p ∈ st.samples,
        (if up = true then b ≤ p.1 ∧ p.1 ≤ nbhSize else nbhSize ≤ p.1 ∧ p.1 ≤ b) ∧
        0 < p.2 ∧ p.2 ≤ st.delta) →
      st.samples.Pairwise (fun a c => a.2 ≤ c.2) →
      ∃ r, Linearizations.rs2SampleLoop con lVarCoeff lVarIdx nVarIdx up nbhSize fuel st = some r ∧
        (∀ p ∈ r.samples,
          (if up = true then b ≤ p.1 ∧ p.1 ≤ nbhSize else nbhSize ≤ p.1 ∧ p.1 ≤ b) ∧ 0 < p.2) ∧
        r.samples.Pairwise (fun a c => a.2 ≤ c.2) ∧ r.npt.length = st.npt.length := by
  intro fuel
  induction fuel with
  | zero =>
    intro st hdel hlen hm hs hpw
    have hc : ¬ (if up = true then st.npt.getD nVarIdx 0 ≤ nbhSize
        else st.npt.getD nVarIdx 0 ≥ nbhSize) := by
      cases up
      · simp only [Bool.false_eq_true, if_false, Nat.cast_zero, zero_mul] at hm ⊢
        intro hh
        linarith [hm.2]
      · simp only [if_true, Nat.cast_zero, zero_mul] at hm ⊢
        intro hh
        linarith [hm.2]
    unfold Linearizations.rs2SampleLoop
    rw [if_neg hc]
    exact ⟨st, rfl, fun p hp => ⟨(hs p hp).1, (hs p hp).2.1⟩, hpw, rfl⟩
  | succ fuel ih =>
    intro st hdel hlen hm hs hpw
    by_cases hc : (if up = true then st.npt.getD nVarIdx 0 ≤ nbhSize
      else st.npt.getD nVarIdx 0 ≥ nbhSize)
    · unfold Linearizations.rs2SampleLoop
      rw [if_pos hc]
      dsimp only
      have hpos : 0 < st.delta := lt_of_lt_of_le hd0 hdel
      have hge := Linearizations.rScheme2Cut_delta_ge st.s con st.delta lVarCoeff st.lastSlope
        nVarIdx st.npt ((st.grad.set nVarIdx 0).set lVarIdx 0) hpos
      generalize st.s.rScheme2Cut_ con st.delta lVarCoeff st.lastSlope nVarIdx st.npt
        ((st.grad.set nVarIdx 0).set lVarIdx 0) = r at hge ⊢
      have hlen2 : ∀ v : ℚ, (st.npt.set nVarIdx v).length = st.npt.length :=
        fun v => List.length_set _ _ _
      obtain ⟨r2, hr2, hs2, hpw2, hl2⟩ := ih
        { s := r.1, delta := r.2.1, lastSlope := r.2.2.1,
          npt := st.npt.set nVarIdx
            (if up = true then st.npt.getD nVarIdx 0 + r.2.1 else st.npt.getD nVarIdx 0 - r.2.1),
          grad := r.2.2.2, samples := st.samples ++ [(st.npt.getD nVarIdx 0, st.delta)] }
        (le_trans hdel hge)
        (by rw [hlen2]; exact hlen)
        (by
          dsimp only
          rw [getD_set_self _ _ _ hlen]
          cases up
          · simp only [Bool.false_eq_true, if_false, Nat.cast_succ] at hm hc ⊢
            constructor
            · linarith [hm.1]
            · nlinarith [hm.2]
          · simp only [if_true, Nat.cast_succ] at hm hc ⊢
            constructor
            · linarith [hm.1]
            · nlinarith [hm.2])
        (by
          intro p hp
          dsimp only at hp ⊢
          rcases List.mem_append.mp hp with h1 | h1
          · exact ⟨(hs p h1).1, (hs p h1).2.1, le_trans (hs p h1).2.2 hge⟩
          · simp only [List.mem_singleton] at h1
            subst h1
            refine ⟨?_, hpos, hge⟩
            cases up
            · simp only [Bool.false_eq_true, if_false] at hm hc ⊢
              exact ⟨hc, hm.1⟩
            · simp only [if_true] at hm hc ⊢
              exact ⟨hm.1, hc⟩)
        (by
          dsimp only
          rw [List.pairwise_append]
          refine ⟨hpw, List.pairwise_singleton _ _, ?_⟩
          intro a ha c hcm
          simp only [List.mem_singleton] at hcm
          subst hcm
          exact (hs a ha).2.2)
      refine ⟨r2, hr2, hs2, hpw2, ?_⟩
      rw [hl2]
      exact hlen2 _
    · unfold Linearizations.rs2SampleLoop
      rw [if_neg hc]
      exact ⟨st, rfl, fun p hp => ⟨(hs p hp).1, (hs p hp).2.1⟩, hpw, rfl⟩


theorem Linearizations.rs2SampleLoop_guarded (con : Constraint) (lVarCoeff : ℚ)
    (lVarIdx nVarIdx : Nat) (up : Bool) (nbhSize b : ℚ) (st : Linearizations.RS2Loop)
    (hdel : 0 ≤ st.delta) (hlen : nVarIdx < st.npt.length) (hemp : st.samples = [])
    (hb : if up = true then b ≤ st.npt.getD nVarIdx 0 else st.npt.getD nVarIdx 0 ≤ b) :
    ∃ fuel r,
      (∀ extra, (if st.delta ≠ 0 then
          Linearizations.rs2SampleLoop con lVarCoeff lVarIdx nVarIdx up nbhSize (fuel + extra) st
        else some st) = some r) ∧
      (∀ p ∈ r.samples,
        (if up = true then b ≤ p.1 ∧ p.1 ≤ nbhSize else nbhSize ≤ p.1 ∧ p.1 ≤ b) ∧ 0 < p.2) ∧
      r.samples.Pairwise (fun a c => a.2 ≤ c.2) ∧ r.npt.length = st.npt.length ∧
      (st.delta = 0 → r.samples = []) := by
  by_cases h0 : st.delta = 0
  · refine ⟨0, st, fun e => by rw [if_neg (not_not.mpr h0)], ?_, ?_, rfl, fun _ => hemp⟩
    · rw [hemp]
      intro p hp
      cases hp
    · rw [hemp]
      exact List.Pairwise.nil
  · have hpos : 0 < st.delta := lt_of_le_of_ne hdel (Ne.symm h0)
    have hfl : ∀ a : ℚ, a < ((⌊a / st.delta⌋₊ + 1 : ℕ) : ℚ) * st.delta := by
      intro a
      have h1 : a / st.delta < ((⌊a / st.delta⌋₊ + 1 : ℕ) : ℚ) := by
        push_cast
        exact Nat.lt_floor_add_one _
      exact (div_lt_iff₀ hpos).mp h1
    obtain ⟨r, hr, hs, hpw, hl⟩ := Linearizations.rs2SampleLoop_ends con lVarCoeff lVarIdx
      nVarIdx up nbhSize st.delta b hpos
      (⌊(if up = true then nbhSize - st.npt.getD nVarIdx 0
          else st.npt.getD nVarIdx 0 - nbhSize) / st.delta⌋₊ + 1) st le_rfl hlen
      (by
        have := hfl (if up = true then nbhSize - st.npt.getD nVarIdx 0
          else st.npt.getD nVarIdx 0 - nbhSize)
        cases up
        · simp only [Bool.false_eq_true, if_false] at hb this ⊢
          exact ⟨hb, this⟩
        · simp only [if_true] at hb this ⊢
          exact ⟨hb, this⟩)
      (by rw [hemp]; intro p hp; cases hp)
      (by rw [hemp]; exact List.Pairwise.nil)
    generalize ⌊(if up = true then nbhSize - st.npt.getD nVarIdx 0
      else st.npt.getD nVarIdx 0 - nbhSize) / st.delta⌋₊ + 1 = fuel at hr
    refine ⟨fuel, r, fun e => ?_, hs, hpw, hl, fun h => absurd h h0⟩
    rw [if_pos h0]
    exact Linearizations.rs2SampleLoop_mono con lVarCoeff lVarIdx nVarIdx up nbhSize e fuel st r hr


theorem Linearizations.rs2Low_le (lb : ExtRat) (v nbh : ℚ) (h : lb.ble (ExtRat.fin v) = true)
    (hn : 0 ≤ nbh) : ∃ low, Linearizations.rs2Low lb (v - nbh) = some low ∧ low ≤ v := by
  cases lb with
  | negInf => exact ⟨v - nbh, rfl, by linarith⟩
  | fin b =>
    have hb : b ≤ v := by simpa [ExtRat.ble] using h
    exact ⟨max b (v - nbh), rfl, max_le hb (by linarith)⟩
  | posInf => simp [ExtRat.ble] at h

theorem Linearizations.rs2High_ge (ub : ExtRat) (v nbh : ℚ) (h : (ExtRat.fin v).ble ub = true)
    (hn : 0 ≤ nbh) : ∃ high, Linearizations.rs2High ub (v + nbh) = some high ∧ v ≤ high := by
  cases ub with
  | posInf => exact ⟨v + nbh, rfl, by linarith⟩
  | fin b =>
    have hb : v ≤ b := by simpa [ExtRat.ble] using h
    exact ⟨min b (v + nbh), rfl, le_min hb (by linarith)⟩
  | negInf => simp [ExtRat.ble] at h

/-- C39: if the NLP value of the nonlinear variable lies within its bounds and
`rs2NbhSize_` is non-negative, both sampling loops of `rootLinScheme2_` end (with enough
fuel the embedding returns, and more fuel gives the same result); every point
at which `rScheme2Cut_` is called lies between `max(lb, nlpx - rs2NbhSize_)` and
`min(ub, nlpx + rs2NbhSize_)`, the step `delta` is positive at every call and, within a
loop, never smaller than at the call before. -/
theorem rootLinScheme2_terminates (s : Linearizations) (con : Constraint) (lVarCoeff : ℚ)
    (lVarIdx nVarIdx : Nat) (hidx : nVarIdx < s.minlp_.vars.length)
    (hlb : (s.rel_.getVariable nVarIdx).lb.ble (ExtRat.fin (s.nlpx_.getD nVarIdx 0)) = true)
    (hub : (ExtRat.fin (s.nlpx_.getD nVarIdx 0)).ble (s.rel_.getVariable nVarIdx).ub = true)
    (hnbh : 0 ≤ s.rs2NbhSize_) :
    ∃ fuel r nbhLow nbhHigh,
      (∀ extra, s.rootLinScheme2_ (fuel + extra) con lVarCoeff lVarIdx nVarIdx = some r) ∧
      Linearizations.rs2Low (s.rel_.getVariable nVarIdx).lb
        (s.nlpx_.getD nVarIdx 0 - s.rs2NbhSize_) = some nbhLow ∧
      Linearizations.rs2High (s.rel_.getVariable nVarIdx).ub
        (s.nlpx_.getD nVarIdx 0 + s.rs2NbhSize_) = some nbhHigh ∧
      (∀ p ∈ r.1.samples ++ r.2.samples, nbhLow ≤ p.1 ∧ p.1 ≤ nbhHigh ∧ 0 < p.2) ∧
      r.1.samples.Pairwise (fun a c => a.2 ≤ c.2) ∧
      r.2.samples.Pairwise (fun a c => a.2 ≤ c.2) := by
  obtain ⟨low, hL, hlow⟩ := Linearizations.rs2Low_le _ _ _ hlb hnbh
  obtain ⟨high, hH, hhigh⟩ := Linearizations.rs2High_ge _ _ _ hub hnbh
  have hd1 : 0 ≤ (if s.nlpx_.getD nVarIdx 0 - low ≥ 1 then (1 / 2 : ℚ)
      else s.nlpx_.getD nVarIdx 0 - low) := by
    split_ifs
    · norm_num
    · linarith
  have hd2 : 0 ≤ (if high - s.nlpx_.getD nVarIdx 0 ≥ 1 then (1 / 2 : ℚ)
      else high - s.nlpx_.getD nVarIdx 0) := by
    split_ifs
    · norm_num
    · linarith
  have hlen0 : nVarIdx < (List.replicate s.minlp_.vars.length (0 : ℚ)).length := by
    rw [List.length_replicate]
    exact hidx
  obtain ⟨f1, r1, h1, hs1, hp1, hl1, _⟩ := Linearizations.rs2SampleLoop_guarded con lVarCoeff
    lVarIdx nVarIdx false low (s.nlpx_.getD nVarIdx 0)
    { s := s,
      delta := if s.nlpx_.getD nVarIdx 0 - low ≥ 1 then 1 / 2 else s.nlpx_.getD nVarIdx 0 - low,
      lastSlope := -1 * ((((con.f.evalGradient s.nlpx_
        (List.replicate s.minlp_.vars.length 0)).getD
          (List.replicate s.minlp_.vars.length 0)).getD nVarIdx 0) / lVarCoeff),
      npt := (List.replicate s.minlp_.vars.length 0).set nVarIdx
        (s.nlpx_.getD nVarIdx 0 - (if s.nlpx_.getD nVarIdx 0 - low ≥ 1 then 1 / 2
          else s.nlpx_.getD nVarIdx 0 - low)),
      grad := (con.f.evalGradient s.nlpx_ (List.replicate s.minlp_.vars.length 0)).getD
        (List.replicate s.minlp_.vars.length 0),
      samples := [] }
    hd1 (by rw [List.length_set]; exact hlen0) rfl
    (by
      simp only [Bool.false_eq_true, if_false]
      rw [getD_set_self _ _ _ hlen0]
      linarith)
  have hlen1 : nVarIdx < r1.npt.length := by
    rw [hl1, List.length_set]
    exact hlen0
  obtain ⟨f2, r2, h2, hs2, hp2, _, _⟩ := Linearizations.rs2SampleLoop_guarded con lVarCoeff
    lVarIdx nVarIdx true high (s.nlpx_.getD nVarIdx 0)
    { s := r1.s,
      delta := if high - s.nlpx_.getD nVarIdx 0 ≥ 1 then 1 / 2 else high - s.nlpx_.getD nVarIdx 0,
      lastSlope := -1 * ((((con.f.evalGradient s.nlpx_
        (List.replicate s.minlp_.vars.length 0)).getD
          (List.replicate s.minlp_.vars.length 0)).getD nVarIdx 0) / lVarCoeff),
      npt := r1.npt.set nVarIdx
        (s.nlpx_.getD nVarIdx 0 + (if high - s.nlpx_.getD nVarIdx 0 ≥ 1 then 1 / 2
          else high - s.nlpx_.getD nVarIdx 0)),
      grad := r1.grad,
      samples := [] }
    hd2 (by rw [List.length_set]; exact hlen1) rfl
    (by
      simp only [if_true]
      rw [getD_set_self _ _ _ hlen1]
      linarith)
  refine ⟨f1 + f2, (r1, r2), low, high, ?_, hL, hH, ?_, hp1, hp2⟩
  · intro extra
    have e1 := h1 (f2 + extra)
    have e2 := h2 (f1 + extra)
    rw [← Nat.add_assoc] at e1
    rw [← Nat.add_assoc, Nat.add_comm f2 f1] at e2
    unfold Linearizations.rootLinScheme2_
    simp only [hL, hH]
    rw [e1]
    simp only []
    rw [e2]
  · intro p hp
    rcases List.mem_append.mp hp with h | h
    · have := hs1 p h
      simp only [Bool.false_eq_true, if_false] at this
      exact ⟨this.1.1, le_trans this.1.2 hhigh, this.2⟩
    · have := hs2 p h
      simp only [if_true] at this
      exact ⟨le_trans hlow this.1.1, this.1.2, this.2⟩


theorem rootLinScheme2_terminates_witness :
    (0 < Examples.linS2.minlp_.vars.length ∧ 0 ≤ Examples.linS2.rs2NbhSize_) ∧
    ∃ fuel r nbhLow nbhHigh,
      (∀ extra, Examples.linS2.rootLinScheme2_ (fuel + extra) Examples.paraCon (-1) 1 0 = some r) ∧
      Linearizations.rs2Low (Examples.linS2.rel_.getVariable 0).lb
        (Examples.linS2.nlpx_.getD 0 0 - Examples.linS2.rs2NbhSize_) = some nbhLow ∧
      Linearizations.rs2High (Examples.linS2.rel_.getVariable 0).ub
        (Examples.linS2.nlpx_.getD 0 0 + Examples.linS2.rs2NbhSize_) = some nbhHigh ∧
      (∀ p ∈ r.1.samples ++ r.2.samples, nbhLow ≤ p.1 ∧ p.1 ≤ nbhHigh ∧ 0 < p.2) ∧
      r.1.samples.Pairwise (fun a c => a.2 ≤ c.2) ∧
      r.2.samples.Pairwise (fun a c => a.2 ≤ c.2) :=
  ⟨⟨by decide, by decide!⟩,
    rootLinScheme2_terminates Examples.linS2 Examples.paraCon (-1) 1 0 (by decide) (by decide!)
      (by decide!) (by decide!)⟩


end Minotaur
